import Mathlib

/-!
# Classic2 consensus core: proof of work, difficulty retargeting and AuxPoW

A shallow embedding of `src/pow.cpp`, `src/auxpow.cpp`, `src/auxpow.h`,
`src/primitives/pureheader.h`, `src/primitives/block.h` and `src/consensus/params.h`,
followed by theorems about the embedded functions.

Conventions of the embedding

* `uint256` and `arith_uint256` values are represented by the natural number they
  denote (`UintToArith256` reads the 32 bytes little-endian, so it is the identity
  on this representation); arithmetic on `arith_uint256` wraps modulo `2^256`.
* `int`, `int32_t` and `int64_t` values are `Int`; signed overflow is undefined
  behaviour in C++ and is not modelled (the arithmetic is exact).
* `unsigned`/`uint32_t` values are `Nat`, reduced modulo `2^32` where the code wraps.
* A pointer to a `CBlockIndex` is the list of the nodes reached by following
  `pprev`, the pointed node first; the null pointer is the empty list.
* A function that can dereference a null pointer, fail an assertion or divide by
  zero returns an `Option`; `none` stands for such an abnormal termination.
-/

set_option maxRecDepth 8192

namespace Classic2

/-! ## Compact targets (`arith_uint256`) -/

/-- The modulus of 256-bit unsigned arithmetic. -/
def U256 : Nat := 2 ^ 256

/-- Position of the highest set bit plus one, scanning at most `fuel` bits. -/
def bitsAux : Nat → Nat → Nat
  | 0, _ => 0
  | fuel + 1, v => if v = 0 then 0 else bitsAux fuel (v / 2) + 1

/-- Modelled from the spec: `base_uint::bits()` of the missing `arith_uint256.cpp`, the
number of significant bits of a 256-bit value (0 for zero). -/
def bits (v : Nat) : Nat := bitsAux 256 v

/-- Result of `arith_uint256::SetCompact`: the decoded value and the two flags. -/
structure Compact where
  value : Nat
  fNegative : Bool
  fOverflow : Bool
deriving DecidableEq, Repr

/-- Modelled from the spec: `arith_uint256.cpp` is not among the sources; the spec (§4.1)
asks for the Bitcoin reference decoding of compact bits, mantissa × 256^(exponent-3)
with a sign bit.  The mantissa is the low 23 bits, the exponent the top byte; for an
exponent of at most 3 the mantissa is shifted right, otherwise the value is shifted
left inside 256 bits.  The flags are computed from the (possibly shifted) mantissa. -/
def SetCompact (nCompact : Nat) : Compact :=
  let nSize := nCompact >>> 24
  let nWord0 := nCompact &&& 0x007fffff
  let nWord := if nSize ≤ 3 then nWord0 >>> (8 * (3 - nSize)) else nWord0
  let value := if nSize ≤ 3 then nWord else (nWord <<< (8 * (nSize - 3))) % U256
  { value := value
    fNegative := decide (nWord ≠ 0) && decide (nCompact &&& 0x00800000 ≠ 0)
    fOverflow := decide (nWord ≠ 0) &&
      (decide (nSize > 34) || (decide (nWord > 0xff) && decide (nSize > 33)) ||
        (decide (nWord > 0xffff) && decide (nSize > 32))) }

/-- Modelled from the spec: `arith_uint256.cpp` is not among the sources; the spec (§4.1)
asks for the Bitcoin reference encoding, including the normalisation that moves a
mantissa with its sign bit set one byte down and increases the exponent.  The sign
argument of the reference is always false in this code base. -/
def GetCompact (v : Nat) : Nat :=
  let nSize := (bits v + 7) / 8
  let nCompact := (if nSize ≤ 3 then v <<< (8 * (3 - nSize)) else v >>> (8 * (nSize - 3))) % 2 ^ 32
  let nCompact1 := if nCompact &&& 0x00800000 ≠ 0 then nCompact >>> 8 else nCompact
  let nSize1 := if nCompact &&& 0x00800000 ≠ 0 then nSize + 1 else nSize
  (nCompact1 ||| (nSize1 <<< 24)) % 2 ^ 32

/-- Modelled from the spec: `base_uint::operator*=(uint32_t)` of the missing
`arith_uint256.h`, the overload chosen for an integer right operand ("* (by small
integer)", §4.1): the operand is converted to 32 bits and the product wraps. -/
def mulSmall (a : Nat) (b : Int) : Nat := (a * (b % 2 ^ 32).toNat) % U256

/-- Modelled from the spec: `base_uint::operator/=(const base_uint&)` of the missing
`arith_uint256.h` applied to an integer converted through `uint64_t` ("/ (by small
integer)", §4.1); a zero divisor makes the reference throw. -/
def divSmall (a : Nat) (b : Int) : Option Nat :=
  let d := (b % 2 ^ 64).toNat
  if d = 0 then none else some (a / d)

/-! ### Arithmetic description of the compact encoding -/

/-- The exponent byte of the compact encoding of a non-zero value. -/
def compactExp (v : Nat) : Nat := bits v / 8 + 1

/-- The mantissa of the compact encoding of a non-zero value. -/
def compactMantissa (v : Nat) : Nat :=
  if compactExp v ≤ 3 then v * 2 ^ (8 * (3 - compactExp v)) else v / 2 ^ (8 * (compactExp v - 3))

/-- The value that the compact encoding of `v` decodes to: `v` with everything below
its three leading bytes cleared. -/
def compactRound (v : Nat) : Nat :=
  if compactExp v ≤ 3 then v
  else v / 2 ^ (8 * (compactExp v - 3)) * 2 ^ (8 * (compactExp v - 3))

/-! ## Consensus parameters (`consensus/params.h`) -/

/-- The fields of `Consensus::Params` read by the embedded code.  `powdinlimit`,
`nHardForkHeight` and `fStrictChainId` are read by `pow.cpp` and `auxpow.cpp`; their
declarations are not in the `params.h` at hand. -/
structure Params where
  powLimit : Nat
  fPowAllowMinDifficultyBlocks : Bool
  fPowNoRetargeting : Bool
  nPowTargetSpacing : Int
  nPowTargetTimespan : Int
  pownewlimit : Nat
  powmaxlimit : Nat
  powdinlimit : Nat
  nNewPowDiffHeight : Int
  nPowAveragingWindow : Int
  nPowMaxAdjustDown : Int
  nPowMaxAdjustUp : Int
  nPostBlossomPowTargetSpacing : Int
  nMinBlockSpacingStartHeight : Int
  nHardForkHeight : Int
  fStrictChainId : Bool
deriving DecidableEq, Repr

/-- Signed division truncating toward zero, with the zero divisor as failure. -/
def sdiv (a b : Int) : Option Int := if b = 0 then none else some (Int.tdiv a b)

/-- Signed remainder of truncating division, with the zero divisor as failure. -/
def smod (a b : Int) : Option Int := if b = 0 then none else some (Int.tmod a b)

/-- `Params::DifficultyAdjustmentInterval`. -/
def Params.DifficultyAdjustmentInterval (p : Params) : Option Int :=
  sdiv p.nPowTargetTimespan p.nPowTargetSpacing

/-- `Params::AveragingWindowTimespan`. -/
def Params.AveragingWindowTimespan (p : Params) : Int :=
  if p.nPowAveragingWindow ≤ 0 ∨ p.nPostBlossomPowTargetSpacing ≤ 0 then 1
  else p.nPowAveragingWindow * p.nPostBlossomPowTargetSpacing

/-- `Params::MinActualTimespan`. -/
def Params.MinActualTimespan (p : Params) : Int :=
  let timespan := p.AveragingWindowTimespan
  if p.nPowMaxAdjustUp ≥ 100 then Int.tdiv timespan 100
  else Int.tdiv (timespan * (100 - p.nPowMaxAdjustUp)) 100

/-- `Params::MaxActualTimespan`. -/
def Params.MaxActualTimespan (p : Params) : Int :=
  let timespan := p.AveragingWindowTimespan
  Int.tdiv (timespan * (100 + p.nPowMaxAdjustDown)) 100

/-! ## Proof-of-work check (`pow.cpp`) -/

/-- `CheckProofOfWork`. -/
def CheckProofOfWork (hash : Nat) (nBits : Nat) (params : Params) : Bool :=
  let c := SetCompact nBits
  let bnTarget := c.value
  if c.fNegative || decide (bnTarget = 0) || c.fOverflow || decide (bnTarget > params.powLimit) then
    false
  else if hash > bnTarget then
    false
  else
    true

/-! ## Block headers and the chain index -/

/-- Conversion of a signed 32-bit value to `uint32_t` (two's complement). -/
def toU32 (x : Int) : Nat := (x % 2 ^ 32).toNat

/-- The `int32_t` with the given two's complement bits. -/
def toI32 (x : Nat) : Int :=
  if x % 2 ^ 32 < 2 ^ 31 then (x % 2 ^ 32 : Nat) else (x % 2 ^ 32 : Nat) - 2 ^ 32

/-- `CPureBlockHeader` (`primitives/pureheader.h`). -/
structure CPureBlockHeader where
  nVersion : Int
  hashPrevBlock : Nat
  hashMerkleRoot : Nat
  nTime : Nat
  nBits : Nat
  nNonce : Nat
deriving DecidableEq, Repr

/-- `CPureBlockHeader::VERSION_AUXPOW`. -/
def VERSION_AUXPOW : Int := 2 ^ 8

/-- `CPureBlockHeader::VERSION_CHAIN_START`. -/
def VERSION_CHAIN_START : Int := 2 ^ 16

/-- `CPureBlockHeader::GetBlockTime`. -/
def CPureBlockHeader.GetBlockTime (h : CPureBlockHeader) : Int := (h.nTime : Int)

/-- `CPureBlockHeader::GetChainId`. -/
def CPureBlockHeader.GetChainId (h : CPureBlockHeader) : Int :=
  Int.tdiv h.nVersion VERSION_CHAIN_START

/-- `CPureBlockHeader::IsAuxpow`: bit 8 of the version, read in two's complement. -/
def CPureBlockHeader.IsAuxpow (h : CPureBlockHeader) : Bool :=
  decide (toU32 h.nVersion &&& 0x100 ≠ 0)

/-- The static `CPureBlockHeader::GetBaseVersion(int32_t ver)`: `ver % VERSION_AUXPOW`, the
remainder of the division that truncates toward zero. -/
def GetBaseVersion (ver : Int) : Int := Int.tmod ver VERSION_AUXPOW

/-- `CPureBlockHeader::GetBaseVersion`. -/
def CPureBlockHeader.GetBaseVersion (h : CPureBlockHeader) : Int :=
  Classic2.GetBaseVersion h.nVersion

/-- `CPureBlockHeader::IsLegacy`. -/
def CPureBlockHeader.IsLegacy (h : CPureBlockHeader) : Bool := decide (h.nVersion = 1)

/-- `CPureBlockHeader::SetChainId`: `nVersion %= VERSION_CHAIN_START`, the remainder of
the division that truncates toward zero, then `nVersion |= chainId * VERSION_CHAIN_START`,
the bitwise or of the two's complement bits. -/
def CPureBlockHeader.SetChainId (h : CPureBlockHeader) (chainId : Int) : CPureBlockHeader :=
  let nVersion1 := Int.tmod h.nVersion VERSION_CHAIN_START
  { h with nVersion := toI32 (toU32 nVersion1 ||| toU32 (chainId * VERSION_CHAIN_START)) }

/-- `CPureBlockHeader::SetAuxpowVersion`: `nVersion |= VERSION_AUXPOW` or
`nVersion &= ~VERSION_AUXPOW` on the two's complement bits; `~x` is `-x - 1`. -/
def CPureBlockHeader.SetAuxpowVersion (h : CPureBlockHeader) (auxpow : Bool) :
    CPureBlockHeader :=
  if auxpow then { h with nVersion := toI32 (toU32 h.nVersion ||| toU32 VERSION_AUXPOW) }
  else { h with nVersion := toI32 (toU32 h.nVersion &&& toU32 (-VERSION_AUXPOW - 1)) }

/-- The fields of `CBlockIndex` (`chain.h`, not among the sources) read by `pow.cpp`.
The predecessor pointer `pprev` is the tail of the list that holds the node. -/
structure CBlockIndex where
  nHeight : Int
  nTime : Nat
  nBits : Nat
deriving DecidableEq, Repr

/-- `CBlockIndex::GetBlockTime`. -/
def CBlockIndex.GetBlockTime (b : CBlockIndex) : Int := (b.nTime : Int)

/-- Modelled from the spec: `CBlockIndex::GetAncestor` (`chain.cpp`) is not among the
sources; §4.6 asks for the ancestor at the given height on the same chain, or null
if the height is out of range. -/
def GetAncestor : List CBlockIndex → Int → List CBlockIndex
  | [], _ => []
  | b :: rest, height =>
    if height > b.nHeight ∨ height < 0 then []
    else if b.nHeight = height then b :: rest
    else GetAncestor rest height

/-! ## Transactions, the AuxPoW payload and full headers -/

/-- `COutPoint` (`primitives/transaction.h`, not among the sources). -/
structure COutPoint where
  hash : Nat
  n : Nat
deriving DecidableEq, Repr

/-- The fields of `CTxIn` touched by `auxpow.cpp`; a script is its list of bytes. -/
structure CTxIn where
  prevout : COutPoint
  scriptSig : List Nat
deriving DecidableEq, Repr

/-- The fields of `CTransaction` touched by `auxpow.cpp`; an output is its script. -/
structure CTransaction where
  vin : List CTxIn
  vout : List (List Nat)
deriving DecidableEq, Repr

/-- `CAuxPow` (`auxpow.h`). -/
structure CAuxPow where
  coinbaseTx : CTransaction
  vMerkleBranch : List Nat
  vChainMerkleBranch : List Nat
  nChainIndex : Int
  parentBlock : CPureBlockHeader
deriving DecidableEq, Repr

/-- `CBlockHeader` (`primitives/block.h`): a pure header and an optional payload. -/
structure CBlockHeader extends CPureBlockHeader where
  auxpow : Option CAuxPow
deriving DecidableEq, Repr

/-- `CBlockHeader::GetBlockTime`, inherited from the pure header. -/
def CBlockHeader.GetBlockTime (h : CBlockHeader) : Int := h.toCPureBlockHeader.GetBlockTime

/-! ## Difficulty retargeting (`pow.cpp`) -/

/-- `CalculateNextWorkRequired`. -/
def CalculateNextWorkRequired (pindexLast : CBlockIndex) (nFirstBlockTime : Int)
    (params : Params) : Option Nat :=
  if params.fPowNoRetargeting then some pindexLast.nBits
  else
    -- Limit adjustment step
    let nActualTimespan0 := pindexLast.GetBlockTime - nFirstBlockTime
    let nActualTimespan1 :=
      if nActualTimespan0 < Int.tdiv params.nPowTargetTimespan 4 then
        Int.tdiv params.nPowTargetTimespan 4
      else nActualTimespan0
    let nActualTimespan :=
      if nActualTimespan1 > params.nPowTargetTimespan * 4 then params.nPowTargetTimespan * 4
      else nActualTimespan1
    -- Retarget
    let bnPowLimit := params.powLimit
    let bnNew0 := (SetCompact pindexLast.nBits).value
    let bnNew1 := mulSmall bnNew0 nActualTimespan
    match divSmall bnNew1 params.nPowTargetTimespan with
    | none => none
    | some bnNew2 =>
      let bnNew := if bnNew2 > bnPowLimit then bnPowLimit else bnNew2
      some (GetCompact bnNew)

/-- `CalculateNextWorkRequiredNew`. -/
def CalculateNextWorkRequiredNew (bnAvg : Nat) (nFirstBlockTime nLastBlockTime : Int)
    (params : Params) : Option Nat :=
  let averagingWindowTimespan := params.AveragingWindowTimespan
  let minActualTimespan := params.MinActualTimespan
  let maxActualTimespan := params.MaxActualTimespan
  -- Validate parameters
  if averagingWindowTimespan ≤ 0 then some (GetCompact params.pownewlimit)
  else
    -- Calculate actual timespan with dampening
    let nActualTimespan0 := nLastBlockTime - nFirstBlockTime
    let nActualTimespan1 :=
      averagingWindowTimespan + Int.tdiv (nActualTimespan0 - averagingWindowTimespan) 4
    -- Apply adjustment limits
    let nActualTimespan2 :=
      if nActualTimespan1 < minActualTimespan then minActualTimespan else nActualTimespan1
    let nActualTimespan :=
      if nActualTimespan2 > maxActualTimespan then maxActualTimespan else nActualTimespan2
    -- Retarget using the provided average target
    let bnPowLimit := params.powLimit
    match divSmall bnAvg averagingWindowTimespan with
    | none => none
    | some bnNew1 =>
      let bnNew2 := mulSmall bnNew1 nActualTimespan
      let bnNew := if bnNew2 > bnPowLimit then bnPowLimit else bnNew2
      some (GetCompact bnNew)

/-- The loop of the fast-block emergency: sums the spacings between consecutive
nodes, `i` counting the iterations, while `i < nPowAveragingWindow` and the node has a
predecessor; returns `(totalTime, count)`. -/
def fastBlockLoop (window : Int) : Int → List CBlockIndex → Int → Int → Int × Int
  | i, b :: p :: rest, totalTime, count =>
    if i < window then
      fastBlockLoop window (i + 1) (p :: rest)
        (totalTime + (b.GetBlockTime - p.GetBlockTime)) (count + 1)
    else (totalTime, count)
  | _, _, totalTime, count => (totalTime, count)

/-- The loop of the averaging retarget: adds the decoded targets of the nodes walked,
`i` counting the iterations, while the node exists and `i < nPowAveragingWindow`;
returns `(bnTot, pindexFirst)`. -/
def averagingLoop (window : Int) : Int → List CBlockIndex → Nat → Nat × List CBlockIndex
  | _, [], bnTot => (bnTot, [])
  | i, b :: rest, bnTot =>
    if i < window then
      averagingLoop window (i + 1) rest ((bnTot + (SetCompact b.nBits).value) % U256)
    else (bnTot, b :: rest)

/-- The averaging retarget: the part of `GetNextWorkRequiredNew` after the emergency
rules (from "Find the first block in the averaging window" to the end). -/
def averagingRetarget (last : CBlockIndex) (prev : List CBlockIndex) (params : Params) :
    Option Nat :=
  let nProofOfWorkMin := GetCompact params.pownewlimit
  match averagingLoop params.nPowAveragingWindow 0 (last :: prev) 0 with
  | (_, []) => some nProofOfWorkMin
  | (bnTot, first :: _) =>
    match divSmall bnTot params.nPowAveragingWindow with
    | none => none
    | some bnAvg =>
      CalculateNextWorkRequiredNew bnAvg first.GetBlockTime last.GetBlockTime params

/-- The emergency cascade shared by range 1 and by the pre-hard-fork branch of range 2
of `GetNextWorkRequiredNew`: `nLimit` is the compact extreme-relax target. -/
def emergencyCascade (lastBits : Nat) (time_diff spacing : Int) (nLimit : Nat) : Nat :=
  let lastTarget0 := (SetCompact lastBits).value
  let maxTarget := (SetCompact nLimit).value
  if time_diff > spacing * 8 then nLimit
  else
    let lastTarget :=
      if time_diff > spacing * 6 then mulSmall lastTarget0 100 / 35
      else if time_diff > spacing * 3 then mulSmall lastTarget0 100 / 50
      else lastTarget0
    if lastTarget > maxTarget then nLimit else GetCompact lastTarget

/-- `GetNextWorkRequiredNew`. -/
def GetNextWorkRequiredNew (pindexLast : List CBlockIndex) (pblock : Option CBlockHeader)
    (params : Params) : Option Nat :=
  let nProofOfWorkLimit := GetCompact params.powLimit
  let nProofOfWorkMin := GetCompact params.pownewlimit
  let nProofOfWorkMax := GetCompact params.powmaxlimit
  let nProofOfWorkMid := GetCompact params.powdinlimit
  match pindexLast with
  | [] => some nProofOfWorkLimit -- Genesis block
  | last :: prev =>
    -- Regtest
    if params.fPowNoRetargeting then some last.nBits
    -- Validate parameters to prevent division by zero
    else if params.nPowAveragingWindow ≤ 0 ∨ params.nPostBlossomPowTargetSpacing ≤ 0 then
      some nProofOfWorkMin
    else
      match pblock with
      | none => averagingRetarget last prev params
      | some blk =>
        let time_diff := blk.GetBlockTime - last.GetBlockTime
        let spacing := params.nPostBlossomPowTargetSpacing
        -- Old emergency rule (before height 126800)
        if last.nHeight < 126800 ∧
            blk.GetBlockTime > last.GetBlockTime + params.nPostBlossomPowTargetSpacing * 6 then
          some nProofOfWorkMin
        -- Range 1: Heights 127464-127927
        else if last.nHeight ≥ 127464 ∧ last.nHeight ≤ 127927 then
          some (emergencyCascade last.nBits time_diff spacing nProofOfWorkMax)
        else
          let nEmergencyRuleHeight : Int :=
            if params.fPowAllowMinDifficultyBlocks then params.nNewPowDiffHeight else 127928
          if last.nHeight ≥ nEmergencyRuleHeight then
            let lastTarget0 := (SetCompact last.nBits).value
            let maxTarget := (SetCompact nProofOfWorkMid).value
            -- Before hard fork: always returns
            if last.nHeight < params.nHardForkHeight then
              some (emergencyCascade last.nBits time_diff spacing nProofOfWorkMid)
            else
              let loop := fastBlockLoop params.nPowAveragingWindow 0 (last :: prev) 0 0
              let totalTime := loop.1
              let count := loop.2
              -- FAST BLOCK EMERGENCY
              if time_diff < 120 ∧ count > 0 ∧ Int.tdiv totalTime count < 300 then
                some (GetCompact ((SetCompact last.nBits).value / 2))
              -- SLOW BLOCK EMERGENCY
              else if time_diff > spacing * 8 then some nProofOfWorkMid
              else if time_diff > spacing * 6 then
                let lastTarget := mulSmall lastTarget0 100 / 35
                if lastTarget > maxTarget then some nProofOfWorkMid
                else some (GetCompact lastTarget)
              else if time_diff > spacing * 4 then
                let lastTarget := mulSmall lastTarget0 100 / 25
                if lastTarget > maxTarget then some nProofOfWorkMid
                else some (GetCompact lastTarget)
              else if time_diff > spacing * 3 then
                let lastTarget := mulSmall lastTarget0 100 / 50
                if lastTarget > maxTarget then some nProofOfWorkMid
                else some (GetCompact lastTarget)
              -- No emergency: fall through to normal algorithm below
              else averagingRetarget last prev params
          else averagingRetarget last prev params

/-- The testnet walk of the legacy path: follows `pprev` while the node has a
predecessor, is not on a retarget boundary and carries the limit bits. -/
def lastNonSpecialBits (interval : Int) (nProofOfWorkLimit : Nat) :
    CBlockIndex → List CBlockIndex → Nat
  | b, [] => b.nBits
  | b, p :: rest =>
    if Int.tmod b.nHeight interval ≠ 0 ∧ b.nBits = nProofOfWorkLimit then
      lastNonSpecialBits interval nProofOfWorkLimit p rest
    else b.nBits

/-- The legacy path: the part of `GetNextWorkRequired` after the genesis test, i.e. the
two forced bands of heights 112266..112401 and the Bitcoin retarget. -/
def legacyNextWork (last : CBlockIndex) (prev : List CBlockIndex)
    (pblock : Option CBlockHeader) (params : Params) : Option Nat :=
  let nProofOfWorkLimit := GetCompact params.powLimit
  let nProofOfWorkMin := GetCompact params.pownewlimit
  if last.nHeight ≥ 112266 ∧ last.nHeight ≤ 112300 then some nProofOfWorkLimit
  else if last.nHeight ≥ 112301 ∧ last.nHeight ≤ 112401 then some nProofOfWorkMin
  else
    match params.DifficultyAdjustmentInterval with
    | none => none
    | some interval =>
      match smod (last.nHeight + 1) interval with
      | none => none
      | some r =>
        -- Only change once per difficulty adjustment interval
        if r ≠ 0 then
          if params.fPowAllowMinDifficultyBlocks then
            match pblock with
            | none => none
            | some blk =>
              if blk.GetBlockTime > last.GetBlockTime + params.nPowTargetSpacing * 2 then
                some nProofOfWorkLimit
              else some (lastNonSpecialBits interval nProofOfWorkLimit last prev)
          else some last.nBits
        else
          -- Go back by what we want to be 14 days worth of blocks
          let nHeightFirst := last.nHeight - (interval - 1)
          if nHeightFirst < 0 then none
          else
            match GetAncestor (last :: prev) nHeightFirst with
            | [] => none
            | first :: _ => CalculateNextWorkRequired last first.GetBlockTime params

/-- `GetNextWorkRequired`.  The height of `pindexLast` is read before any null test, so
a null `pindexLast` ends the run abnormally. -/
def GetNextWorkRequired (pindexLast : List CBlockIndex) (pblock : Option CBlockHeader)
    (params : Params) : Option Nat :=
  let nProofOfWorkLimit := GetCompact params.powLimit
  let nProofOfWorkMin := GetCompact params.pownewlimit
  match pindexLast with
  | [] => none
  | last :: prev =>
    -- set diff for first block
    if last.nHeight ≥ 122291 ∧ last.nHeight ≤ 122310 then some nProofOfWorkMin
    -- Switch between old and new difficulty algorithms based on height
    else if last.nHeight ≥ params.nNewPowDiffHeight then
      GetNextWorkRequiredNew (last :: prev) pblock params
    -- Genesis block: `pindexLast == NULL` is false here, `nProofOfWorkLimit` is not returned
    else if (last :: prev).isEmpty then some nProofOfWorkLimit
    else legacyNextWork last prev pblock params

/-- The height from which range 2 of `GetNextWorkRequiredNew` applies
(`nEmergencyRuleHeight`): 127928, or `nNewPowDiffHeight` where minimum-difficulty
blocks are allowed. -/
def nEmergencyRuleHeight (params : Params) : Int :=
  if params.fPowAllowMinDifficultyBlocks then params.nNewPowDiffHeight else 127928

/-- The rules of range 2 of `GetNextWorkRequiredNew` from the hard fork on, read as a
function of their own: the fast-block emergency, the slow-block cascade and, when none
of them returns, the averaging retarget. -/
def postForkRules (last : CBlockIndex) (prev : List CBlockIndex) (time_diff : Int)
    (params : Params) : Option Nat :=
  let nProofOfWorkMid := GetCompact params.powdinlimit
  let spacing := params.nPostBlossomPowTargetSpacing
  let lastTarget0 := (SetCompact last.nBits).value
  let maxTarget := (SetCompact nProofOfWorkMid).value
  let loop := fastBlockLoop params.nPowAveragingWindow 0 (last :: prev) 0 0
  let totalTime := loop.1
  let count := loop.2
  if time_diff < 120 ∧ count > 0 ∧ Int.tdiv totalTime count < 300 then
    some (GetCompact ((SetCompact last.nBits).value / 2))
  else if time_diff > spacing * 8 then some nProofOfWorkMid
  else if time_diff > spacing * 6 then
    let lastTarget := mulSmall lastTarget0 100 / 35
    if lastTarget > maxTarget then some nProofOfWorkMid
    else some (GetCompact lastTarget)
  else if time_diff > spacing * 4 then
    let lastTarget := mulSmall lastTarget0 100 / 25
    if lastTarget > maxTarget then some nProofOfWorkMid
    else some (GetCompact lastTarget)
  else if time_diff > spacing * 3 then
    let lastTarget := mulSmall lastTarget0 100 / 50
    if lastTarget > maxTarget then some nProofOfWorkMid
    else some (GetCompact lastTarget)
  else averagingRetarget last prev params

/-- The part of `GetNextWorkRequiredNew` from range 2 to the end, for a candidate at
`time_diff` seconds after `last`. -/
def range2Rules (last : CBlockIndex) (prev : List CBlockIndex) (time_diff : Int)
    (params : Params) : Option Nat :=
  if last.nHeight ≥ nEmergencyRuleHeight params then
    if last.nHeight < params.nHardForkHeight then
      some (emergencyCascade last.nBits time_diff params.nPostBlossomPowTargetSpacing
        (GetCompact params.powdinlimit))
    else postForkRules last prev time_diff params
  else averagingRetarget last prev params

/-- The part of `GetNextWorkRequiredNew` from range 1 to the end, for a candidate at
`time_diff` seconds after `last`. -/
def range1Rules (last : CBlockIndex) (prev : List CBlockIndex) (time_diff : Int)
    (params : Params) : Option Nat :=
  if last.nHeight ≥ 127464 ∧ last.nHeight ≤ 127927 then
    some (emergencyCascade last.nBits time_diff params.nPostBlossomPowTargetSpacing
      (GetCompact params.powmaxlimit))
  else range2Rules last prev time_diff params

/-- The sum of the targets decoded from the bits of the given nodes. -/
def sumTargets (l : List CBlockIndex) : Nat :=
  (l.map (fun b => (SetCompact b.nBits).value)).sum

/-- The interval `[T/4, T*4]` of the legacy retarget applied to an elapsed time. -/
def clampTimespan (elapsed T : Int) : Int := min (max elapsed (Int.tdiv T 4)) (T * 4)

/-- `PermittedDifficultyTransition`; `none` stands for a division by zero, in
`DifficultyAdjustmentInterval`, in `height % interval` or in the division of a target by
`nPowTargetTimespan`. -/
def PermittedDifficultyTransition (params : Params) (height : Int) (old_nbits new_nbits : Nat) :
    Option Bool :=
  -- Always allow transitions on networks where min difficulty blocks are allowed
  if params.fPowAllowMinDifficultyBlocks then some true
  -- Check if we're using the new difficulty algorithm
  else if height ≥ params.nNewPowDiffHeight then
    let pow_limit := params.powLimit
    let observed_new_target := (SetCompact new_nbits).value
    -- Calculate maximum allowed difficulty change
    let max_target0 := mulSmall (SetCompact old_nbits).value (100 + params.nPowMaxAdjustDown) / 100
    let max_target := if max_target0 > pow_limit then pow_limit else max_target0
    -- Calculate minimum allowed difficulty change
    let min_target0 := (SetCompact old_nbits).value
    let min_target :=
      if params.nPowMaxAdjustUp ≥ 100 then min_target0 / 100
      else mulSmall min_target0 (100 - params.nPowMaxAdjustUp) / 100
    -- Check if new target is within allowed range
    if observed_new_target > max_target ∨ observed_new_target < min_target then some false
    else some true
  else
    -- For old algorithm, use original Bitcoin validation
    match params.DifficultyAdjustmentInterval with
    | none => none
    | some interval =>
      match smod height interval with
      | none => none
      | some r =>
        if r = 0 then
          let smallest_timespan := Int.tdiv params.nPowTargetTimespan 4
          let largest_timespan := params.nPowTargetTimespan * 4
          let pow_limit := params.powLimit
          let observed_new_target := (SetCompact new_nbits).value
          -- Calculate the largest difficulty value possible
          match divSmall (mulSmall (SetCompact old_nbits).value largest_timespan)
              params.nPowTargetTimespan with
          | none => none
          | some largest0 =>
            let largest_difficulty_target := if largest0 > pow_limit then pow_limit else largest0
            let maximum_new_target := (SetCompact (GetCompact largest_difficulty_target)).value
            if maximum_new_target < observed_new_target then some false
            else
              -- Calculate the smallest difficulty value possible
              match divSmall (mulSmall (SetCompact old_nbits).value smallest_timespan)
                  params.nPowTargetTimespan with
              | none => none
              | some smallest0 =>
                let smallest_difficulty_target :=
                  if smallest0 > pow_limit then pow_limit else smallest0
                let minimum_new_target :=
                  (SetCompact (GetCompact smallest_difficulty_target)).value
                if minimum_new_target > observed_new_target then some false
                else some true
        else if old_nbits ≠ new_nbits then some false
        else some true

/-- The limit that applies to the branch of `GetNextWorkRequired` which answers, the
tests being those of the source in their order: `powmaxlimit` in range 1 of the new
algorithm, `powdinlimit` for the emergency rules of range 2 (before the hard fork
always, from the hard fork on when a slow-block rule fires), `powLimit` everywhere
else. -/
def branchLimit (last : CBlockIndex) (prev : List CBlockIndex) (pblock : Option CBlockHeader)
    (params : Params) : Nat :=
  match pblock with
  | none => params.powLimit
  | some blk =>
    let time_diff := blk.GetBlockTime - last.GetBlockTime
    let spacing := params.nPostBlossomPowTargetSpacing
    let loop := fastBlockLoop params.nPowAveragingWindow 0 (last :: prev) 0 0
    if last.nHeight ≥ 122291 ∧ last.nHeight ≤ 122310 then params.powLimit
    else if last.nHeight < params.nNewPowDiffHeight then params.powLimit
    else if params.fPowNoRetargeting then params.powLimit
    else if params.nPowAveragingWindow ≤ 0 ∨ spacing ≤ 0 then params.powLimit
    else if last.nHeight < 126800 ∧ blk.GetBlockTime > last.GetBlockTime + spacing * 6 then
      params.powLimit
    else if last.nHeight ≥ 127464 ∧ last.nHeight ≤ 127927 then params.powmaxlimit
    else if last.nHeight ≥ nEmergencyRuleHeight params then
      if last.nHeight < params.nHardForkHeight then params.powdinlimit
      else if time_diff < 120 ∧ loop.2 > 0 ∧ Int.tdiv loop.1 loop.2 < 300 then params.powLimit
      else if time_diff > spacing * 3 then params.powdinlimit
      else params.powLimit
    else params.powLimit

/-- A chain is well formed when the predecessor of each node has the height one less
and the node without a predecessor is at height 0, so that every height from 0 to the
height of the first node has its ancestor. -/
def wellFormedChain : List CBlockIndex → Bool
  | [] => true
  | [b] => decide (b.nHeight = 0)
  | a :: b :: rest => decide (b.nHeight = a.nHeight - 1) && wellFormedChain (b :: rest)

/-! ## AuxPoW verification (`auxpow.cpp`) -/

/-- The hash functions used by `auxpow.cpp`, taken as parameters: `hash.h`,
`pureheader.cpp` and `transaction.cpp` are not among the sources.  `Hash a b` is the
double SHA-256 of the 32 bytes of `a` followed by the 32 bytes of `b`, `headerHash` is
`CPureBlockHeader::GetHash` and `txHash` is `CTransaction::GetHash`. -/
structure HashFns where
  Hash : Nat → Nat → Nat
  headerHash : CPureBlockHeader → Nat
  txHash : CTransaction → Nat

/-- `pchMergedMiningHeader` (`auxpow.h`): `fa be 'm' 'm'`. -/
def pchMergedMiningHeader : List Nat := [0xfa, 0xbe, 0x6d, 0x6d]

/-- The 32 bytes of a `uint256` in memory order (`UBEGIN .. UEND`), least significant
byte first. -/
def uint256Bytes (h : Nat) : List Nat := (List.range 32).map (fun i => (h / 256 ^ i) % 256)

/-- `DecodeLE32`: four bytes read least significant first, accumulated in 32 bits. -/
def DecodeLE32 (bytes : List Nat) : Nat :=
  (List.range 4).foldl (fun res i => ((res <<< 8) % 2 ^ 32) ||| bytes.getD (3 - i) 0) 0

/-- `std::search`: the offset of the first occurrence of `pat` in `hay`, or the
length of `hay` (the end iterator) when there is none. -/
def search : List Nat → List Nat → Nat
  | [], _ => 0
  | x :: xs, pat => if pat.isPrefixOf (x :: xs) then 0 else search xs pat + 1

/-- `CAuxPow::getExpectedIndex`; all arithmetic is on `uint32_t`. -/
def getExpectedIndex (nNonce : Nat) (nChainId : Int) (h : Nat) : Int :=
  let rand0 := nNonce % 2 ^ 32
  let rand1 := (rand0 * 1103515245 + 12345) % 2 ^ 32
  let rand2 := (rand1 + toU32 nChainId) % 2 ^ 32
  let rand3 := (rand2 * 1103515245 + 12345) % 2 ^ 32
  ((rand3 % (1 <<< h) : Nat) : Int)

/-- The loop of `CAuxPow::CheckMerkleBranch`; the index is shifted right
arithmetically at each level. -/
def merkleFold (Hash : Nat → Nat → Nat) : Nat → List Nat → Int → Nat
  | hash, [], _ => hash
  | hash, item :: rest, nIndex =>
    merkleFold Hash (if nIndex % 2 = 1 then Hash item hash else Hash hash item) rest (nIndex / 2)

/-- `CAuxPow::CheckMerkleBranch`. -/
def CheckMerkleBranch (Hash : Nat → Nat → Nat) (hash : Nat) (branch : List Nat)
    (nIndex : Int) : Nat :=
  if nIndex = -1 then 0 else merkleFold Hash hash branch nIndex

/-- The fold of a merkle branch described level by level, to be compared with
`merkleFold`: at level `j`, counted from the leaf, the sibling is hashed on the left
exactly when bit `j` of the index `i` is 1, and on the right otherwise. -/
def merkleFoldBits (Hash : Nat → Nat → Nat) (i : Int) : Nat → Nat → List Nat → Nat
  | hash, _, [] => hash
  | hash, j, item :: rest =>
    merkleFoldBits Hash i (if i / 2 ^ j % 2 = 1 then Hash item hash else Hash hash item)
      (j + 1) rest

/-- The failures of `CAuxPow::check`, one for each `return error(...)`, in source order:
"Aux POW parent has our chain ID", "Aux POW chain merkle branch too long",
"Aux POW merkle root incorrect", "Aux POW coinbase has no inputs",
"Aux POW missing chain merkle root in parent coinbase",
"Multiple merged mining headers in coinbase",
"Merged mining header is not just before chain merkle root",
"Aux POW chain merkle root must start in the first 20 bytes of the parent coinbase",
"Aux POW missing chain merkle tree size and nonce in parent coinbase",
"Aux POW merkle branch size does not match parent coinbase", "Aux POW wrong index". -/
inductive AuxPowError where
  | WrongChainId
  | BranchTooLong
  | MerkleRootMismatch
  | EmptyCoinbase
  | MissingChainRoot
  | DuplicateMMHeader
  | MMHeaderNotBeforeRoot
  | RootNotInPrefix
  | MissingSizeNonce
  | WrongMerkleSize
  | WrongIndex
deriving DecidableEq, Repr

/-- Outcome of `CAuxPow::check`: `ok` for `true`, `error e` for `return error(...)`. -/
inductive CheckResult where
  | ok
  | error (e : AuxPowError)
deriving DecidableEq, Repr

/-- The bytes searched for by `CAuxPow::check` (`vchRootHash`): the chain merkle root,
i.e. the fold of the child hash along `vChainMerkleBranch` with `nChainIndex`, with its
32 bytes reversed. -/
def CAuxPow.vchRootHash (F : HashFns) (a : CAuxPow) (hashAuxBlock : Nat) : List Nat :=
  (uint256Bytes (CheckMerkleBranch F.Hash hashAuxBlock a.vChainMerkleBranch a.nChainIndex)).reverse

/-- The end of `CAuxPow::check`, from `pc += vchRootHash.size()` on: the size and the
nonce that follow the root bytes; `pc1` is the offset just after the root bytes. -/
def checkSizeNonce (script : List Nat) (pc1 : Nat) (merkleHeight : Nat)
    (nChainIndex nChainId : Int) : CheckResult :=
  if (script.length : Int) - (pc1 : Int) < 8 then .error .MissingSizeNonce
  else
    let nSize := DecodeLE32 (script.drop pc1)
    if nSize ≠ (1 <<< merkleHeight) % 2 ^ 32 then .error .WrongMerkleSize
    else
      let nNonce := DecodeLE32 (script.drop (pc1 + 4))
      if nChainIndex ≠ getExpectedIndex nNonce nChainId merkleHeight then .error .WrongIndex
      else .ok

/-- The script part of `CAuxPow::check`: everything after `script` is bound.  Iterators
are offsets into the script, `script.end()` is its length. -/
def checkScript (script vchRootHash : List Nat) (merkleHeight : Nat) (nChainIndex nChainId : Int) :
    CheckResult :=
  let pcHead := search script pchMergedMiningHeader
  let pc := search script vchRootHash
  if pc = script.length then .error .MissingChainRoot
  else if pcHead ≠ script.length then
    if (script.drop (pcHead + 1)).length ≠
        search (script.drop (pcHead + 1)) pchMergedMiningHeader then
      .error .DuplicateMMHeader
    else if pcHead + pchMergedMiningHeader.length ≠ pc then .error .MMHeaderNotBeforeRoot
    else checkSizeNonce script (pc + vchRootHash.length) merkleHeight nChainIndex nChainId
  else
    if pc > 20 then .error .RootNotInPrefix
    else checkSizeNonce script (pc + vchRootHash.length) merkleHeight nChainIndex nChainId

/-- `CAuxPow::check`. -/
def CAuxPow.check (F : HashFns) (a : CAuxPow) (hashAuxBlock : Nat) (nChainId : Int)
    (params : Params) : CheckResult :=
  if params.fStrictChainId = true ∧ a.parentBlock.GetChainId = nChainId then
    .error .WrongChainId
  else if a.vChainMerkleBranch.length > 30 then .error .BranchTooLong
  else
    let vchRootHash := a.vchRootHash F hashAuxBlock
    if CheckMerkleBranch F.Hash (F.txHash a.coinbaseTx) a.vMerkleBranch 0
        ≠ a.parentBlock.hashMerkleRoot then
      .error .MerkleRootMismatch
    else
      match a.coinbaseTx.vin with
      | [] => .error .EmptyCoinbase
      | vin0 :: _ =>
        checkScript vin0.scriptSig vchRootHash a.vChainMerkleBranch.length a.nChainIndex nChainId

/-- Modelled from the spec: `CScript::operator<<` for a byte vector (`script/script.h`,
not among the sources).  §3 only says that the synthesized script contains the
reversed child hash followed by `0x01` and seven zero bytes; the data is pushed with
the Bitcoin push encoding, a single length byte for fewer than `OP_PUSHDATA1 = 0x4c`
bytes, and `OP_PUSHDATA1/2/4` with a little-endian length otherwise. -/
def pushData (script b : List Nat) : List Nat :=
  let n := b.length
  let op :=
    if n < 0x4c then [n]
    else if n ≤ 0xff then [0x4c, n]
    else if n ≤ 0xffff then [0x4d, n % 256, n / 256]
    else [0x4e, n % 256, n / 256 % 256, n / 65536 % 256, n / 16777216 % 256]
  script ++ op ++ b

/-- One level of the transaction merkle tree: neighbours are hashed in pairs, an odd
last node with itself. -/
def merkleLevel (Hash : Nat → Nat → Nat) : List Nat → List Nat
  | [] => []
  | [a] => [Hash a a]
  | a :: b :: rest => Hash a b :: merkleLevel Hash rest

/-- Repeated pairing until one node is left; the root of no leaves is zero. -/
def merkleRootAux (Hash : Nat → Nat → Nat) : Nat → List Nat → Nat
  | _, [] => 0
  | _, [a] => a
  | 0, _ :: _ :: _ => 0
  | fuel + 1, a :: b :: rest => merkleRootAux Hash fuel (merkleLevel Hash (a :: b :: rest))

/-- Modelled from the spec: `BlockMerkleRoot` (`consensus/merkle.cpp`, not among the
sources).  §3 says that the merkle root of the synthesized one-transaction parent is
the hash of its coinbase; several transactions are paired level by level as in
Bitcoin. -/
def BlockMerkleRoot (F : HashFns) (vtx : List CTransaction) : Nat :=
  merkleRootAux F.Hash vtx.length (vtx.map F.txHash)

/-- `CAuxPow::createAuxPow`; the assertion on the version flag is the failure case. -/
def createAuxPow (F : HashFns) (header : CPureBlockHeader) : Option CAuxPow :=
  if header.IsAuxpow = true then
    let blockHash := F.headerHash header
    let inputData := (uint256Bytes blockHash).reverse ++ [1] ++ List.replicate 7 0
    let coinbase : CTransaction :=
      { vin := [{ prevout := { hash := 0, n := 2 ^ 32 - 1 }, scriptSig := pushData [] inputData }]
        vout := [] }
    let parent : CPureBlockHeader :=
      { nVersion := 1, hashPrevBlock := 0, hashMerkleRoot := BlockMerkleRoot F [coinbase]
        nTime := 0, nBits := 0, nNonce := 0 }
    some { coinbaseTx := coinbase, vMerkleBranch := [], vChainMerkleBranch := [],
           nChainIndex := 0, parentBlock := parent }
  else none

/-! ## Double SHA-256 and the concrete hash functions

The theorems below hold for every `HashFns`.  Concrete inputs are evaluated with the
functions of this section. -/

/-- The 64 round constants of SHA-256 (FIPS 180-4), 32 bits each, packed into one
number with the first constant in the most significant position. -/
def sha256KPacked : Nat :=
  0x428a2f9871374491b5c0fbcfe9b5dba53956c25b59f111f1923f82a4ab1c5ed5d807aa9812835b01243185be550c7dc372be5d7480deb1fe9bdc06a7c19bf174e49b69c1efbe47860fc19dc6240ca1cc2de92c6f4a7484aa5cb0a9dc76f988da983e5152a831c66db00327c8bf597fc7c6e00bf3d5a7914706ca63511429296727b70a852e1b21384d2c6dfc53380d13650a7354766a0abb81c2c92e92722c85a2bfe8a1a81a664bc24b8b70c76c51a3d192e819d6990624f40e3585106aa07019a4c1161e376c082748774c34b0bcb5391c0cb34ed8aa4a5b9cca4f682e6ff3748f82ee78a5636f84c878148cc7020890befffaa4506cebbef9a3f7c67178f2

/-- The round constants of SHA-256, first constant first. -/
def sha256K : List Nat :=
  (List.range 64).map (fun i => (sha256KPacked >>> (32 * (63 - i))) % 2 ^ 32)

/-- The initial hash value of SHA-256, eight words packed like the round constants. -/
def sha256InitPacked : Nat :=
  0x6a09e667bb67ae853c6ef372a54ff53a510e527f9b05688c1f83d9ab5be0cd19

/-- The initial hash value of SHA-256 as eight words. -/
def sha256Init : List Nat :=
  (List.range 8).map (fun i => (sha256InitPacked >>> (32 * (7 - i))) % 2 ^ 32)

/-- Rotation of a 32-bit word to the right. -/
def rotr (x n : Nat) : Nat := ((x >>> n) ||| (x <<< (32 - n))) % 2 ^ 32

/-- A big-endian 32-bit word from four bytes. -/
def beWord : List Nat → Nat
  | [a, b, c, d] => ((a * 256 + b) * 256 + c) * 256 + d
  | _ => 0

/-- The first `n` big-endian words of a byte string. -/
def beWords : Nat → List Nat → List Nat
  | 0, _ => []
  | n + 1, bs => beWord (bs.take 4) :: beWords n (bs.drop 4)

/-- Extension of the message schedule by `n` words; the schedule is held newest word
first. -/
def sha256Extend : Nat → List Nat → List Nat
  | 0, w => w
  | n + 1, w =>
    let w2 := w.getD 1 0
    let w7 := w.getD 6 0
    let w15 := w.getD 14 0
    let w16 := w.getD 15 0
    let s0 := rotr w15 7 ^^^ rotr w15 18 ^^^ (w15 >>> 3)
    let s1 := rotr w2 17 ^^^ rotr w2 19 ^^^ (w2 >>> 10)
    sha256Extend n (((w16 + s0 + w7 + s1) % 2 ^ 32) :: w)

/-- The rounds of the compression function, one for each constant and schedule word. -/
def sha256Rounds : List Nat → List Nat → List Nat → List Nat
  | k :: ks, w :: ws, [a, b, c, d, e, f, g, h] =>
    let S1 := rotr e 6 ^^^ rotr e 11 ^^^ rotr e 25
    let ch := (e &&& f) ^^^ ((e ^^^ 0xffffffff) &&& g)
    let t1 := (h + S1 + ch + k + w) % 2 ^ 32
    let S0 := rotr a 2 ^^^ rotr a 13 ^^^ rotr a 22
    let maj := (a &&& b) ^^^ (a &&& c) ^^^ (b &&& c)
    let t2 := (S0 + maj) % 2 ^ 32
    sha256Rounds ks ws [(t1 + t2) % 2 ^ 32, a, b, c, (d + t1) % 2 ^ 32, e, f, g]
  | _, _, st => st

/-- The compression function on one 64-byte block. -/
def sha256Compress (st : List Nat) (block : List Nat) : List Nat :=
  let w := (sha256Extend 48 (beWords 16 block).reverse).reverse
  List.zipWith (fun x y => (x + y) % 2 ^ 32) st (sha256Rounds sha256K w st)

/-- Compression of `n` consecutive blocks. -/
def sha256Blocks : Nat → List Nat → List Nat → List Nat
  | 0, _, st => st
  | n + 1, bs, st => sha256Blocks n (bs.drop 64) (sha256Compress st (bs.take 64))

/-- Padding: a bit 1, zeros, and the bit length as a big-endian 64-bit number. -/
def sha256Pad (msg : List Nat) : List Nat :=
  let l := msg.length
  let z := (64 - (l + 9) % 64) % 64
  let bitlen := 8 * l
  msg ++ [0x80] ++ List.replicate z 0 ++
    (List.range 8).map (fun i => (bitlen / 256 ^ (7 - i)) % 256)

/-- SHA-256 of a byte string, as 32 bytes. -/
def sha256 (msg : List Nat) : List Nat :=
  let p := sha256Pad msg
  (sha256Blocks (p.length / 64) p sha256Init).flatMap
    (fun w => [w / 16777216 % 256, w / 65536 % 256, w / 256 % 256, w % 256])

/-- The value of a `uint256` whose bytes in memory order are `bs`. -/
def uint256OfBytes : List Nat → Nat
  | [] => 0
  | b :: bs => b + 256 * uint256OfBytes bs

/-- Modelled from the spec: `Hash` of the missing `hash.h`; §4.2 defines `dsha256` as
double SHA-256 over the concatenated byte ranges. -/
def dsha256 (msg : List Nat) : Nat := uint256OfBytes (sha256 (sha256 msg))

/-- A 32-bit value as four little-endian bytes. -/
def le32 (x : Nat) : List Nat := [x % 256, x / 256 % 256, x / 65536 % 256, x / 16777216 % 256]

/-- Modelled from the spec: the serialization of a pure header (`serialize.h` is not
among the sources), §4.3: 4-byte LE version, 32-byte prev, 32-byte root, 4-byte LE time,
4-byte LE bits, 4-byte LE nonce. -/
def serializeHeader (h : CPureBlockHeader) : List Nat :=
  le32 (toU32 h.nVersion) ++ uint256Bytes h.hashPrevBlock ++ uint256Bytes h.hashMerkleRoot ++
    le32 h.nTime ++ le32 h.nBits ++ le32 h.nNonce

/-- The length prefix of a serialized vector (Bitcoin compact size): one byte below 253,
otherwise a marker 253, 254 or 255 and the length in 2, 4 or 8 little-endian bytes. -/
def compactSize (n : Nat) : List Nat :=
  if n < 253 then [n]
  else if n ≤ 0xffff then [253, n % 256, n / 256 % 256]
  else if n ≤ 0xffffffff then 254 :: le32 n
  else 255 :: (List.range 8).map (fun i => n / 256 ^ i % 256)

/-- Modelled from the spec: the serialization of a transaction for hashing
(`primitives/transaction.h` is not among the sources, and the spec only names
`coinbase_tx.hash()`).  The Bitcoin layout is used, with the fields that the embedding
leaves out at fixed values: version 1, sequence `0xffffffff`, output value 0, lock
time 0.  No theorem depends on the bytes chosen here. -/
def serializeTx (t : CTransaction) : List Nat :=
  le32 1 ++ compactSize t.vin.length ++
    t.vin.flatMap (fun i => uint256Bytes i.prevout.hash ++ le32 i.prevout.n ++
      compactSize i.scriptSig.length ++ i.scriptSig ++ le32 0xffffffff) ++
    compactSize t.vout.length ++
    t.vout.flatMap (fun o => List.replicate 8 0 ++ compactSize o.length ++ o) ++ le32 0

/-- The hash functions instantiated with double SHA-256. -/
def sha256Fns : HashFns :=
  { Hash := fun a b => dsha256 (uint256Bytes a ++ uint256Bytes b)
    headerHash := fun h => dsha256 (serializeHeader h)
    txHash := fun t => dsha256 (serializeTx t) }

/-! ## Serialization of full headers (`primitives/block.h`, `auxpow.h`)

A stream is the list of its bytes.  Writing appends bytes; reading takes bytes from the
front and fails (the stream throws) when too few are left. -/

/-- Modelled from the spec: the serialization type `SER_NETWORK` of the missing
`serialize.h`, the type of the wire format of §6; the types are bit flags. -/
def SER_NETWORK : Nat := 1

/-- Modelled from the spec: the serialization type `SER_GETHASH` of the missing
`serialize.h`, the type used "when computing the header's identity hash" (§4.4). -/
def SER_GETHASH : Nat := 4

/-- Serialization of a `std::vector<uint256>`: the length prefix and the hashes. -/
def serializeHashes (v : List Nat) : List Nat := compactSize v.length ++ v.flatMap uint256Bytes

/-- `CAuxPow::SerializationOp` when writing: the coinbase transaction (bytes of
`serializeTx`), `hashBlock` written as zero, the merkle branch, `nIndex` written as zero,
the chain merkle branch, the chain index and the parent header. -/
def CAuxPow.Serialize (a : CAuxPow) : List Nat :=
  serializeTx a.coinbaseTx ++ uint256Bytes 0 ++ serializeHashes a.vMerkleBranch ++
    le32 (toU32 0) ++ serializeHashes a.vChainMerkleBranch ++ le32 (toU32 a.nChainIndex) ++
    serializeHeader a.parentBlock

/-- `CBlockHeader::SerializationOp` when writing with serialization type `nType`. -/
def CBlockHeader.Serialize (h : CBlockHeader) (nType : Nat) : List Nat :=
  let pureBytes := serializeHeader h.toCPureBlockHeader
  -- When calculating the hash (SER_GETHASH), we only serialize the pure header
  if nType &&& SER_GETHASH ≠ 0 then pureBytes
  else
    let chainId := h.toCPureBlockHeader.GetChainId
    let expectAuxpow :=
      h.toCPureBlockHeader.IsAuxpow && decide (chainId > 0) && decide (chainId < 0x0100)
    if expectAuxpow then
      match h.auxpow with
      | some a => pureBytes ++ a.Serialize
      | none => pureBytes
    else pureBytes

/-- Modelled from the spec: `CBlockHeader::GetHash` (`primitives/block.cpp` is not among
the sources): the double SHA-256 (§4.3) of the bytes the header serializes with type
`SER_GETHASH`. -/
def CBlockHeader.GetHash (h : CBlockHeader) : Nat := dsha256 (h.Serialize SER_GETHASH)

/-- Reading `n` bytes from a stream. -/
def readBytes (n : Nat) (s : List Nat) : Option (List Nat × List Nat) :=
  if s.length < n then none else some (s.take n, s.drop n)

/-- Reading an unsigned little-endian integer of `n` bytes. -/
def readUInt (n : Nat) (s : List Nat) : Option (Nat × List Nat) :=
  match readBytes n s with
  | none => none
  | some (b, rest) => some (uint256OfBytes b, rest)

/-- `CPureBlockHeader::SerializationOp` when reading. -/
def CPureBlockHeader.Unserialize (s : List Nat) : Option (CPureBlockHeader × List Nat) :=
  match readUInt 4 s with
  | none => none
  | some (nVersion, s1) =>
    match readUInt 32 s1 with
    | none => none
    | some (hashPrevBlock, s2) =>
      match readUInt 32 s2 with
      | none => none
      | some (hashMerkleRoot, s3) =>
        match readUInt 4 s3 with
        | none => none
        | some (nTime, s4) =>
          match readUInt 4 s4 with
          | none => none
          | some (nBits, s5) =>
            match readUInt 4 s5 with
            | none => none
            | some (nNonce, s6) =>
              some ({ nVersion := toI32 nVersion, hashPrevBlock := hashPrevBlock,
                      hashMerkleRoot := hashMerkleRoot, nTime := nTime, nBits := nBits,
                      nNonce := nNonce }, s6)

/-- Modelled from the spec: `ReadCompactSize` of the missing `serialize.h`, the inverse of
the length prefix; an encoding longer than needed and a length above `0x02000000` are
refused, as in Bitcoin. -/
def readCompactSize (s : List Nat) : Option (Nat × List Nat) :=
  match s with
  | [] => none
  | b :: rest =>
    if b < 253 then some (b, rest)
    else
      let width := if b = 253 then 2 else if b = 254 then 4 else 8
      let least := if b = 253 then 253 else if b = 254 then 0x10000 else 0x100000000
      match readUInt width rest with
      | none => none
      | some (n, rest1) => if n < least ∨ n > 0x02000000 then none else some (n, rest1)

/-- Reading `n` items one after the other with the reader `item`. -/
def readMany {α : Type} (item : List Nat → Option (α × List Nat)) :
    Nat → List Nat → Option (List α × List Nat)
  | 0, s => some ([], s)
  | n + 1, s =>
    match item s with
    | none => none
    | some (x, s1) =>
      match readMany item n s1 with
      | none => none
      | some (xs, s2) => some (x :: xs, s2)

/-- Reading a vector whose items are read by `item`: the length prefix and the items. -/
def readVector {α : Type} (item : List Nat → Option (α × List Nat)) (s : List Nat) :
    Option (List α × List Nat) :=
  match readCompactSize s with
  | none => none
  | some (n, s1) => readMany item n s1

/-- Reading a script or another byte vector. -/
def readByteVector (s : List Nat) : Option (List Nat × List Nat) :=
  match readCompactSize s with
  | none => none
  | some (n, s1) => readBytes n s1

/-- Reading a transaction input: the outpoint, the script and the sequence number, which
the embedding does not keep. -/
def readTxIn (s : List Nat) : Option (CTxIn × List Nat) :=
  match readUInt 32 s with
  | none => none
  | some (hash, s1) =>
    match readUInt 4 s1 with
    | none => none
    | some (n, s2) =>
      match readByteVector s2 with
      | none => none
      | some (script, s3) =>
        match readUInt 4 s3 with
        | none => none
        | some (_, s4) => some ({ prevout := { hash := hash, n := n }, scriptSig := script }, s4)

/-- Reading a transaction output: the value, which the embedding does not keep, and the
script. -/
def readTxOut (s : List Nat) : Option (List Nat × List Nat) :=
  match readUInt 8 s with
  | none => none
  | some (_, s1) => readByteVector s1

/-- Modelled from the spec: the deserialization of a transaction
(`primitives/transaction.h` is not among the sources), the inverse of the Bitcoin layout
of `serializeTx` without witness data: version, inputs, outputs, lock time. -/
def readTx (s : List Nat) : Option (CTransaction × List Nat) :=
  match readUInt 4 s with
  | none => none
  | some (_, s1) =>
    match readVector readTxIn s1 with
    | none => none
    | some (vin, s2) =>
      match readVector readTxOut s2 with
      | none => none
      | some (vout, s3) =>
        match readUInt 4 s3 with
        | none => none
        | some (_, s4) => some ({ vin := vin, vout := vout }, s4)

/-- `CAuxPow::SerializationOp` when reading; `hashBlock` and `nIndex` are read and
dropped. -/
def CAuxPow.Unserialize (s : List Nat) : Option (CAuxPow × List Nat) :=
  match readTx s with
  | none => none
  | some (coinbaseTx, s1) =>
    match readUInt 32 s1 with
    | none => none
    | some (_, s2) =>
      match readVector (readUInt 32) s2 with
      | none => none
      | some (vMerkleBranch, s3) =>
        match readUInt 4 s3 with
        | none => none
        | some (_, s4) =>
          match readVector (readUInt 32) s4 with
          | none => none
          | some (vChainMerkleBranch, s5) =>
            match readUInt 4 s5 with
            | none => none
            | some (nChainIndex, s6) =>
              match CPureBlockHeader.Unserialize s6 with
              | none => none
              | some (parentBlock, s7) =>
                some ({ coinbaseTx := coinbaseTx, vMerkleBranch := vMerkleBranch,
                        vChainMerkleBranch := vChainMerkleBranch,
                        nChainIndex := toI32 nChainIndex, parentBlock := parentBlock }, s7)

/-- `CBlockHeader::SerializationOp` when reading into the header `self` with
serialization type `nType`: the result is the header read and the rest of the stream,
`none` when an exception is thrown.  The test `ForRead() && !auxpow` of the source comes
after `auxpow = std::make_shared<CAuxPow>()` and never holds. -/
def CBlockHeader.Unserialize (self : CBlockHeader) (nType : Nat) (s : List Nat) :
    Option (CBlockHeader × List Nat) :=
  match CPureBlockHeader.Unserialize s with
  | none => none
  | some (pureHeader, s1) =>
    if nType &&& SER_GETHASH ≠ 0 then
      some ({ toCPureBlockHeader := pureHeader, auxpow := self.auxpow }, s1)
    else
      let chainId := pureHeader.GetChainId
      let expectAuxpow := pureHeader.IsAuxpow && decide (chainId > 0) && decide (chainId < 0x0100)
      if expectAuxpow then
        match CAuxPow.Unserialize s1 with
        | none => none
        | some (a, s2) => some ({ toCPureBlockHeader := pureHeader, auxpow := some a }, s2)
      else some ({ toCPureBlockHeader := pureHeader, auxpow := none }, s1)

/-! ## Concrete inputs -/

/-- Parameters with the new algorithm active from height 120000, no retargeting and
the chain-id check relaxed. -/
def exParams : Params :=
  { powLimit := 0xffff * 2 ^ 208, fPowAllowMinDifficultyBlocks := false,
    fPowNoRetargeting := true, nPowTargetSpacing := 600, nPowTargetTimespan := 1209600,
    pownewlimit := 0xffff * 2 ^ 200, powmaxlimit := 0xffff * 2 ^ 204,
    powdinlimit := 0xffff * 2 ^ 202, nNewPowDiffHeight := 120000, nPowAveragingWindow := 17,
    nPowMaxAdjustDown := 32, nPowMaxAdjustUp := 16, nPostBlossomPowTargetSpacing := 600,
    nMinBlockSpacingStartHeight := 0, nHardForkHeight := 130000, fStrictChainId := false }

/-- The same parameters with the strict chain-id check. -/
def exParamsStrict : Params := { exParams with fStrictChainId := true }

/-- A node at height 122291, the first of the forced band. -/
def c9Last : CBlockIndex := { nHeight := 122291, nTime := 1700000000, nBits := 0x1d00ffff }

/-- A node at height 122311, the first after the forced band. -/
def c9After : CBlockIndex := { nHeight := 122311, nTime := 1700000000, nBits := 0x1d00ffff }

/-- A child header with chain id 42, the AuxPoW flag set and base version 1. -/
def exHeader : CPureBlockHeader :=
  { nVersion := 42 * 65536 + 256 + 1, hashPrevBlock := 0, hashMerkleRoot := 0,
    nTime := 1700000000, nBits := 0x207fffff, nNonce := 0 }

/-- The same child header with nonce 91838788: the bytes of its block hash are
`3d0e7ca22eab 6d6dbefa a521…`, so the reversed hash contains `fa be 6d 6d`. -/
def exHeaderMagic : CPureBlockHeader := { exHeader with nNonce := 91838788 }

/-- The parameters `exParams` with retargeting on. -/
def exParamsNew : Params := { exParams with fPowNoRetargeting := false }

/-- The parameters `exParamsNew` with minimum-difficulty blocks allowed, so that range 2
of the new algorithm starts at `nNewPowDiffHeight`. -/
def exParamsTestnet : Params := { exParamsNew with fPowAllowMinDifficultyBlocks := true }

/-- The parameters `exParams` (retargeting off) with an averaging window of zero. -/
def exParamsNoWindow : Params := { exParams with nPowAveragingWindow := 0 }

/-- A chain node with the given height, time and bits. -/
def nodeAt (height : Int) (time bits : Nat) : CBlockIndex :=
  { nHeight := height, nTime := time, nBits := bits }

/-- A well-formed chain of `n` nodes going down from the given height and time, the
nodes `spacing` seconds apart and all carrying the same bits. -/
def spacedChain (spacing bits : Nat) : Nat → Int → Nat → List CBlockIndex
  | 0, _, _ => []
  | n + 1, height, time =>
    nodeAt height time bits :: spacedChain spacing bits n (height - 1) (time - spacing)

/-- Testnet-style parameters whose hard fork height 125000 lies below range 1. -/
def exParamsEarlyFork : Params := { exParamsTestnet with nHardForkHeight := 125000 }

/-- The genesis node of the chain of the legacy retarget scenario, 604800 s before the
node at height 2015. -/
def c12Genesis : CBlockIndex := nodeAt 0 1699395200 0x1d00ffff

/-- The node at height 2015, the last of the first retarget window of 2016 blocks. -/
def c12Last : CBlockIndex := nodeAt 2015 1700000000 0x1d00ffff

/-- The predecessors of `c12Last`: the nodes at heights 2014 down to 1, 300 s apart,
and the genesis node. -/
def c12Prev : List CBlockIndex :=
  spacedChain 300 0x1d00ffff 2014 2014 1699999700 ++ [c12Genesis]

/-- A candidate header with the given time. -/
def candidateAt (time : Nat) : CBlockHeader :=
  { toCPureBlockHeader := { exHeader with nTime := time }, auxpow := none }

/-- The coinbase transaction whose single input carries the given script. -/
def coinbaseWithScript (script : List Nat) : CTransaction :=
  { vin := [{ prevout := { hash := 0, n := 2 ^ 32 - 1 }, scriptSig := script }], vout := [] }

/-- An AuxPoW for the child `exHeader` with empty branches and index 0 around the given
coinbase script; the parent header has the given version and commits to the coinbase. -/
def auxPowWithScript (script : List Nat) (parentVersion : Int) : CAuxPow :=
  { coinbaseTx := coinbaseWithScript script
    vMerkleBranch := [], vChainMerkleBranch := [], nChainIndex := 0
    parentBlock :=
      { nVersion := parentVersion, hashPrevBlock := 0
        hashMerkleRoot := sha256Fns.txHash (coinbaseWithScript script)
        nTime := 0, nBits := 0, nNonce := 0 } }

/-- The reversed bytes of the block hash of `exHeader`, the chain root of an AuxPoW
with an empty chain merkle branch. -/
def exRoot : List Nat := (uint256Bytes (sha256Fns.headerHash exHeader)).reverse

/-- The script written by `createAuxPow` for `exHeader`: the push of the root bytes
followed by `01` and seven zero bytes. -/
def exScript : List Nat := [40] ++ exRoot ++ [1, 0, 0, 0, 0, 0, 0, 0]

/-- The AuxPoW that `createAuxPow` builds for `exHeader`. -/
def exAuxPow : CAuxPow := auxPowWithScript exScript 1

/-- The same AuxPoW with a parent header of chain id 42. -/
def exAuxPowParent42 : CAuxPow := auxPowWithScript exScript (42 * 65536 + 1)

/-- A script with no magic: 20 zero bytes, the root bytes, size 1 and nonce 0. -/
def c6Script : List Nat := List.replicate 20 0 ++ exRoot ++ [1, 0, 0, 0, 0, 0, 0, 0]

/-- The same script with 21 zero bytes in front of the root bytes. -/
def c6Script21 : List Nat := List.replicate 21 0 ++ exRoot ++ [1, 0, 0, 0, 0, 0, 0, 0]

/-- A script with the magic twice in front of the root bytes, size 1 and nonce 0. -/
def c7Script : List Nat :=
  pchMergedMiningHeader ++ pchMergedMiningHeader ++ exRoot ++ [1, 0, 0, 0, 0, 0, 0, 0]

/-- A script with the magic directly in front of the root bytes, size 1 and nonce 0. -/
def c8Script : List Nat := pchMergedMiningHeader ++ exRoot ++ [1, 0, 0, 0, 0, 0, 0, 0]

/-- A script with one byte between the magic and the root bytes. -/
def c8ScriptGap : List Nat := pchMergedMiningHeader ++ [0] ++ exRoot ++ [1, 0, 0, 0, 0, 0, 0, 0]

/-- A node at height 100 whose bits 0x1e00ffff decode to a target above `powLimit`. -/
def c22Last : CBlockIndex := nodeAt 100 1700000000 0x1e00ffff

/-- The parameters `exParamsNew` with a `pownewlimit` above `powLimit`. -/
def exParamsWideNew : Params := { exParamsNew with pownewlimit := 0xffff * 2 ^ 216 }

/-- A node past the hard fork whose bits 0x1d00ffff are the encoding of `powLimit`. -/
def c22FastLast : CBlockIndex := nodeAt 130010 1700000000 0x1d00ffff

/-- Seventeen predecessors of `c22FastLast`, 60 s apart, with the same bits. -/
def c22FastPrev : List CBlockIndex := spacedChain 60 0x1d00ffff 17 130009 1699999940

/-! ## Theorems -/

/-! ### Lemmas on `search` and on the structure of `check` -/

/-- The result of `search` is an offset or the end. -/
theorem search_le (hay pat : List Nat) : search hay pat ≤ hay.length := by
  induction hay with
  | nil => simp [search]
  | cons x xs ih =>
    unfold search
    split
    · exact Nat.zero_le _
    · simp only [List.length_cons]; omega

/-- When `search` finds something, the pattern occurs at the offset returned. -/
theorem search_isPrefix {hay pat : List Nat} (h : search hay pat < hay.length) :
    pat.isPrefixOf (hay.drop (search hay pat)) = true := by
  induction hay with
  | nil => simp [search] at h
  | cons x xs ih =>
    unfold search at h ⊢
    by_cases hp : pat.isPrefixOf (x :: xs) = true
    · simp only [hp, if_true, List.drop_zero]
    · simp only [hp, if_false, List.drop_succ_cons] at h ⊢
      simp only [Bool.false_eq_true, if_false, List.length_cons] at h ⊢
      exact ih (by omega)

/-- The pattern does not occur before the offset returned by `search`. -/
theorem search_min {hay pat : List Nat} {i : Nat} (h : i < search hay pat) :
    pat.isPrefixOf (hay.drop i) = false := by
  induction hay generalizing i with
  | nil => simp [search] at h
  | cons x xs ih =>
    unfold search at h
    by_cases hp : pat.isPrefixOf (x :: xs) = true
    · simp [hp] at h
    · simp only [hp, Bool.false_eq_true, if_false] at h
      cases i with
      | zero => simpa using Bool.eq_false_iff.mpr hp
      | succ k =>
        simp only [List.drop_succ_cons]
        exact ih (by omega)

/-- An occurrence of the pattern bounds the offset returned by `search`. -/
theorem search_le_of_isPrefix {hay pat : List Nat} {i : Nat}
    (h : pat.isPrefixOf (hay.drop i) = true) : search hay pat ≤ i := by
  by_contra hlt
  have := @search_min hay pat i (by omega)
  rw [h] at this
  exact absurd this (by simp)

/-- The script part of `check` succeeds exactly when no test of it fires. -/
theorem checkScript_ok_iff (script root : List Nat) (height : Nat) (idx C : Int) :
    checkScript script root height idx C = .ok ↔
      (search script root ≠ script.length ∧
       ¬ (search script pchMergedMiningHeader ≠ script.length ∧
          search (script.drop (search script pchMergedMiningHeader + 1)) pchMergedMiningHeader ≠
            (script.drop (search script pchMergedMiningHeader + 1)).length) ∧
       ¬ (search script pchMergedMiningHeader ≠ script.length ∧
          search script pchMergedMiningHeader + pchMergedMiningHeader.length ≠ search script root) ∧
       ¬ (search script pchMergedMiningHeader = script.length ∧ search script root > 20) ∧
       ¬ ((script.length : Int) - ((search script root + root.length : Nat) : Int) < 8) ∧
       DecodeLE32 (script.drop (search script root + root.length)) = (1 <<< height) % 2 ^ 32 ∧
       idx = getExpectedIndex (DecodeLE32 (script.drop (search script root + root.length + 4))) C height) := by
  unfold checkScript checkSizeNonce
  simp only []
  split_ifs <;> simp_all
  intro h
  omega

/-- The reversed bytes of a `uint256` are 32 bytes. -/
theorem uint256Bytes_length (h : Nat) : (uint256Bytes h).reverse.length = 32 := by
  simp [uint256Bytes]

/-- The root bytes searched for by `check` are 32 bytes. -/
theorem vchRootHash_length (F : HashFns) (a : CAuxPow) (hashAuxBlock : Nat) :
    (a.vchRootHash F hashAuxBlock).length = 32 := by
  simp [CAuxPow.vchRootHash, uint256Bytes]

/-- The check succeeds exactly when no test before the script fires and the script part
succeeds on the script of the first input. -/
theorem check_ok_iff (F : HashFns) (a : CAuxPow) (hashAuxBlock : Nat) (nChainId : Int)
    (params : Params) :
    a.check F hashAuxBlock nChainId params = .ok ↔
      (¬ (params.fStrictChainId = true ∧ a.parentBlock.GetChainId = nChainId) ∧
       a.vChainMerkleBranch.length ≤ 30 ∧
       CheckMerkleBranch F.Hash (F.txHash a.coinbaseTx) a.vMerkleBranch 0 =
         a.parentBlock.hashMerkleRoot ∧
       ∃ vin0 rest, a.coinbaseTx.vin = vin0 :: rest ∧
         checkScript vin0.scriptSig (a.vchRootHash F hashAuxBlock)
           a.vChainMerkleBranch.length a.nChainIndex nChainId = .ok) := by
  unfold CAuxPow.check
  simp only []
  split_ifs with h1 h2 h3
  · simp [h1]
  · simp only [h1, not_false_eq_true, true_and, false_iff, not_and]
    intro h; omega
  · simp [h3]
  · have h3' := not_not.mp h3
    have h2' : a.vChainMerkleBranch.length ≤ 30 := by omega
    cases hv : a.coinbaseTx.vin with
    | nil => simp
    | cons vin0 rest =>
      constructor
      · intro h
        exact ⟨h1, h2', h3', vin0, rest, rfl, h⟩
      · rintro ⟨-, -, -, v, r, hr, hc⟩
        cases hr
        exact hc


/-- A non-empty pattern that occurs at an offset leaves that offset inside the list. -/
theorem lt_length_of_isPrefix {hay pat : List Nat} {i : Nat} (hp : pat ≠ [])
    (h : pat.isPrefixOf (hay.drop i) = true) : i < hay.length := by
  by_contra hlt
  rw [List.drop_eq_nil_of_le (by omega)] at h
  cases pat with
  | nil => exact hp rfl
  | cons x xs => simp [List.isPrefixOf] at h

/-- Two occurrences of the magic make the script part of `check` fail: with the
duplicate-header error when the root bytes are found, with the missing-root error
otherwise. -/
theorem checkScript_two_magic (script root : List Nat) (height : Nat) (idx C : Int) (i j : Nat)
    (hij : i < j)
    (hi : pchMergedMiningHeader.isPrefixOf (script.drop i) = true)
    (hj : pchMergedMiningHeader.isPrefixOf (script.drop j) = true) :
    checkScript script root height idx C =
      if search script root = script.length then .error .MissingChainRoot
      else .error .DuplicateMMHeader := by
  have hne : pchMergedMiningHeader ≠ [] := by decide
  have hjl := lt_length_of_isPrefix hne hj
  have hh := search_le_of_isPrefix hi
  have hd : pchMergedMiningHeader.isPrefixOf
      ((script.drop (search script pchMergedMiningHeader + 1)).drop
        (j - (search script pchMergedMiningHeader + 1))) = true := by
    rw [List.drop_drop]
    have : search script pchMergedMiningHeader + 1 + (j - (search script pchMergedMiningHeader + 1)) = j := by
      omega
    rw [this]; exact hj
  have h2 := search_le_of_isPrefix hd
  have hlen : (script.drop (search script pchMergedMiningHeader + 1)).length =
      script.length - (search script pchMergedMiningHeader + 1) := by simp
  have c1 : search script pchMergedMiningHeader ≠ script.length := by omega
  have c2 : search (script.drop (search script pchMergedMiningHeader + 1)) pchMergedMiningHeader ≠
      (script.drop (search script pchMergedMiningHeader + 1)).length := by omega
  unfold checkScript
  simp only []
  by_cases h1 : search script root = script.length
  · rw [if_pos h1, if_pos h1]
  · rw [if_neg h1, if_neg h1, if_pos c1, if_pos (Ne.symm c2)]

/-- A list that is a prefix of itself shifted by one element is constant. -/
theorem eq_replicate_of_prefix_cons (l t : List Nat) (a : Nat) (h : l <+: a :: (l ++ t)) :
    l = List.replicate l.length a := by
  induction l generalizing a with
  | nil => rfl
  | cons x xs ih =>
    rw [List.cons_append, List.cons_prefix_cons] at h
    obtain ⟨hx, hxs⟩ := h
    subst hx
    rw [List.length_cons, List.replicate_succ, ← ih x hxs]

/-- No byte of the size and nonce written by `createAuxPow` is the last byte of the
magic. -/
theorem tail_getElem_ne (m : Nat) : ([1, 0, 0, 0, 0, 0, 0, 0] : List Nat)[m]? ≠ some 0x6d := by
  rcases m with _ | _ | _ | _ | _ | _ | _ | _ | _ <;> simp

/-- In the script written by `createAuxPow`, the magic can only occur inside the root
bytes. -/
theorem search_magic_minimal (rev : List Nat) (hlen : rev.length = 32)
    (hno : search rev pchMergedMiningHeader = 32) :
    search (40 :: (rev ++ [1, 0, 0, 0, 0, 0, 0, 0])) pchMergedMiningHeader =
      (40 :: (rev ++ [1, 0, 0, 0, 0, 0, 0, 0])).length := by
  by_contra hne
  have hle := search_le (40 :: (rev ++ [1, 0, 0, 0, 0, 0, 0, 0])) pchMergedMiningHeader
  have hp := @search_isPrefix (40 :: (rev ++ [1, 0, 0, 0, 0, 0, 0, 0]))
    pchMergedMiningHeader (by omega)
  generalize search (40 :: (rev ++ [1, 0, 0, 0, 0, 0, 0, 0])) pchMergedMiningHeader = q at hp
  cases q with
  | zero => simp [pchMergedMiningHeader, List.isPrefixOf] at hp
  | succ k =>
    rw [List.drop_succ_cons] at hp
    have hpre := List.isPrefixOf_iff_prefix.mp hp
    by_cases hk : k + 4 ≤ 32
    · rw [List.drop_append_of_le_length (by omega)] at hpre
      have h2 : rev.drop k <+: rev.drop k ++ [1, 0, 0, 0, 0, 0, 0, 0] := List.prefix_append _ _
      have h3 : pchMergedMiningHeader <+: rev.drop k :=
        List.prefix_of_prefix_length_le hpre h2 (by simp [pchMergedMiningHeader, hlen]; omega)
      have h4 := @search_min rev pchMergedMiningHeader k (by omega)
      rw [List.isPrefixOf_iff_prefix.mpr h3] at h4
      exact absurd h4 (by simp)
    · have htake := List.prefix_iff_eq_take.mp hpre
      have h3 := congrArg (fun l => l[3]?) htake
      simp only [pchMergedMiningHeader, List.length_cons, List.length_nil] at h3
      rw [List.getElem?_take_of_lt (by omega), List.getElem?_drop,
        List.getElem?_append_right (by omega)] at h3
      exact tail_getElem_ne _ h3.symm

set_option maxRecDepth 100000 in
/-- The script part of `check` on the script written by `createAuxPow`: it succeeds
exactly when the root bytes do not contain the magic and are not 32 bytes `0x28`. -/
theorem checkScript_minimal (rev : List Nat) (hlen : rev.length = 32) (C : Int) :
    checkScript (40 :: (rev ++ [1, 0, 0, 0, 0, 0, 0, 0])) rev 0 0 C = .ok ↔
      (search rev pchMergedMiningHeader = 32 ∧ rev ≠ List.replicate 32 0x28) := by
  have hSlen : (40 :: (rev ++ [1, 0, 0, 0, 0, 0, 0, 0])).length = 41 := by simp [hlen]
  have hF1 : rev.isPrefixOf ((40 :: (rev ++ [1, 0, 0, 0, 0, 0, 0, 0])).drop 1) = true := by
    rw [List.drop_succ_cons, List.drop_zero]
    exact List.isPrefixOf_iff_prefix.mpr (List.prefix_append _ _)
  have hpc1 := search_le_of_isPrefix hF1
  have hrm := search_le rev pchMergedMiningHeader
  rw [checkScript_ok_iff, hSlen, hlen]
  constructor
  · rintro ⟨-, -, p3, -, -, p6, -⟩
    constructor
    · by_contra hne
      have hlt : search rev pchMergedMiningHeader < rev.length := by omega
      have hm := List.isPrefixOf_iff_prefix.mp (search_isPrefix hlt)
      have hm2 : pchMergedMiningHeader.isPrefixOf
          ((40 :: (rev ++ [1, 0, 0, 0, 0, 0, 0, 0])).drop
            (search rev pchMergedMiningHeader + 1)) = true := by
        rw [List.drop_succ_cons, List.drop_append_of_le_length (by omega)]
        exact List.isPrefixOf_iff_prefix.mpr (hm.trans (List.prefix_append _ _))
      have hh := search_le_of_isPrefix hm2
      exact p3 ⟨by omega, by simp only [pchMergedMiningHeader, List.length_cons, List.length_nil]; omega⟩
    · intro heq
      subst heq
      revert p6
      decide
  · rintro ⟨hno, hrep⟩
    have hpc0 : search (40 :: (rev ++ [1, 0, 0, 0, 0, 0, 0, 0])) rev ≠ 0 := by
      intro h0
      have hp := @search_isPrefix (40 :: (rev ++ [1, 0, 0, 0, 0, 0, 0, 0])) rev (by omega)
      rw [h0, List.drop_zero] at hp
      have := eq_replicate_of_prefix_cons rev _ 40 (List.isPrefixOf_iff_prefix.mp hp)
      rw [hlen] at this
      exact hrep this
    have hpc : search (40 :: (rev ++ [1, 0, 0, 0, 0, 0, 0, 0])) rev = 1 := by omega
    have hhead := search_magic_minimal rev hlen hno
    rw [hSlen] at hhead
    have hd1 : (40 :: (rev ++ [1, 0, 0, 0, 0, 0, 0, 0])).drop (1 + 32) = [1, 0, 0, 0, 0, 0, 0, 0] := by
      rw [show 1 + 32 = 32 + 1 from rfl, List.drop_succ_cons]
      exact List.drop_left' hlen
    have hd2 : (40 :: (rev ++ [1, 0, 0, 0, 0, 0, 0, 0])).drop (1 + 32 + 4) = [0, 0, 0, 0] := by
      rw [← List.drop_drop, hd1]
      rfl
    rw [hpc, hhead, hd1, hd2]
    refine ⟨by decide, by simp, by simp, by simp, by decide, by decide, ?_⟩
    simp [getExpectedIndex]

/-! ### Lemmas on the compact encoding -/

/-- Scanning zero finds no bit. -/
theorem bitsAux_zero (fuel : Nat) : bitsAux fuel 0 = 0 := by
  cases fuel <;> simp [bitsAux]

/-- With enough fuel, `bitsAux` is the position of the highest set bit plus one. -/
theorem bitsAux_spec (fuel v : Nat) (hv : v < 2 ^ fuel) (hpos : 0 < v) :
    2 ^ (bitsAux fuel v - 1) ≤ v ∧ v < 2 ^ bitsAux fuel v ∧ 1 ≤ bitsAux fuel v ∧
      bitsAux fuel v ≤ fuel := by
  induction fuel generalizing v with
  | zero => simp at hv; omega
  | succ n ih =>
    have hne : v ≠ 0 := by omega
    simp only [bitsAux, hne, if_false]
    by_cases h2 : v / 2 = 0
    · have h1 : v = 1 := by omega
      subst h1
      simp [bitsAux_zero]
    · have hlt : v / 2 < 2 ^ n := by
        rw [Nat.pow_succ] at hv
        omega
      obtain ⟨a, b, c, d⟩ := ih (v / 2) hlt (by omega)
      refine ⟨?_, ?_, by omega, by omega⟩
      · have e1 : bitsAux n (v / 2) + 1 - 1 = (bitsAux n (v / 2) - 1) + 1 := by omega
        rw [e1, Nat.pow_succ]
        omega
      · rw [Nat.pow_succ]
        omega

/-- The bit length of a non-zero 256-bit value brackets the value. -/
theorem bits_spec (v : Nat) (hv : v < 2 ^ 256) (hpos : 0 < v) :
    2 ^ (bits v - 1) ≤ v ∧ v < 2 ^ bits v ∧ 1 ≤ bits v ∧ bits v ≤ 256 :=
  bitsAux_spec 256 v hv hpos

/-- The sign bit of a compact number is bit 23. -/
theorem and_sign_ne_zero_iff_bit (x : Nat) : x &&& 0x00800000 ≠ 0 ↔ x / 2 ^ 23 % 2 = 1 := by
  have h23 : (0x00800000 : Nat) = 2 ^ 23 := by norm_num
  rw [h23]
  have htb : x.testBit 23 = decide (x / 2 ^ 23 % 2 = 1) := Nat.testBit_to_div_mod
  constructor
  · intro hne
    by_contra hlt
    apply hne
    apply Nat.eq_of_testBit_eq
    intro i
    rw [Nat.testBit_and, Nat.testBit_two_pow, Nat.zero_testBit]
    by_cases hi : 23 = i
    · subst hi
      simp only [htb, decide_True, Bool.and_true, decide_eq_false_iff_not]
      exact hlt
    · simp [hi]
  · intro hge h0
    have h1 : (x &&& 2 ^ 23).testBit 23 = true := by
      rw [Nat.testBit_and, Nat.testBit_two_pow, htb]
      simp only [decide_True, Bool.and_true, decide_eq_true_eq]
      exact hge
    rw [h0, Nat.zero_testBit] at h1
    exact absurd h1 (by simp)

/-- Bit 23 of a 24-bit number is set exactly from `2^23` on. -/
theorem and_sign_ne_zero_iff (c : Nat) (hc : c < 2 ^ 24) : c &&& 0x00800000 ≠ 0 ↔ 2 ^ 23 ≤ c := by
  rw [and_sign_ne_zero_iff_bit]
  omega

/-- A 24-bit mantissa and an exponent shifted by 24 bits combine by addition. -/
theorem lor_shift24 (c n : Nat) (hc : c < 2 ^ 24) : c ||| (n <<< 24) = c + n * 2 ^ 24 := by
  rw [Nat.shiftLeft_eq, Nat.lor_comm, Nat.mul_comm n, ← Nat.mul_add_lt_is_or hc]
  omega

/-- The body of `GetCompact` for a value of exactly `k` bytes: the result is a mantissa
below `2^23` plus the exponent, which is `k + 1` when the top bit of the top byte is
set. -/
theorem compact_body (v k : Nat) (hk1 : 1 ≤ k) (hk : k ≤ 32) (hlo : 2 ^ (8 * (k - 1)) ≤ v)
    (hhi : v < 2 ^ (8 * k)) :
    let c := (if k ≤ 3 then v <<< (8 * (3 - k)) else v >>> (8 * (k - 3))) % 2 ^ 32
    let e := if 2 ^ (8 * k - 1) ≤ v then k + 1 else k
    ((if c &&& 0x00800000 ≠ 0 then c >>> 8 else c) |||
        ((if c &&& 0x00800000 ≠ 0 then k + 1 else k) <<< 24)) % 2 ^ 32 =
      (if e ≤ 3 then v * 2 ^ (8 * (3 - e)) else v / 2 ^ (8 * (e - 3))) + e * 2 ^ 24 ∧
    (if e ≤ 3 then v * 2 ^ (8 * (3 - e)) else v / 2 ^ (8 * (e - 3))) < 2 ^ 23 := by
  intro c e
  -- the unshifted mantissa
  have hc : c < 2 ^ 24 ∧ (2 ^ 23 ≤ c ↔ 2 ^ (8 * k - 1) ≤ v) ∧
      c = (if k ≤ 3 then v * 2 ^ (8 * (3 - k)) else v / 2 ^ (8 * (k - 3))) := by
    by_cases h3 : k ≤ 3
    · have : c = v * 2 ^ (8 * (3 - k)) % 2 ^ 32 := by
        simp only [c, if_pos h3, Nat.shiftLeft_eq]
      rw [this, if_pos h3]
      interval_cases k <;> simp at hlo hhi ⊢ <;> omega
    · have hP : 0 < 2 ^ (8 * (k - 3)) := Nat.two_pow_pos _
      have e1 : 2 ^ (8 * k) = 2 ^ 24 * 2 ^ (8 * (k - 3)) := by
        rw [← Nat.pow_add]; congr 1; omega
      have e2 : 2 ^ (8 * k - 1) = 2 ^ 23 * 2 ^ (8 * (k - 3)) := by
        rw [← Nat.pow_add]; congr 1; omega
      have hlt : v / 2 ^ (8 * (k - 3)) < 2 ^ 24 := by
        rw [Nat.div_lt_iff_lt_mul hP, ← e1]; exact hhi
      have : c = v / 2 ^ (8 * (k - 3)) := by
        simp only [c, if_neg h3, Nat.shiftRight_eq_div_pow]
        exact Nat.mod_eq_of_lt (by omega)
      rw [this, if_neg h3]
      refine ⟨hlt, ?_, rfl⟩
      rw [Nat.le_div_iff_mul_le hP, e2]
  obtain ⟨hc24, hsign, hceq⟩ := hc
  have hs := and_sign_ne_zero_iff c hc24
  by_cases hsg : 2 ^ (8 * k - 1) ≤ v
  · have hc23 : 2 ^ 23 ≤ c := hsign.mpr hsg
    have he : e = k + 1 := by simp only [e, if_pos hsg]
    rw [if_pos (hs.mpr hc23), if_pos (hs.mpr hc23), he, Nat.shiftRight_eq_div_pow,
      lor_shift24 _ _ (by omega)]
    have hm : c / 2 ^ 8 =
        (if k + 1 ≤ 3 then v * 2 ^ (8 * (3 - (k + 1))) else v / 2 ^ (8 * (k + 1 - 3))) := by
      rw [hceq]
      by_cases h3 : k ≤ 3
      · rw [if_pos h3]
        interval_cases k <;> simp <;> omega
      · rw [if_neg h3, if_neg (by omega), Nat.div_div_eq_div_mul, ← Nat.pow_add]
        congr 2
        omega
    rw [← hm]
    refine ⟨Nat.mod_eq_of_lt (by omega), by omega⟩
  · have hc23 : ¬ (2 ^ 23 ≤ c) := fun h => hsg (hsign.mp h)
    have he : e = k := by simp only [e, if_neg hsg]
    rw [if_neg (fun h => hc23 (hs.mp h)), if_neg (fun h => hc23 (hs.mp h)), he,
      lor_shift24 _ _ hc24, ← hceq]
    refine ⟨Nat.mod_eq_of_lt (by omega), by omega⟩


/-- The exponent of a non-zero 256-bit value is the byte length of twice the value. -/
theorem compactExp_spec (v : Nat) (hv : v < 2 ^ 256) (hpos : 0 < v) :
    2 ^ (8 * (compactExp v - 1)) ≤ 2 * v ∧ 2 * v < 2 ^ (8 * compactExp v) ∧
      1 ≤ compactExp v ∧ compactExp v ≤ 33 := by
  obtain ⟨h1, h2, h3, h4⟩ := bits_spec v hv hpos
  unfold compactExp
  refine ⟨?_, ?_, by omega, by omega⟩
  · have e1 : 2 ^ (8 * (bits v / 8 + 1 - 1)) ≤ 2 ^ bits v :=
      Nat.pow_le_pow_right (by decide) (by omega)
    have e2 : 2 ^ bits v = 2 * 2 ^ (bits v - 1) := by
      rw [← Nat.pow_succ']; congr 1; omega
    omega
  · have e1 : 2 ^ (bits v + 1) ≤ 2 ^ (8 * (bits v / 8 + 1)) :=
      Nat.pow_le_pow_right (by decide) (by omega)
    have e2 : 2 ^ (bits v + 1) = 2 * 2 ^ bits v := Nat.pow_succ'
    omega

/-- The compact encoding of a non-zero 256-bit value: mantissa plus exponent. -/
theorem GetCompact_eq (v : Nat) (hv : v < 2 ^ 256) (hpos : 0 < v) :
    GetCompact v = compactMantissa v + compactExp v * 2 ^ 24 ∧ compactMantissa v < 2 ^ 23 := by
  obtain ⟨h1, h2, h3, h4⟩ := bits_spec v hv hpos
  have hk1 : 1 ≤ (bits v + 7) / 8 := by omega
  have hk : (bits v + 7) / 8 ≤ 32 := by omega
  have hlo : 2 ^ (8 * ((bits v + 7) / 8 - 1)) ≤ v :=
    Nat.le_trans (Nat.pow_le_pow_right (by decide) (by omega)) h1
  have hhi : v < 2 ^ (8 * ((bits v + 7) / 8)) :=
    Nat.lt_of_lt_of_le h2 (Nat.pow_le_pow_right (by decide) (by omega))
  have hbody := compact_body v ((bits v + 7) / 8) hk1 hk hlo hhi
  have he : (if 2 ^ (8 * ((bits v + 7) / 8) - 1) ≤ v then (bits v + 7) / 8 + 1
      else (bits v + 7) / 8) = compactExp v := by
    unfold compactExp
    by_cases h8 : bits v % 8 = 0
    · have : 8 * ((bits v + 7) / 8) - 1 = bits v - 1 := by omega
      rw [this, if_pos h1]
      omega
    · have hlt : v < 2 ^ (8 * ((bits v + 7) / 8) - 1) :=
        Nat.lt_of_lt_of_le h2 (Nat.pow_le_pow_right (by decide) (by omega))
      rw [if_neg (by omega)]
      omega
  simp only [he] at hbody
  exact hbody

/-- Decoding a compact number made of a mantissa below `2^23` and an exponent of at
most 33 (with a two-byte mantissa at 33). -/
theorem SetCompact_mantissa_exp (m e : Nat) (hm : m < 2 ^ 23) (he : e ≤ 33)
    (h33 : e = 33 → m < 2 ^ 16) :
    SetCompact (m + e * 2 ^ 24) =
      { value := if e ≤ 3 then m / 2 ^ (8 * (3 - e)) else (m * 2 ^ (8 * (e - 3))) % U256
        fNegative := false, fOverflow := false } := by
  have hsize : (m + e * 2 ^ 24) >>> 24 = e := by
    rw [Nat.shiftRight_eq_div_pow]; omega
  have hword : (m + e * 2 ^ 24) &&& 0x007fffff = m := by
    have : (0x007fffff : Nat) = 2 ^ 23 - 1 := by norm_num
    rw [this, Nat.and_pow_two_sub_one_eq_mod]; omega
  have hsign : ¬ ((m + e * 2 ^ 24) &&& 0x00800000 ≠ 0) := by
    rw [and_sign_ne_zero_iff_bit]; omega
  unfold SetCompact
  simp only [hsize, hword, Nat.shiftRight_eq_div_pow, Nat.shiftLeft_eq]
  have hnot : (m + e * 2 ^ 24) &&& 0x00800000 = 0 := not_not.mp hsign
  by_cases h3 : e ≤ 3
  · simp only [if_pos h3, hnot]
    simp
    intro _
    omega
  · simp only [if_neg h3, hnot]
    simp
    intro _
    refine ⟨⟨by omega, fun _ => he⟩, fun h16 => ?_⟩
    by_contra h32
    have := h33 (by omega)
    omega

/-- Decoding the encoding of a 256-bit value gives the rounded value, with no flag. -/
theorem SetCompact_GetCompact (v : Nat) (hv : v < 2 ^ 256) :
    SetCompact (GetCompact v) =
      { value := compactRound v, fNegative := false, fOverflow := false } := by
  by_cases h0 : v = 0
  · subst h0; decide
  · have hpos : 0 < v := Nat.pos_of_ne_zero h0
    obtain ⟨hlo, hhi, he1, he33⟩ := compactExp_spec v hv hpos
    obtain ⟨hg, hm⟩ := GetCompact_eq v hv hpos
    have hP : 0 < 2 ^ (8 * (compactExp v - 3)) := Nat.two_pow_pos _
    have h33 : compactExp v = 33 → compactMantissa v < 2 ^ 16 := by
      intro h
      unfold compactMantissa
      rw [if_neg (by omega), h, Nat.div_lt_iff_lt_mul (Nat.two_pow_pos _), ← Nat.pow_add]
      exact hv
    rw [hg, SetCompact_mantissa_exp _ _ hm he33 h33]
    congr 1
    unfold compactRound compactMantissa
    by_cases h3 : compactExp v ≤ 3
    · rw [if_pos h3, if_pos h3, if_pos h3]
      exact Nat.mul_div_cancel _ (Nat.two_pow_pos _)
    · rw [if_neg h3, if_neg h3, if_neg h3]
      apply Nat.mod_eq_of_lt
      have := Nat.div_mul_le_self v (2 ^ (8 * (compactExp v - 3)))
      unfold U256
      omega

/-- Rounding does not increase a value. -/
theorem compactRound_le (v : Nat) : compactRound v ≤ v := by
  unfold compactRound
  split
  · exact Nat.le_refl _
  · exact Nat.div_mul_le_self _ _

/-- The exponent is determined by the byte bracket of twice the value. -/
theorem compactExp_unique (t e : Nat) (ht : t < 2 ^ 256) (hpos : 0 < t) (he : 1 ≤ e)
    (hlo : 2 ^ (8 * (e - 1)) ≤ 2 * t) (hhi : 2 * t < 2 ^ (8 * e)) : compactExp t = e := by
  obtain ⟨hlo', hhi', he1, -⟩ := compactExp_spec t ht hpos
  by_contra hne
  rcases Nat.lt_or_gt_of_ne hne with h | h
  · have := Nat.pow_le_pow_right (show 0 < 2 by decide)
      (show 8 * compactExp t ≤ 8 * (e - 1) by omega)
    omega
  · have := Nat.pow_le_pow_right (show 0 < 2 by decide)
      (show 8 * e ≤ 8 * (compactExp t - 1) by omega)
    omega

/-- Values between the rounded value and the value itself have the same encoding. -/
theorem GetCompact_eq_of_between (v t : Nat) (hv : v < 2 ^ 256) (h1 : compactRound v ≤ t)
    (h2 : t ≤ v) : GetCompact t = GetCompact v := by
  by_cases h3 : compactExp v ≤ 3
  · have : compactRound v = v := by unfold compactRound; rw [if_pos h3]
    have : t = v := by omega
    rw [this]
  · have hr : compactRound v =
        v / 2 ^ (8 * (compactExp v - 3)) * 2 ^ (8 * (compactExp v - 3)) := by
      unfold compactRound; rw [if_neg h3]
    have hpos : 0 < v := by
      by_contra h0
      have : v = 0 := by omega
      subst this
      exact h3 (by decide)
    obtain ⟨hlo, hhi, he1, he33⟩ := compactExp_spec v hv hpos
    have hP : 0 < 2 ^ (8 * (compactExp v - 3)) := Nat.two_pow_pos _
    -- the mantissa has at least 16 bits
    have e15 : 2 ^ (8 * (compactExp v - 1)) = 2 ^ 16 * 2 ^ (8 * (compactExp v - 3)) := by
      rw [← Nat.pow_add]; congr 1; omega
    have hm15 : 2 ^ 15 ≤ v / 2 ^ (8 * (compactExp v - 3)) := by
      rw [Nat.le_div_iff_mul_le hP]
      have : (2 : Nat) ^ 16 = 2 * 2 ^ 15 := by norm_num
      rw [e15, this, Nat.mul_assoc] at hlo
      omega
    have hdiv : t / 2 ^ (8 * (compactExp v - 3)) = v / 2 ^ (8 * (compactExp v - 3)) := by
      apply Nat.le_antisymm (Nat.div_le_div_right h2)
      rw [Nat.le_div_iff_mul_le hP, ← hr]
      exact h1
    have hrpos : 2 ^ 15 * 2 ^ (8 * (compactExp v - 3)) ≤ compactRound v := by
      rw [hr]; exact Nat.mul_le_mul_right _ hm15
    have htpos : 0 < t := by
      have := Nat.mul_pos (show 0 < 2 ^ 15 by norm_num) hP
      omega
    have hte : compactExp t = compactExp v := by
      apply compactExp_unique t _ (by omega) htpos he1
      · rw [e15]
        have : (2 : Nat) ^ 16 = 2 * 2 ^ 15 := by norm_num
        rw [this, Nat.mul_assoc]
        omega
      · omega
    obtain ⟨hgt, -⟩ := GetCompact_eq t (by omega) htpos
    obtain ⟨hgv, -⟩ := GetCompact_eq v hv hpos
    rw [hgt, hgv]
    unfold compactMantissa
    rw [hte, if_neg h3, if_neg h3, hdiv]

/-- Encoding is insensitive to rounding. -/
theorem GetCompact_compactRound (v : Nat) (hv : v < 2 ^ 256) :
    GetCompact (compactRound v) = GetCompact v :=
  GetCompact_eq_of_between v _ hv (Nat.le_refl _) (compactRound_le v)

/-- The cap of the emergency rules: returning the encoded limit when the target exceeds
the decoded encoded limit, and the encoded target otherwise, is encoding the minimum of
the limit and the target. -/
theorem cap_eq_GetCompact_min (limit t : Nat) (hl : limit < 2 ^ 256) :
    (if t > (SetCompact (GetCompact limit)).value then GetCompact limit else GetCompact t) =
      GetCompact (min limit t) := by
  rw [SetCompact_GetCompact limit hl]
  simp only []
  have hle := compactRound_le limit
  by_cases h1 : t > compactRound limit
  · rw [if_pos h1]
    by_cases h2 : t ≤ limit
    · rw [Nat.min_eq_right h2]
      exact (GetCompact_eq_of_between limit t hl (by omega) h2).symm
    · rw [Nat.min_eq_left (by omega)]
  · rw [if_neg h1, Nat.min_eq_right (by omega)]

/-! ### Lemmas on the new algorithm -/

/-- With a candidate, valid windows and retargeting on, `GetNextWorkRequiredNew` is the
old emergency rule followed by the rules from range 1 on. -/
theorem GetNextWorkRequiredNew_candidate (last : CBlockIndex) (prev : List CBlockIndex)
    (blk : CBlockHeader) (params : Params) (hnr : params.fPowNoRetargeting = false)
    (hw : 0 < params.nPowAveragingWindow) (hs : 0 < params.nPostBlossomPowTargetSpacing) :
    GetNextWorkRequiredNew (last :: prev) (some blk) params =
      if last.nHeight < 126800 ∧
          blk.GetBlockTime > last.GetBlockTime + params.nPostBlossomPowTargetSpacing * 6 then
        some (GetCompact params.pownewlimit)
      else range1Rules last prev (blk.GetBlockTime - last.GetBlockTime) params := by
  have hv : ¬ (params.nPowAveragingWindow ≤ 0 ∨ params.nPostBlossomPowTargetSpacing ≤ 0) := by
    omega
  simp only [GetNextWorkRequiredNew, hnr, Bool.false_eq_true, if_false, if_neg hv]
  rfl

/-- C1: `CheckProofOfWork(hash, bits, params)` is true exactly when the target decoded
from `bits` is not negative, not overflowed, non-zero and at most `powLimit`, and the
hash, read as an unsigned 256-bit integer, is at most that target. -/
theorem C1_CheckProofOfWork_iff (hash nBits : Nat) (params : Params) :
    CheckProofOfWork hash nBits params = true ↔
      ((SetCompact nBits).fNegative = false ∧ (SetCompact nBits).fOverflow = false ∧
        (SetCompact nBits).value ≠ 0 ∧ (SetCompact nBits).value ≤ params.powLimit ∧
        hash ≤ (SetCompact nBits).value) := by
  unfold CheckProofOfWork
  simp only []
  constructor
  · intro h
    split at h
    · exact absurd h (by simp)
    · rename_i h1
      split at h
      · exact absurd h (by simp)
      · rename_i h2
        simp only [Bool.or_eq_true, decide_eq_true_eq, not_or, Bool.not_eq_true, gt_iff_lt,
          not_lt] at h1
        obtain ⟨⟨⟨hn, hz⟩, ho⟩, hl⟩ := h1
        exact ⟨hn, ho, hz, hl, Nat.le_of_not_lt h2⟩
  · rintro ⟨hn, ho, hz, hl, hh⟩
    have h1 : ¬ ((SetCompact nBits).fNegative || decide ((SetCompact nBits).value = 0) ||
        (SetCompact nBits).fOverflow || decide ((SetCompact nBits).value > params.powLimit)) = true := by
      simp [hn, ho, hz, hl]
    rw [if_neg h1, if_neg (Nat.not_lt.mpr hh)]

/-- C2: if `check` succeeds then the parent chain id differs from ours under strict
mode, the chain merkle branch has at most 30 entries, the coinbase has an input, the
coinbase hash folded along `vMerkleBranch` with index 0 is the parent merkle root, the
reversed chain root occurs in the script of the first input (at the offset `search`
returns) and is followed by at least 8 bytes, the first four of which decode to
`1 << len(vChainMerkleBranch)` and the next four to a nonce whose expected index is
`nChainIndex`.  In particular a parent with chain id 42 is rejected with the chain-id
error for our chain id 42 under strict mode. -/
theorem C2_check_sound (F : HashFns) (a : CAuxPow) (hashAuxBlock : Nat) (nChainId : Int)
    (params : Params) :
    (a.check F hashAuxBlock nChainId params = .ok →
      (params.fStrictChainId = true → a.parentBlock.GetChainId ≠ nChainId) ∧
      a.vChainMerkleBranch.length ≤ 30 ∧
      CheckMerkleBranch F.Hash (F.txHash a.coinbaseTx) a.vMerkleBranch 0 =
        a.parentBlock.hashMerkleRoot ∧
      ∃ vin0 rest, a.coinbaseTx.vin = vin0 :: rest ∧
        (a.vchRootHash F hashAuxBlock).isPrefixOf
          (vin0.scriptSig.drop (search vin0.scriptSig (a.vchRootHash F hashAuxBlock))) = true ∧
        search vin0.scriptSig (a.vchRootHash F hashAuxBlock) + 32 + 8 ≤ vin0.scriptSig.length ∧
        DecodeLE32 (vin0.scriptSig.drop (search vin0.scriptSig (a.vchRootHash F hashAuxBlock) + 32)) =
          2 ^ a.vChainMerkleBranch.length ∧
        a.nChainIndex = getExpectedIndex
          (DecodeLE32 (vin0.scriptSig.drop (search vin0.scriptSig (a.vchRootHash F hashAuxBlock) + 32 + 4)))
          nChainId a.vChainMerkleBranch.length) ∧
    (params.fStrictChainId = true ∧ a.parentBlock.GetChainId = 42 →
      a.check F hashAuxBlock 42 params = .error .WrongChainId) := by
  constructor
  · intro h
    rw [check_ok_iff] at h
    obtain ⟨h1, h2, h3, vin0, rest, hv, hs⟩ := h
    rw [checkScript_ok_iff, vchRootHash_length] at hs
    obtain ⟨p1, -, -, -, p5, p6, p7⟩ := hs
    have hle := search_le vin0.scriptSig (a.vchRootHash F hashAuxBlock)
    refine ⟨fun hst hc => h1 ⟨hst, hc⟩, h2, h3, vin0, rest, hv, ?_, ?_, ?_, p7⟩
    · exact search_isPrefix (by omega)
    · push_cast at p5; omega
    · rw [p6, Nat.one_shiftLeft]
      exact Nat.mod_eq_of_lt (Nat.pow_lt_pow_right (by decide) (by omega))
  · rintro ⟨hst, hc⟩
    simp [CAuxPow.check, hst, hc]

set_option maxRecDepth 100000 in
/-- Witness of C2: the minimal AuxPoW of `exHeader` passes the check under double
SHA-256, so the conclusions hold for it; with a parent of chain id 42 and strict mode
the check reports the chain-id error. -/
theorem C2_check_sound_witness :
    (exAuxPow.check sha256Fns (sha256Fns.headerHash exHeader) 42 exParams = .ok ∧
      exAuxPow.vChainMerkleBranch.length ≤ 30 ∧
      CheckMerkleBranch sha256Fns.Hash (sha256Fns.txHash exAuxPow.coinbaseTx)
        exAuxPow.vMerkleBranch 0 = exAuxPow.parentBlock.hashMerkleRoot) ∧
    exAuxPowParent42.check sha256Fns (sha256Fns.headerHash exHeader) 42 exParamsStrict =
      .error .WrongChainId :=
  have hok : exAuxPow.check sha256Fns (sha256Fns.headerHash exHeader) 42 exParams = .ok := by
    decide
  have h := (C2_check_sound sha256Fns exAuxPow (sha256Fns.headerHash exHeader) 42 exParams).1 hok
  ⟨⟨hok, h.2.1, h.2.2.1⟩,
   (C2_check_sound sha256Fns exAuxPowParent42 (sha256Fns.headerHash exHeader) 42
      exParamsStrict).2 ⟨by decide, by decide⟩⟩

/-- C3 (amended): for a header with the AuxPoW flag and non-strict parameters,
`createAuxPow` returns a payload, and its check against the header's own hash and
chain id succeeds exactly when the reversed block hash does not contain the magic
`fa be 6d 6d` and is not 32 bytes `0x28` (the push opcode in front of it). -/
theorem C3_createAuxPow_check (F : HashFns) (h : CPureBlockHeader) (params : Params)
    (hflag : h.IsAuxpow = true) (hstrict : params.fStrictChainId = false) :
    ∃ a, createAuxPow F h = some a ∧
      (a.check F (F.headerHash h) h.GetChainId params = .ok ↔
        (search (uint256Bytes (F.headerHash h)).reverse pchMergedMiningHeader = 32 ∧
          (uint256Bytes (F.headerHash h)).reverse ≠ List.replicate 32 0x28)) := by
  have hlen := uint256Bytes_length (F.headerHash h)
  refine ⟨_, (by unfold createAuxPow; rw [if_pos hflag]), ?_⟩
  rw [check_ok_iff, ← checkScript_minimal _ hlen h.GetChainId]
  simp [hstrict, CAuxPow.vchRootHash, CheckMerkleBranch, merkleFold, BlockMerkleRoot,
    merkleRootAux, pushData, hlen]

set_option maxRecDepth 100000 in
/-- Witness of C3: the header `exHeader` (chain id 42, flag set) under double SHA-256;
its reversed block hash is free of the magic, so the payload of `createAuxPow` passes
the check. -/
theorem C3_createAuxPow_check_witness :
    exHeader.IsAuxpow = true ∧ exHeader.GetChainId = 42 ∧ exParams.fStrictChainId = false ∧
      ∃ a, createAuxPow sha256Fns exHeader = some a ∧
        a.check sha256Fns (sha256Fns.headerHash exHeader) exHeader.GetChainId exParams = .ok :=
  (C3_createAuxPow_check sha256Fns exHeader exParams (by decide) (by decide)).elim
    fun a ha => ⟨by decide, by decide, by decide, a, ha.1, ha.2.mpr (by decide)⟩

set_option maxRecDepth 100000 in
/-- C3 (as stated) fails: the header `exHeaderMagic` has chain id 42 and the flag set,
and its block hash under double SHA-256 has the bytes `6d 6d be fa` at offsets 6 to 9,
so the reversed hash contains the magic; the payload of `createAuxPow` is rejected with
"Merged mining header is not just before chain merkle root" although strict mode is
off. -/
theorem C3_createAuxPow_check_fails :
    exHeaderMagic.IsAuxpow = true ∧ exHeaderMagic.GetChainId = 42 ∧
      exParams.fStrictChainId = false ∧
      ((uint256Bytes (sha256Fns.headerHash exHeaderMagic)).drop 6).take 4 = [0x6d, 0x6d, 0xbe, 0xfa] ∧
      (createAuxPow sha256Fns exHeaderMagic).map
        (fun a => a.check sha256Fns (sha256Fns.headerHash exHeaderMagic)
          exHeaderMagic.GetChainId exParams) = some (.error .MMHeaderNotBeforeRoot) := by
  decide

/-- C4 (as the code computes it): `getExpectedIndex(0, 1, 3)` is 3. -/
theorem C4_getExpectedIndex_0_1_3 : getExpectedIndex 0 1 3 = 3 := by decide

/-- C4 (as the spec states it) fails: `getExpectedIndex(0, 1, 3)` is not 6, and the
32-bit value of the two LCG steps, 362964203, is 3 modulo 8. -/
theorem C4_getExpectedIndex_not_6 :
    getExpectedIndex 0 1 3 ≠ 6 ∧
      ((((0 * 1103515245 + 12345) + 1) * 1103515245 + 12345) % 2 ^ 32) % 8 = 3 := by decide

/-- C5: for every 32-bit nonce, every 32-bit signed chain id and every height of at
most 30, `getExpectedIndex` is non-negative and below `2^h`. -/
theorem C5_getExpectedIndex_range (nNonce : Nat) (nChainId : Int) (h : Nat)
    (hn : nNonce < 2 ^ 32) (hc : -2 ^ 31 ≤ nChainId ∧ nChainId < 2 ^ 31) (hh : h ≤ 30) :
    0 ≤ getExpectedIndex nNonce nChainId h ∧ getExpectedIndex nNonce nChainId h < 2 ^ h := by
  unfold getExpectedIndex
  simp only [Nat.one_shiftLeft]
  refine ⟨Int.ofNat_nonneg _, ?_⟩
  have hpos : 0 < 2 ^ h := Nat.two_pow_pos h
  have := Nat.mod_lt ((((nNonce % 2 ^ 32 * 1103515245 + 12345) % 2 ^ 32 + toU32 nChainId) % 2 ^ 32 *
    1103515245 + 12345) % 2 ^ 32) hpos
  exact_mod_cast this

/-- Witness of C5 at nonce 7, chain id -1 and height 30. -/
theorem C5_getExpectedIndex_range_witness :
    0 ≤ getExpectedIndex 7 (-1) 30 ∧ getExpectedIndex 7 (-1) 30 < 2 ^ 30 :=
  C5_getExpectedIndex_range 7 (-1) 30 (by decide) (by decide) (by decide)

/-- The general part of the rule behind C6: without the magic, a successful check has
the first occurrence of the root bytes at an offset of at most 20. -/
theorem check_no_magic_offset (F : HashFns) (a : CAuxPow) (hashAuxBlock : Nat) (nChainId : Int)
    (params : Params) (vin0 : CTxIn) (rest : List CTxIn) (hv : a.coinbaseTx.vin = vin0 :: rest)
    (hm : search vin0.scriptSig pchMergedMiningHeader = vin0.scriptSig.length)
    (h : a.check F hashAuxBlock nChainId params = .ok) :
    search vin0.scriptSig (a.vchRootHash F hashAuxBlock) ≤ 20 := by
  rw [check_ok_iff] at h
  obtain ⟨-, -, -, v, r, hv', hs⟩ := h
  rw [hv] at hv'
  cases hv'
  rw [checkScript_ok_iff] at hs
  obtain ⟨-, -, -, p4, -⟩ := hs
  by_contra hgt
  exact p4 ⟨hm, by omega⟩

set_option maxRecDepth 100000 in
/-- C6 (what the code does): a script without the magic whose root bytes first start
at offset 20, i.e. after the first 20 bytes, passes the check; the check rejects the
root only from offset 21 on. -/
theorem C6_root_at_offset_20_accepted :
    search c6Script pchMergedMiningHeader = c6Script.length ∧
      search c6Script exRoot = 20 ∧
      (auxPowWithScript c6Script 1).check sha256Fns (sha256Fns.headerHash exHeader) 42 exParams =
        .ok ∧
      search c6Script21 exRoot = 21 ∧
      (auxPowWithScript c6Script21 1).check sha256Fns (sha256Fns.headerHash exHeader) 42
        exParams = .error .RootNotInPrefix := by
  decide

/-- C7 (amended): when the script of the first input contains the magic at two
positions, `check` fails for every child hash, chain id and parameters; when the
chain-id, branch-length and merkle-root tests pass and the root bytes are present, the
failure is the duplicate-header error. -/
theorem C7_two_magic_rejected (F : HashFns) (a : CAuxPow) (hashAuxBlock : Nat) (nChainId : Int)
    (params : Params) (vin0 : CTxIn) (rest : List CTxIn) (i j : Nat)
    (hv : a.coinbaseTx.vin = vin0 :: rest) (hij : i < j)
    (hi : pchMergedMiningHeader.isPrefixOf (vin0.scriptSig.drop i) = true)
    (hj : pchMergedMiningHeader.isPrefixOf (vin0.scriptSig.drop j) = true) :
    a.check F hashAuxBlock nChainId params ≠ .ok ∧
      (¬ (params.fStrictChainId = true ∧ a.parentBlock.GetChainId = nChainId) →
        a.vChainMerkleBranch.length ≤ 30 →
        CheckMerkleBranch F.Hash (F.txHash a.coinbaseTx) a.vMerkleBranch 0 =
          a.parentBlock.hashMerkleRoot →
        search vin0.scriptSig (a.vchRootHash F hashAuxBlock) ≠ vin0.scriptSig.length →
        a.check F hashAuxBlock nChainId params = .error .DuplicateMMHeader) := by
  have key := fun root height idx C =>
    checkScript_two_magic vin0.scriptSig root height idx C i j hij hi hj
  constructor
  · intro h
    rw [check_ok_iff] at h
    obtain ⟨-, -, -, v, r, hv', hs⟩ := h
    rw [hv] at hv'
    cases hv'
    rw [key] at hs
    split at hs <;> exact absurd hs (by simp)
  · intro h1 h2 h3 h4
    unfold CAuxPow.check
    simp only []
    rw [if_neg h1, if_neg (by omega), if_neg (not_not.mpr h3), hv]
    simp only []
    rw [key, if_neg h4]

set_option maxRecDepth 100000 in
/-- Witness of C7: the script `c7Script` has the magic at offsets 0 and 4 and passes the
tests before the script, so the check fails with the duplicate-header error. -/
theorem C7_two_magic_rejected_witness :
    (auxPowWithScript c7Script 1).check sha256Fns (sha256Fns.headerHash exHeader) 42 exParams ≠ .ok ∧
      (auxPowWithScript c7Script 1).check sha256Fns (sha256Fns.headerHash exHeader) 42 exParams =
        .error .DuplicateMMHeader :=
  have h := C7_two_magic_rejected sha256Fns (auxPowWithScript c7Script 1)
    (sha256Fns.headerHash exHeader) 42 exParams
    { prevout := { hash := 0, n := 2 ^ 32 - 1 }, scriptSig := c7Script } [] 0 4 rfl (by decide)
    (by decide) (by decide)
  ⟨h.1, h.2 (by decide) (by decide) (by decide) (by decide)⟩

set_option maxRecDepth 100000 in
/-- C7 (as stated) fails: `c7Script` has the magic at offsets 0 and 4 and contains the
root bytes, but with a parent of chain id 42 under strict mode the failure is the
chain-id error, not the duplicate-header error. -/
theorem C7_failure_not_always_duplicate :
    pchMergedMiningHeader.isPrefixOf (c7Script.drop 0) = true ∧
      pchMergedMiningHeader.isPrefixOf (c7Script.drop 4) = true ∧
      search c7Script exRoot ≠ c7Script.length ∧
      (auxPowWithScript c7Script (42 * 65536 + 1)).check sha256Fns
        (sha256Fns.headerHash exHeader) 42 exParamsStrict = .error .WrongChainId ∧
      (auxPowWithScript c7Script (42 * 65536 + 1)).check sha256Fns
        (sha256Fns.headerHash exHeader) 42 exParamsStrict ≠ .error .DuplicateMMHeader := by
  decide

/-- C8: when the script of the first input contains the magic and `check` succeeds,
the first occurrence of the root bytes starts at an offset of at least 4 and the four
bytes in front of it are the magic; a script that contains the magic but where the
magic does not end where the root bytes begin, in particular one in which the magic
followed by the root bytes occurs nowhere, is rejected. -/
theorem C8_magic_before_root (F : HashFns) (a : CAuxPow) (hashAuxBlock : Nat) (nChainId : Int)
    (params : Params) (vin0 : CTxIn) (rest : List CTxIn) (i : Nat)
    (hv : a.coinbaseTx.vin = vin0 :: rest)
    (hi : pchMergedMiningHeader.isPrefixOf (vin0.scriptSig.drop i) = true) :
    (a.check F hashAuxBlock nChainId params = .ok →
      4 ≤ search vin0.scriptSig (a.vchRootHash F hashAuxBlock) ∧
      (vin0.scriptSig.drop (search vin0.scriptSig (a.vchRootHash F hashAuxBlock) - 4)).take 4 =
        pchMergedMiningHeader ∧
      (a.vchRootHash F hashAuxBlock).isPrefixOf
        (vin0.scriptSig.drop (search vin0.scriptSig (a.vchRootHash F hashAuxBlock))) = true) ∧
    (search vin0.scriptSig pchMergedMiningHeader + 4 ≠
        search vin0.scriptSig (a.vchRootHash F hashAuxBlock) →
      a.check F hashAuxBlock nChainId params ≠ .ok) ∧
    ((∀ p, (pchMergedMiningHeader ++ a.vchRootHash F hashAuxBlock).isPrefixOf
        (vin0.scriptSig.drop p) = false) →
      a.check F hashAuxBlock nChainId params ≠ .ok) := by
  have hne : pchMergedMiningHeader ≠ [] := by decide
  have hil := lt_length_of_isPrefix hne hi
  have hh := search_le_of_isPrefix hi
  have hpres : search vin0.scriptSig pchMergedMiningHeader ≠ vin0.scriptSig.length := by omega
  have hlen : pchMergedMiningHeader.length = 4 := rfl
  -- what a successful check gives
  have main : a.check F hashAuxBlock nChainId params = .ok →
      search vin0.scriptSig pchMergedMiningHeader + 4 =
        search vin0.scriptSig (a.vchRootHash F hashAuxBlock) ∧
      search vin0.scriptSig (a.vchRootHash F hashAuxBlock) < vin0.scriptSig.length := by
    intro h
    rw [check_ok_iff] at h
    obtain ⟨-, -, -, v, r, hv', hs⟩ := h
    rw [hv] at hv'
    cases hv'
    rw [checkScript_ok_iff] at hs
    obtain ⟨p1, -, p3, -⟩ := hs
    have hle := search_le vin0.scriptSig (a.vchRootHash F hashAuxBlock)
    refine ⟨?_, by omega⟩
    by_contra hne'
    exact p3 ⟨hpres, by rw [hlen]; exact hne'⟩
  have hmagic : pchMergedMiningHeader.isPrefixOf
      (vin0.scriptSig.drop (search vin0.scriptSig pchMergedMiningHeader)) = true :=
    search_isPrefix (by omega)
  refine ⟨?_, ?_, ?_⟩
  · intro h
    obtain ⟨heq, hlt⟩ := main h
    refine ⟨by omega, ?_, search_isPrefix hlt⟩
    have hsub : search vin0.scriptSig (a.vchRootHash F hashAuxBlock) - 4 =
        search vin0.scriptSig pchMergedMiningHeader := by omega
    rw [hsub]
    have hp := List.isPrefixOf_iff_prefix.mp hmagic
    have := List.prefix_iff_eq_take.mp hp
    rw [hlen] at this
    exact this.symm
  · intro hne' h
    exact hne' (main h).1
  · intro hno h
    obtain ⟨heq, hlt⟩ := main h
    have hroot := search_isPrefix hlt
    have hp1 := List.isPrefixOf_iff_prefix.mp hmagic
    have hp2 := List.isPrefixOf_iff_prefix.mp hroot
    have hcat : (pchMergedMiningHeader ++ a.vchRootHash F hashAuxBlock) <+:
        vin0.scriptSig.drop (search vin0.scriptSig pchMergedMiningHeader) := by
      obtain ⟨t1, ht1⟩ := hp1
      obtain ⟨t2, ht2⟩ := hp2
      have hd : vin0.scriptSig.drop (search vin0.scriptSig (a.vchRootHash F hashAuxBlock)) = t1 := by
        rw [← heq, ← List.drop_drop, ← ht1]
        simp [hlen]
      rw [hd] at ht2
      refine ⟨t2, ?_⟩
      rw [← ht1, ← ht2]
      simp
    have := hno (search vin0.scriptSig pchMergedMiningHeader)
    rw [List.isPrefixOf_iff_prefix.mpr hcat] at this
    exact absurd this (by simp)

set_option maxRecDepth 100000 in
/-- Witness of C8: `c8Script` has the magic directly in front of the root bytes and is
accepted, with the root bytes at offset 4; `c8ScriptGap` has one byte in between and is
rejected. -/
theorem C8_magic_before_root_witness :
    ((auxPowWithScript c8Script 1).check sha256Fns (sha256Fns.headerHash exHeader) 42 exParams =
        .ok ∧
      4 ≤ search c8Script exRoot ∧
      (c8Script.drop (search c8Script exRoot - 4)).take 4 = pchMergedMiningHeader) ∧
    (auxPowWithScript c8ScriptGap 1).check sha256Fns (sha256Fns.headerHash exHeader) 42 exParams ≠
      .ok :=
  have hok : (auxPowWithScript c8Script 1).check sha256Fns (sha256Fns.headerHash exHeader) 42
      exParams = .ok := by decide
  have h := (C8_magic_before_root sha256Fns (auxPowWithScript c8Script 1)
    (sha256Fns.headerHash exHeader) 42 exParams
    { prevout := { hash := 0, n := 2 ^ 32 - 1 }, scriptSig := c8Script } [] 0 rfl (by decide)).1 hok
  ⟨⟨hok, h.1, h.2.1⟩,
   (C8_magic_before_root sha256Fns (auxPowWithScript c8ScriptGap 1)
    (sha256Fns.headerHash exHeader) 42 exParams
    { prevout := { hash := 0, n := 2 ^ 32 - 1 }, scriptSig := c8ScriptGap } [] 0 rfl
    (by decide)).2.1 (by decide)⟩

/-- C9: for a node `last` with height in 122291..122310, `GetNextWorkRequired` returns
the compact encoding of `pownewlimit`, whatever the candidate, the parameters and the
rest of the chain are; at heights 122290 and 122311 the result is the one of the
ordinary selection: the new algorithm from `nNewPowDiffHeight` on, the legacy path
below it. -/
theorem C9_forced_band (last : CBlockIndex) (prev : List CBlockIndex)
    (pblock : Option CBlockHeader) (params : Params) :
    (122291 ≤ last.nHeight ∧ last.nHeight ≤ 122310 →
      GetNextWorkRequired (last :: prev) pblock params = some (GetCompact params.pownewlimit)) ∧
    (last.nHeight = 122290 ∨ last.nHeight = 122311 →
      GetNextWorkRequired (last :: prev) pblock params =
        if last.nHeight ≥ params.nNewPowDiffHeight then
          GetNextWorkRequiredNew (last :: prev) pblock params
        else legacyNextWork last prev pblock params) := by
  constructor
  · rintro ⟨h1, h2⟩
    simp [GetNextWorkRequired, h1, h2]
  · intro h
    have hband : ¬ (last.nHeight ≥ 122291 ∧ last.nHeight ≤ 122310) := by
      rcases h with h | h <;> rw [h] <;> decide
    simp only [GetNextWorkRequired, if_neg hband, List.isEmpty_cons, Bool.false_eq_true,
      if_false]

/-- Witness of C9: inside the band the result is the encoding of `pownewlimit`
(0x1c00ffff here) although retargeting is off and the node carries 0x1d00ffff; just
after the band the new algorithm answers with the node's own bits. -/
theorem C9_forced_band_witness :
    GetNextWorkRequired [c9Last] none exParams = some 0x1c00ffff ∧
      GetNextWorkRequired [c9After] none exParams = some 0x1d00ffff :=
  ⟨((C9_forced_band c9Last [] none exParams).1 (by decide)).trans (by decide),
   ((C9_forced_band c9After [] none exParams).2 (by decide)).trans (by decide)⟩

/-- C10 (what the code does): with a null `pindexLast` the height is read through the
null pointer before the genesis test is reached, so `GetNextWorkRequired` ends
abnormally and does not return the encoding of `powLimit`, for every candidate and
every parameters. -/
theorem C10_genesis_null_dereference (pblock : Option CBlockHeader) (params : Params) :
    GetNextWorkRequired [] pblock params = none ∧
      GetNextWorkRequired [] pblock params ≠ some (GetCompact params.powLimit) := by
  simp [GetNextWorkRequired]

/-- C11: for a non-null `last` with height outside 122291..122310, `GetNextWorkRequired`
is `GetNextWorkRequiredNew` when the height is at least `nNewPowDiffHeight`, and the
legacy path (forced legacy bands or the Bitcoin retarget), which does not call the new
algorithm, when the height is below it, in particular at `nNewPowDiffHeight - 1`. -/
theorem C11_algorithm_selection (last : CBlockIndex) (prev : List CBlockIndex)
    (pblock : Option CBlockHeader) (params : Params)
    (hband : ¬ (122291 ≤ last.nHeight ∧ last.nHeight ≤ 122310)) :
    (last.nHeight ≥ params.nNewPowDiffHeight →
      GetNextWorkRequired (last :: prev) pblock params =
        GetNextWorkRequiredNew (last :: prev) pblock params) ∧
    (last.nHeight < params.nNewPowDiffHeight →
      GetNextWorkRequired (last :: prev) pblock params =
        legacyNextWork last prev pblock params) ∧
    (last.nHeight = params.nNewPowDiffHeight - 1 →
      GetNextWorkRequired (last :: prev) pblock params =
        legacyNextWork last prev pblock params) := by
  have hb : ¬ (last.nHeight ≥ 122291 ∧ last.nHeight ≤ 122310) := hband
  have hleg : last.nHeight < params.nNewPowDiffHeight →
      GetNextWorkRequired (last :: prev) pblock params =
        legacyNextWork last prev pblock params := by
    intro h
    simp only [GetNextWorkRequired, if_neg hb, if_neg (not_le.mpr h), List.isEmpty_cons,
      Bool.false_eq_true, if_false]
  refine ⟨?_, hleg, fun h => hleg (by omega)⟩
  intro h
  simp only [GetNextWorkRequired, if_neg hb, if_pos h]

/-- Witness of C11: with `nNewPowDiffHeight = 120000` and a chain of one node carrying
0x1d00ffff, height 120000 is answered by the new algorithm (too few predecessors for
the averaging window: 0x1c00ffff) and height 119999 by the legacy path (no retarget
boundary: the node's own bits). -/
theorem C11_algorithm_selection_witness :
    GetNextWorkRequired [nodeAt 120000 1700000000 0x1d00ffff] none exParamsNew =
        some 0x1c00ffff ∧
      GetNextWorkRequired [nodeAt 119999 1700000000 0x1d00ffff] none exParamsNew =
        some 0x1d00ffff :=
  ⟨((C11_algorithm_selection (nodeAt 120000 1700000000 0x1d00ffff) [] none exParamsNew
      (by decide)).1 (by decide)).trans (by decide),
   ((C11_algorithm_selection (nodeAt 119999 1700000000 0x1d00ffff) [] none exParamsNew
      (by decide)).2.2 (by decide)).trans (by decide)⟩

/-- C13 (amended): in the new algorithm with a non-null `last`, the no-retargeting
shortcut comes first: with `fPowNoRetargeting` the result is `last.bits` whatever the
windows are; without it, a non-positive `nPowAveragingWindow` or
`nPostBlossomPowTargetSpacing` gives the encoding of `pownewlimit`. -/
theorem C13_validation_order (last : CBlockIndex) (prev : List CBlockIndex)
    (pblock : Option CBlockHeader) (params : Params) :
    (params.fPowNoRetargeting = true →
      GetNextWorkRequiredNew (last :: prev) pblock params = some last.nBits) ∧
    (params.fPowNoRetargeting = false →
      params.nPowAveragingWindow ≤ 0 ∨ params.nPostBlossomPowTargetSpacing ≤ 0 →
      GetNextWorkRequiredNew (last :: prev) pblock params =
        some (GetCompact params.pownewlimit)) := by
  constructor
  · intro h
    simp only [GetNextWorkRequiredNew, h, if_true]
  · intro h hv
    simp only [GetNextWorkRequiredNew, h, Bool.false_eq_true, if_false, if_pos hv]

/-- Witness of C13: with a window of zero, retargeting off gives the node's bits and
retargeting on gives the encoding of `pownewlimit`, 0x1c00ffff. -/
theorem C13_validation_order_witness :
    GetNextWorkRequiredNew [nodeAt 130000 1700000000 0x1d00ffff] none exParamsNoWindow =
        some 0x1d00ffff ∧
      GetNextWorkRequiredNew [nodeAt 130000 1700000000 0x1d00ffff] none
        { exParamsNoWindow with fPowNoRetargeting := false } = some 0x1c00ffff :=
  ⟨(C13_validation_order (nodeAt 130000 1700000000 0x1d00ffff) [] none exParamsNoWindow).1
      (by decide),
   ((C13_validation_order (nodeAt 130000 1700000000 0x1d00ffff) [] none
      { exParamsNoWindow with fPowNoRetargeting := false }).2 (by decide)
      (Or.inl (by decide))).trans (by decide)⟩

/-- C13 (as stated) fails: with `nPowAveragingWindow = 0` and `fPowNoRetargeting` set,
`GetNextWorkRequiredNew` returns the node's bits 0x1d00ffff, not the encoding
0x1c00ffff of `pownewlimit`. -/
theorem C13_no_retargeting_first :
    exParamsNoWindow.nPowAveragingWindow ≤ 0 ∧ exParamsNoWindow.fPowNoRetargeting = true ∧
      GetNextWorkRequiredNew [nodeAt 130000 1700000000 0x1d00ffff] none exParamsNoWindow =
        some 0x1d00ffff ∧
      GetNextWorkRequiredNew [nodeAt 130000 1700000000 0x1d00ffff] none exParamsNoWindow ≠
        some (GetCompact exParamsNoWindow.pownewlimit) := by
  decide

/-- C14: in the new algorithm with valid windows and retargeting on, a candidate later
than `last.time + 6 * nPostBlossomPowTargetSpacing` after a node below height 126800
gets the encoding of `pownewlimit`; from height 126800 on the rule is skipped and the
result is the one of the rules from range 1 on. -/
theorem C14_old_emergency_rule (last : CBlockIndex) (prev : List CBlockIndex)
    (blk : CBlockHeader) (params : Params) (hnr : params.fPowNoRetargeting = false)
    (hw : 0 < params.nPowAveragingWindow) (hs : 0 < params.nPostBlossomPowTargetSpacing) :
    (last.nHeight < 126800 →
      blk.GetBlockTime > last.GetBlockTime + 6 * params.nPostBlossomPowTargetSpacing →
      GetNextWorkRequiredNew (last :: prev) (some blk) params =
        some (GetCompact params.pownewlimit)) ∧
    (last.nHeight ≥ 126800 →
      GetNextWorkRequiredNew (last :: prev) (some blk) params =
        range1Rules last prev (blk.GetBlockTime - last.GetBlockTime) params) := by
  rw [GetNextWorkRequiredNew_candidate last prev blk params hnr hw hs]
  constructor
  · intro h1 h2
    rw [if_pos ⟨h1, by omega⟩]
  · intro h1
    rw [if_neg (fun h => by omega)]

/-- Witness of C14: a candidate 3601 s after the node with a spacing of 600 s; at height
126799 the result is the encoding 0x1c00ffff of `pownewlimit`, at height 126800 it is
the result 0x1b02db6a of the emergency cascade of range 2. -/
theorem C14_old_emergency_rule_witness :
    GetNextWorkRequiredNew [nodeAt 126799 1700000000 0x1b00ffff]
        (some (candidateAt 1700003601)) exParamsTestnet = some 0x1c00ffff ∧
      GetNextWorkRequiredNew [nodeAt 126800 1700000000 0x1b00ffff]
        (some (candidateAt 1700003601)) exParamsTestnet = some 0x1b02db6a :=
  ⟨((C14_old_emergency_rule (nodeAt 126799 1700000000 0x1b00ffff) []
      (candidateAt 1700003601) exParamsTestnet (by decide) (by decide) (by decide)).1
      (by decide) (by decide)).trans (by decide),
   ((C14_old_emergency_rule (nodeAt 126800 1700000000 0x1b00ffff) []
      (candidateAt 1700003601) exParamsTestnet (by decide) (by decide) (by decide)).2
      (by decide)).trans (by decide)⟩

/-- Multiplying a target by 100 wraps at 256 bits. -/
theorem mulSmall_100 (a : Nat) : mulSmall a 100 = a * 100 % 2 ^ 256 := by
  unfold mulSmall U256
  rfl

/-- The cap of the emergency rules, on results. -/
theorem cap_some (limit t : Nat) (hl : limit < 2 ^ 256) :
    (if t > (SetCompact (GetCompact limit)).value then some (GetCompact limit)
      else some (GetCompact t)) = some (GetCompact (min limit t)) := by
  rw [← cap_eq_GetCompact_min limit t hl]
  split <;> rfl

/-- The emergency cascade of range 1 and of the pre-hard-fork branch of range 2, as a
formula: the encoded limit above eight spacings, and otherwise the encoding of the
minimum of the limit and the scaled target. -/
theorem emergencyCascade_eq (bits : Nat) (dt s : Int) (limit : Nat) (hl : limit < 2 ^ 256) :
    emergencyCascade bits dt s (GetCompact limit) =
      if dt > 8 * s then GetCompact limit
      else GetCompact (min limit
        (if dt > 6 * s then (SetCompact bits).value * 100 % 2 ^ 256 / 35
         else if dt > 3 * s then (SetCompact bits).value * 100 % 2 ^ 256 / 50
         else (SetCompact bits).value)) := by
  unfold emergencyCascade
  simp only [mulSmall_100]
  have e8 : s * 8 = 8 * s := by omega
  have e6 : s * 6 = 6 * s := by omega
  have e3 : s * 3 = 3 * s := by omega
  rw [e8, e6, e3]
  split
  · rfl
  · exact cap_eq_GetCompact_min limit _ hl

/-- In range 1 with a candidate, the new algorithm returns the emergency cascade capped
at `powmaxlimit`. -/
theorem GetNextWorkRequiredNew_range1 (last : CBlockIndex) (prev : List CBlockIndex)
    (blk : CBlockHeader) (params : Params) (hnr : params.fPowNoRetargeting = false)
    (hw : 0 < params.nPowAveragingWindow) (hs : 0 < params.nPostBlossomPowTargetSpacing)
    (hH : 127464 ≤ last.nHeight ∧ last.nHeight ≤ 127927) :
    GetNextWorkRequiredNew (last :: prev) (some blk) params =
      some (emergencyCascade last.nBits (blk.GetBlockTime - last.GetBlockTime)
        params.nPostBlossomPowTargetSpacing (GetCompact params.powmaxlimit)) := by
  rw [GetNextWorkRequiredNew_candidate last prev blk params hnr hw hs,
    if_neg (fun h => by omega)]
  unfold range1Rules
  rw [if_pos ⟨by omega, by omega⟩]

/-- Outside range 1 and when the old emergency rule does not fire, the new algorithm
with a candidate is the part from range 2 on. -/
theorem GetNextWorkRequiredNew_range2 (last : CBlockIndex) (prev : List CBlockIndex)
    (blk : CBlockHeader) (params : Params) (hnr : params.fPowNoRetargeting = false)
    (hw : 0 < params.nPowAveragingWindow) (hs : 0 < params.nPostBlossomPowTargetSpacing)
    (hout : ¬ (127464 ≤ last.nHeight ∧ last.nHeight ≤ 127927))
    (hold : ¬ (last.nHeight < 126800 ∧
      blk.GetBlockTime > last.GetBlockTime + 6 * params.nPostBlossomPowTargetSpacing)) :
    GetNextWorkRequiredNew (last :: prev) (some blk) params =
      range2Rules last prev (blk.GetBlockTime - last.GetBlockTime) params := by
  rw [GetNextWorkRequiredNew_candidate last prev blk params hnr hw hs,
    if_neg (fun h => hold ⟨h.1, by omega⟩)]
  unfold range1Rules
  rw [if_neg (fun h => hout ⟨by omega, by omega⟩)]

/-- C15: in the new algorithm with valid windows and retargeting on, for a node with
height in 127464..127927 and a candidate at `dt` seconds after it, with spacing `s`:
above `8*s` the result is the encoding of `powmaxlimit`; for `6*s < dt <= 8*s` it is the
encoding of `decode(last.bits)*100/35` (256-bit arithmetic) capped at `powmaxlimit`; for
`3*s < dt <= 6*s` the same with `100/50`; the result does not depend on the chain
behind `last`, so the averaging retarget is not reached.  At heights 127463 and 127928
the range is not used: the result is the one of the part from range 2 on. -/
theorem C15_range1_cascade (last : CBlockIndex) (prev : List CBlockIndex)
    (blk : CBlockHeader) (params : Params) (hnr : params.fPowNoRetargeting = false)
    (hw : 0 < params.nPowAveragingWindow) (hs : 0 < params.nPostBlossomPowTargetSpacing)
    (hmax : params.powmaxlimit < 2 ^ 256) :
    (127464 ≤ last.nHeight ∧ last.nHeight ≤ 127927 →
      (blk.GetBlockTime - last.GetBlockTime > 8 * params.nPostBlossomPowTargetSpacing →
        GetNextWorkRequiredNew (last :: prev) (some blk) params =
          some (GetCompact params.powmaxlimit)) ∧
      (6 * params.nPostBlossomPowTargetSpacing < blk.GetBlockTime - last.GetBlockTime ∧
        blk.GetBlockTime - last.GetBlockTime ≤ 8 * params.nPostBlossomPowTargetSpacing →
        GetNextWorkRequiredNew (last :: prev) (some blk) params =
          some (GetCompact (min params.powmaxlimit
            ((SetCompact last.nBits).value * 100 % 2 ^ 256 / 35)))) ∧
      (3 * params.nPostBlossomPowTargetSpacing < blk.GetBlockTime - last.GetBlockTime ∧
        blk.GetBlockTime - last.GetBlockTime ≤ 6 * params.nPostBlossomPowTargetSpacing →
        GetNextWorkRequiredNew (last :: prev) (some blk) params =
          some (GetCompact (min params.powmaxlimit
            ((SetCompact last.nBits).value * 100 % 2 ^ 256 / 50)))) ∧
      (∀ prev2 : List CBlockIndex,
        GetNextWorkRequiredNew (last :: prev2) (some blk) params =
          GetNextWorkRequiredNew (last :: prev) (some blk) params)) ∧
    (last.nHeight = 127463 ∨ last.nHeight = 127928 →
      GetNextWorkRequiredNew (last :: prev) (some blk) params =
        range2Rules last prev (blk.GetBlockTime - last.GetBlockTime) params) := by
  constructor
  · intro hH
    have key := fun p => GetNextWorkRequiredNew_range1 last p blk params hnr hw hs hH
    refine ⟨?_, ?_, ?_, fun p => by rw [key p, key prev]⟩
    · intro h
      rw [key, emergencyCascade_eq _ _ _ _ hmax, if_pos h]
    · intro h
      rw [key, emergencyCascade_eq _ _ _ _ hmax, if_neg (by omega), if_pos (by omega)]
    · intro h
      rw [key, emergencyCascade_eq _ _ _ _ hmax, if_neg (by omega), if_neg (by omega),
        if_pos (by omega)]
  · intro hH
    exact GetNextWorkRequiredNew_range2 last prev blk params hnr hw hs (by omega) (by omega)

/-- Witness of C15: spacing 600 s and a node at height 127464 carrying 0x1b00ffff; a
candidate 4801 s later gets the encoding 0x1c0ffff0 of `powmaxlimit`, one 3601 s later
gets 0x1b02db6a and one 1801 s later gets 0x1b01fffe; at height 127463 the candidate
4801 s later gets the fallback 0x1c00ffff of the averaging retarget. -/
theorem C15_range1_cascade_witness :
    GetNextWorkRequiredNew [nodeAt 127464 1700000000 0x1b00ffff]
        (some (candidateAt 1700004801)) exParamsNew = some 0x1c0ffff0 ∧
      GetNextWorkRequiredNew [nodeAt 127464 1700000000 0x1b00ffff]
        (some (candidateAt 1700003601)) exParamsNew = some 0x1b02db6a ∧
      GetNextWorkRequiredNew [nodeAt 127464 1700000000 0x1b00ffff]
        (some (candidateAt 1700001801)) exParamsNew = some 0x1b01fffe ∧
      GetNextWorkRequiredNew [nodeAt 127463 1700000000 0x1b00ffff]
        (some (candidateAt 1700004801)) exParamsNew = some 0x1c00ffff :=
  ⟨(((C15_range1_cascade (nodeAt 127464 1700000000 0x1b00ffff) [] (candidateAt 1700004801)
      exParamsNew (by decide) (by decide) (by decide) (by decide)).1 (by decide)).1
      (by decide)).trans (by decide),
   (((C15_range1_cascade (nodeAt 127464 1700000000 0x1b00ffff) [] (candidateAt 1700003601)
      exParamsNew (by decide) (by decide) (by decide) (by decide)).1 (by decide)).2.1
      (by decide)).trans (by decide),
   (((C15_range1_cascade (nodeAt 127464 1700000000 0x1b00ffff) [] (candidateAt 1700001801)
      exParamsNew (by decide) (by decide) (by decide) (by decide)).1 (by decide)).2.2.1
      (by decide)).trans (by decide),
   ((C15_range1_cascade (nodeAt 127463 1700000000 0x1b00ffff) [] (candidateAt 1700004801)
      exParamsNew (by decide) (by decide) (by decide) (by decide)).2 (by decide)).trans
      (by decide)⟩

/-- C16 (amended): in the new algorithm with valid windows and retargeting on, for a
node with height in 127464..127927 and a candidate at most `3*s` after it, the result
is the encoding of the minimum of `powmaxlimit` and `decode(last.bits)`; it is
`last.bits` itself when `last.bits` is the encoding of some 256-bit value and its
target is at most `powmaxlimit`. -/
theorem C16_range1_no_threshold (last : CBlockIndex) (prev : List CBlockIndex)
    (blk : CBlockHeader) (params : Params) (hnr : params.fPowNoRetargeting = false)
    (hw : 0 < params.nPowAveragingWindow) (hs : 0 < params.nPostBlossomPowTargetSpacing)
    (hmax : params.powmaxlimit < 2 ^ 256)
    (hH : 127464 ≤ last.nHeight ∧ last.nHeight ≤ 127927)
    (hdt : blk.GetBlockTime - last.GetBlockTime ≤ 3 * params.nPostBlossomPowTargetSpacing) :
    GetNextWorkRequiredNew (last :: prev) (some blk) params =
        some (GetCompact (min params.powmaxlimit (SetCompact last.nBits).value)) ∧
      (∀ v : Nat, v < 2 ^ 256 → last.nBits = GetCompact v →
        (SetCompact last.nBits).value ≤ params.powmaxlimit →
        GetNextWorkRequiredNew (last :: prev) (some blk) params = some last.nBits) := by
  have key : GetNextWorkRequiredNew (last :: prev) (some blk) params =
      some (GetCompact (min params.powmaxlimit (SetCompact last.nBits).value)) := by
    rw [GetNextWorkRequiredNew_range1 last prev blk params hnr hw hs hH,
      emergencyCascade_eq _ _ _ _ hmax, if_neg (by omega), if_neg (by omega),
      if_neg (by omega)]
  refine ⟨key, ?_⟩
  intro v hv hbits hle
  rw [key, Nat.min_eq_right hle, hbits, SetCompact_GetCompact v hv]
  simp only []
  rw [GetCompact_compactRound v hv]

/-- Witness of C16: a node at height 127464 carrying 0x1b00ffff, the encoding of
`0xffff * 2^192`, and a candidate 1800 s later with spacing 600 s: the bits come back
unchanged. -/
theorem C16_range1_no_threshold_witness :
    GetNextWorkRequiredNew [nodeAt 127464 1700000000 0x1b00ffff]
        (some (candidateAt 1700001800)) exParamsNew = some 0x1b00ffff :=
  (C16_range1_no_threshold (nodeAt 127464 1700000000 0x1b00ffff) [] (candidateAt 1700001800)
    exParamsNew (by decide) (by decide) (by decide) (by decide) (by decide) (by decide)).2
    (0xffff * 2 ^ 192) (by decide) (by decide) (by decide)

/-- C16 (as stated) fails: a node at height 127464 carrying 0x1d00ffff, whose target is
above `powmaxlimit`, and a candidate 600 s later: the result is the encoding 0x1c0ffff0
of `powmaxlimit`, not the node's bits. -/
theorem C16_bits_above_cap_changed :
    exParamsNew.fPowNoRetargeting = false ∧ 0 < exParamsNew.nPowAveragingWindow ∧
      0 < exParamsNew.nPostBlossomPowTargetSpacing ∧
      (candidateAt 1700000600).GetBlockTime - (nodeAt 127464 1700000000 0x1d00ffff).GetBlockTime ≤
        3 * exParamsNew.nPostBlossomPowTargetSpacing ∧
      GetNextWorkRequiredNew [nodeAt 127464 1700000000 0x1d00ffff]
        (some (candidateAt 1700000600)) exParamsNew = some 0x1c0ffff0 ∧
      GetNextWorkRequiredNew [nodeAt 127464 1700000000 0x1d00ffff]
        (some (candidateAt 1700000600)) exParamsNew ≠
          some (nodeAt 127464 1700000000 0x1d00ffff).nBits := by
  decide

/-- The slow-block cascade of the post-hard-fork rules as a formula, when the fast-block
emergency does not return. -/
theorem postForkRules_slow (last : CBlockIndex) (prev : List CBlockIndex) (dt : Int)
    (params : Params) (hdin : params.powdinlimit < 2 ^ 256)
    (hfast : ¬ (dt < 120 ∧
      (fastBlockLoop params.nPowAveragingWindow 0 (last :: prev) 0 0).2 > 0 ∧
      Int.tdiv (fastBlockLoop params.nPowAveragingWindow 0 (last :: prev) 0 0).1
        (fastBlockLoop params.nPowAveragingWindow 0 (last :: prev) 0 0).2 < 300)) :
    postForkRules last prev dt params =
      if dt > 8 * params.nPostBlossomPowTargetSpacing then
        some (GetCompact params.powdinlimit)
      else if dt > 6 * params.nPostBlossomPowTargetSpacing then
        some (GetCompact (min params.powdinlimit
          ((SetCompact last.nBits).value * 100 % 2 ^ 256 / 35)))
      else if dt > 4 * params.nPostBlossomPowTargetSpacing then
        some (GetCompact (min params.powdinlimit
          ((SetCompact last.nBits).value * 100 % 2 ^ 256 / 25)))
      else if dt > 3 * params.nPostBlossomPowTargetSpacing then
        some (GetCompact (min params.powdinlimit
          ((SetCompact last.nBits).value * 100 % 2 ^ 256 / 50)))
      else averagingRetarget last prev params := by
  unfold postForkRules
  simp only [mulSmall_100]
  rw [if_neg hfast]
  have e8 : params.nPostBlossomPowTargetSpacing * 8 = 8 * params.nPostBlossomPowTargetSpacing := by
    omega
  have e6 : params.nPostBlossomPowTargetSpacing * 6 = 6 * params.nPostBlossomPowTargetSpacing := by
    omega
  have e4 : params.nPostBlossomPowTargetSpacing * 4 = 4 * params.nPostBlossomPowTargetSpacing := by
    omega
  have e3 : params.nPostBlossomPowTargetSpacing * 3 = 3 * params.nPostBlossomPowTargetSpacing := by
    omega
  rw [e8, e6, e4, e3, cap_some _ _ hdin, cap_some _ _ hdin, cap_some _ _ hdin]

/-- C17: in the new algorithm with valid windows and retargeting on, for a node at or
above the emergency start height, outside 127464..127927, with no earlier rule firing:
below `nHardForkHeight` the function always returns from the emergency branch, with the
encoding of `powdinlimit` above `8*s` and otherwise the encoding of the minimum of
`powdinlimit` and `decode(last.bits)*100/35` (above `6*s`), `decode(last.bits)*100/50`
(above `3*s`) or `decode(last.bits)` unchanged, and the result does not depend on the
chain behind `last`; from `nHardForkHeight` on the post-hard-fork rules apply, which
reach the averaging retarget when no emergency fires. -/
theorem C17_bug_for_bug_band (last : CBlockIndex) (prev : List CBlockIndex)
    (blk : CBlockHeader) (params : Params) (hnr : params.fPowNoRetargeting = false)
    (hw : 0 < params.nPowAveragingWindow) (hs : 0 < params.nPostBlossomPowTargetSpacing)
    (hdin : params.powdinlimit < 2 ^ 256)
    (hstart : last.nHeight ≥ nEmergencyRuleHeight params)
    (hout : ¬ (127464 ≤ last.nHeight ∧ last.nHeight ≤ 127927))
    (hold : ¬ (last.nHeight < 126800 ∧
      blk.GetBlockTime > last.GetBlockTime + 6 * params.nPostBlossomPowTargetSpacing)) :
    (last.nHeight < params.nHardForkHeight →
      (blk.GetBlockTime - last.GetBlockTime > 8 * params.nPostBlossomPowTargetSpacing →
        GetNextWorkRequiredNew (last :: prev) (some blk) params =
          some (GetCompact params.powdinlimit)) ∧
      (blk.GetBlockTime - last.GetBlockTime ≤ 8 * params.nPostBlossomPowTargetSpacing →
        GetNextWorkRequiredNew (last :: prev) (some blk) params =
          some (GetCompact (min params.powdinlimit
            (if blk.GetBlockTime - last.GetBlockTime > 6 * params.nPostBlossomPowTargetSpacing then
              (SetCompact last.nBits).value * 100 % 2 ^ 256 / 35
            else if blk.GetBlockTime - last.GetBlockTime >
                3 * params.nPostBlossomPowTargetSpacing then
              (SetCompact last.nBits).value * 100 % 2 ^ 256 / 50
            else (SetCompact last.nBits).value)))) ∧
      (∀ prev2 : List CBlockIndex,
        GetNextWorkRequiredNew (last :: prev2) (some blk) params =
          GetNextWorkRequiredNew (last :: prev) (some blk) params)) ∧
    (last.nHeight ≥ params.nHardForkHeight →
      GetNextWorkRequiredNew (last :: prev) (some blk) params =
          postForkRules last prev (blk.GetBlockTime - last.GetBlockTime) params ∧
      (120 ≤ blk.GetBlockTime - last.GetBlockTime →
        blk.GetBlockTime - last.GetBlockTime ≤ 3 * params.nPostBlossomPowTargetSpacing →
        GetNextWorkRequiredNew (last :: prev) (some blk) params =
          averagingRetarget last prev params)) := by
  have key := fun p => GetNextWorkRequiredNew_range2 last p blk params hnr hw hs hout hold
  constructor
  · intro hfork
    have key2 : ∀ p, GetNextWorkRequiredNew (last :: p) (some blk) params =
        some (emergencyCascade last.nBits (blk.GetBlockTime - last.GetBlockTime)
          params.nPostBlossomPowTargetSpacing (GetCompact params.powdinlimit)) := by
      intro p
      rw [key p]
      unfold range2Rules
      rw [if_pos hstart, if_pos hfork]
    refine ⟨?_, ?_, fun p => by rw [key2 p, key2 prev]⟩
    · intro h
      rw [key2, emergencyCascade_eq _ _ _ _ hdin, if_pos h]
    · intro h
      rw [key2, emergencyCascade_eq _ _ _ _ hdin, if_neg (by omega)]
  · intro hfork
    have key3 : GetNextWorkRequiredNew (last :: prev) (some blk) params =
        postForkRules last prev (blk.GetBlockTime - last.GetBlockTime) params := by
      rw [key prev]
      unfold range2Rules
      rw [if_pos hstart, if_neg (by omega)]
    refine ⟨key3, ?_⟩
    intro h120 h3
    rw [key3, postForkRules_slow last prev _ params hdin (fun h => by omega),
      if_neg (by omega), if_neg (by omega), if_neg (by omega), if_neg (by omega)]

/-- Truncated division by a positive number stays below a bound that the dividend
stays below after multiplication. -/
theorem tdiv_lt_of_lt_mul (a n b : Int) (hn : 0 < n) (hb : 0 < b) (h : a < b * n) :
    Int.tdiv a n < b := by
  by_cases ha : 0 ≤ a
  · rw [Int.tdiv_eq_ediv ha (by omega)]
    exact Int.ediv_lt_of_lt_mul hn h
  · have h1 : Int.tdiv a n = -(Int.tdiv (-a) n) := by
      rw [Int.neg_tdiv, Int.neg_neg]
    have h2 : 0 ≤ Int.tdiv (-a) n := Int.tdiv_nonneg (by omega) (by omega)
    omega

/-- When the chain holds the node `n` steps behind, the loop of the fast-block
emergency started with `n` iterations to go returns the time between the two nodes and
counts `n` steps. -/
theorem fastBlockLoop_full (window : Int) (n : Nat) :
    ∀ (ch : List CBlockIndex) (i tot cnt : Int) (b x : CBlockIndex), i + n = window →
      ch[0]? = some b → ch[n]? = some x →
      fastBlockLoop window i ch tot cnt = (tot + (b.GetBlockTime - x.GetBlockTime), cnt + n) := by
  induction n with
  | zero =>
    intro ch i tot cnt b x hi h0 hx
    rw [h0] at hx
    cases hx
    have hlt : ¬ (i < window) := by omega
    cases ch with
    | nil => simp at h0
    | cons b1 c1 =>
      cases c1 with
      | nil => simp [fastBlockLoop]
      | cons p rest => simp [fastBlockLoop, hlt]
  | succ n ih =>
    intro ch i tot cnt b x hi h0 hx
    cases ch with
    | nil => simp at h0
    | cons b1 c1 =>
      simp only [List.getElem?_cons_zero, Option.some.injEq] at h0
      subst h0
      rw [List.getElem?_cons_succ] at hx
      cases c1 with
      | nil => simp at hx
      | cons p rest =>
        have hlt : i < window := by omega
        rw [fastBlockLoop, if_pos hlt,
          ih (p :: rest) (i + 1) _ _ p x (by push_cast at hi ⊢; omega)
            (List.getElem?_cons_zero) hx]
        congr 1
        · omega
        · push_cast; omega

/-- C18: in the new algorithm with valid windows and retargeting on, for a node at or
above the emergency start height and `nHardForkHeight`, with no earlier rule firing and
a candidate less than 120 s after it: when the loop over the window has counted at least
one step and its average spacing is below 300 s, the result is the encoding of
`decode(last.bits) / 2`; this is so in particular when the node has
`nPowAveragingWindow` predecessors and the time from the last of them to the node is
below 300 s times the window. -/
theorem C18_fast_spike_doubling (last : CBlockIndex) (prev : List CBlockIndex)
    (blk : CBlockHeader) (params : Params) (hnr : params.fPowNoRetargeting = false)
    (hw : 0 < params.nPowAveragingWindow) (hs : 0 < params.nPostBlossomPowTargetSpacing)
    (hstart : last.nHeight ≥ nEmergencyRuleHeight params)
    (hfork : last.nHeight ≥ params.nHardForkHeight)
    (hout : ¬ (127464 ≤ last.nHeight ∧ last.nHeight ≤ 127927))
    (hold : ¬ (last.nHeight < 126800 ∧
      blk.GetBlockTime > last.GetBlockTime + 6 * params.nPostBlossomPowTargetSpacing))
    (hdt : blk.GetBlockTime - last.GetBlockTime < 120) :
    (0 < (fastBlockLoop params.nPowAveragingWindow 0 (last :: prev) 0 0).2 →
      Int.tdiv (fastBlockLoop params.nPowAveragingWindow 0 (last :: prev) 0 0).1
        (fastBlockLoop params.nPowAveragingWindow 0 (last :: prev) 0 0).2 < 300 →
      GetNextWorkRequiredNew (last :: prev) (some blk) params =
        some (GetCompact ((SetCompact last.nBits).value / 2))) ∧
    (∀ (n : Nat) (first : CBlockIndex), params.nPowAveragingWindow = n →
      prev[n - 1]? = some first →
      last.GetBlockTime - first.GetBlockTime < 300 * (n : Int) →
      GetNextWorkRequiredNew (last :: prev) (some blk) params =
        some (GetCompact ((SetCompact last.nBits).value / 2))) := by
  have key : 0 < (fastBlockLoop params.nPowAveragingWindow 0 (last :: prev) 0 0).2 →
      Int.tdiv (fastBlockLoop params.nPowAveragingWindow 0 (last :: prev) 0 0).1
        (fastBlockLoop params.nPowAveragingWindow 0 (last :: prev) 0 0).2 < 300 →
      GetNextWorkRequiredNew (last :: prev) (some blk) params =
        some (GetCompact ((SetCompact last.nBits).value / 2)) := by
    intro hc havg
    rw [GetNextWorkRequiredNew_range2 last prev blk params hnr hw hs hout hold]
    unfold range2Rules
    rw [if_pos hstart, if_neg (by omega)]
    unfold postForkRules
    simp only []
    rw [if_pos ⟨hdt, hc, havg⟩]
  refine ⟨key, ?_⟩
  intro n first hn hfirst havg
  have hn1 : 1 ≤ n := by omega
  have hx : (last :: prev)[n]? = some first := by
    have : n = (n - 1) + 1 := by omega
    rw [this, List.getElem?_cons_succ]
    exact hfirst
  have hloop := fastBlockLoop_full params.nPowAveragingWindow n (last :: prev) 0 0 0 last first
    (by omega) (List.getElem?_cons_zero) hx
  apply key
  · rw [hloop]; simp only []; omega
  · rw [hloop]
    simp only [Int.zero_add]
    exact tdiv_lt_of_lt_mul _ _ 300 (by omega) (by omega) havg

/-- Witness of C17: mainnet-style parameters (emergency start 127928, hard fork 130000,
spacing 600 s) and a node carrying 0x1b00ffff; at height 127928 a candidate 4801 s later
gets the encoding 0x1c03fffc of `powdinlimit`; at height 129999 a candidate 600 s later
gets the node's target re-encoded; at height 130000 the same candidate reaches the
averaging retarget, which falls back to 0x1c00ffff on a chain of one node. -/
theorem C17_bug_for_bug_band_witness :
    GetNextWorkRequiredNew [nodeAt 127928 1700000000 0x1b00ffff]
        (some (candidateAt 1700004801)) exParamsNew = some 0x1c03fffc ∧
      GetNextWorkRequiredNew [nodeAt 129999 1700000000 0x1b00ffff]
        (some (candidateAt 1700000600)) exParamsNew = some 0x1b00ffff ∧
      GetNextWorkRequiredNew [nodeAt 130000 1700000000 0x1b00ffff]
        (some (candidateAt 1700000600)) exParamsNew = some 0x1c00ffff :=
  ⟨(((C17_bug_for_bug_band (nodeAt 127928 1700000000 0x1b00ffff) [] (candidateAt 1700004801)
      exParamsNew (by decide) (by decide) (by decide) (by decide) (by decide) (by decide)
      (by decide)).1 (by decide)).1 (by decide)).trans (by decide),
   (((C17_bug_for_bug_band (nodeAt 129999 1700000000 0x1b00ffff) [] (candidateAt 1700000600)
      exParamsNew (by decide) (by decide) (by decide) (by decide) (by decide) (by decide)
      (by decide)).1 (by decide)).2.1 (by decide)).trans (by decide),
   (((C17_bug_for_bug_band (nodeAt 130000 1700000000 0x1b00ffff) [] (candidateAt 1700000600)
      exParamsNew (by decide) (by decide) (by decide) (by decide) (by decide) (by decide)
      (by decide)).2 (by decide)).2 (by decide) (by decide)).trans (by decide)⟩

/-- Witness of C18: height `nHardForkHeight + 10 = 130010`, minimum-difficulty blocks
not allowed, a window of 17 predecessors all spaced 60 s and a candidate 30 s after the
node carrying 0x1b00ffff: the result is 0x1a7fff80, the encoding of half the target. -/
theorem C18_fast_spike_doubling_witness :
    exParamsNew.nHardForkHeight + 10 = 130010 ∧
      exParamsNew.fPowAllowMinDifficultyBlocks = false ∧
      GetNextWorkRequiredNew (spacedChain 60 0x1b00ffff 18 130010 1700000000)
        (some (candidateAt 1700000030)) exParamsNew = some 0x1a7fff80 :=
  ⟨by decide, by decide,
   ((C18_fast_spike_doubling (nodeAt 130010 1700000000 0x1b00ffff)
      (spacedChain 60 0x1b00ffff 17 130009 1699999940) (candidateAt 1700000030) exParamsNew
      (by decide) (by decide) (by decide) (by decide) (by decide) (by decide) (by decide)
      (by decide)).2 17 (nodeAt 129993 1699998980 0x1b00ffff) (by decide) (by decide)
      (by decide)).trans (by decide)⟩

/-- C19 (amended): in the new algorithm with valid windows and retargeting on, for a
node at or above the emergency start height and `nHardForkHeight`, outside
127464..127927 and with no earlier rule firing, when the fast-block emergency does not
return: above `8*s` the result is the encoding of `powdinlimit`; above `6*s`, `4*s` and
`3*s` it is the encoding of `decode(last.bits)*100/35`, `*100/25` and `*100/50`
(256-bit arithmetic) capped at `powdinlimit`; up to `3*s` it is the output of the
averaging retarget. -/
theorem C19_slow_cascade (last : CBlockIndex) (prev : List CBlockIndex)
    (blk : CBlockHeader) (params : Params) (hnr : params.fPowNoRetargeting = false)
    (hw : 0 < params.nPowAveragingWindow) (hs : 0 < params.nPostBlossomPowTargetSpacing)
    (hdin : params.powdinlimit < 2 ^ 256)
    (hstart : last.nHeight ≥ nEmergencyRuleHeight params)
    (hfork : last.nHeight ≥ params.nHardForkHeight)
    (hout : ¬ (127464 ≤ last.nHeight ∧ last.nHeight ≤ 127927))
    (hold : ¬ (last.nHeight < 126800 ∧
      blk.GetBlockTime > last.GetBlockTime + 6 * params.nPostBlossomPowTargetSpacing))
    (hfast : ¬ (blk.GetBlockTime - last.GetBlockTime < 120 ∧
      (fastBlockLoop params.nPowAveragingWindow 0 (last :: prev) 0 0).2 > 0 ∧
      Int.tdiv (fastBlockLoop params.nPowAveragingWindow 0 (last :: prev) 0 0).1
        (fastBlockLoop params.nPowAveragingWindow 0 (last :: prev) 0 0).2 < 300)) :
    (blk.GetBlockTime - last.GetBlockTime > 8 * params.nPostBlossomPowTargetSpacing →
      GetNextWorkRequiredNew (last :: prev) (some blk) params =
        some (GetCompact params.powdinlimit)) ∧
    (6 * params.nPostBlossomPowTargetSpacing < blk.GetBlockTime - last.GetBlockTime ∧
      blk.GetBlockTime - last.GetBlockTime ≤ 8 * params.nPostBlossomPowTargetSpacing →
      GetNextWorkRequiredNew (last :: prev) (some blk) params =
        some (GetCompact (min params.powdinlimit
          ((SetCompact last.nBits).value * 100 % 2 ^ 256 / 35)))) ∧
    (4 * params.nPostBlossomPowTargetSpacing < blk.GetBlockTime - last.GetBlockTime ∧
      blk.GetBlockTime - last.GetBlockTime ≤ 6 * params.nPostBlossomPowTargetSpacing →
      GetNextWorkRequiredNew (last :: prev) (some blk) params =
        some (GetCompact (min params.powdinlimit
          ((SetCompact last.nBits).value * 100 % 2 ^ 256 / 25)))) ∧
    (3 * params.nPostBlossomPowTargetSpacing < blk.GetBlockTime - last.GetBlockTime ∧
      blk.GetBlockTime - last.GetBlockTime ≤ 4 * params.nPostBlossomPowTargetSpacing →
      GetNextWorkRequiredNew (last :: prev) (some blk) params =
        some (GetCompact (min params.powdinlimit
          ((SetCompact last.nBits).value * 100 % 2 ^ 256 / 50)))) ∧
    (blk.GetBlockTime - last.GetBlockTime ≤ 3 * params.nPostBlossomPowTargetSpacing →
      GetNextWorkRequiredNew (last :: prev) (some blk) params =
        averagingRetarget last prev params) := by
  have key : GetNextWorkRequiredNew (last :: prev) (some blk) params =
      postForkRules last prev (blk.GetBlockTime - last.GetBlockTime) params := by
    rw [GetNextWorkRequiredNew_range2 last prev blk params hnr hw hs hout hold]
    unfold range2Rules
    rw [if_pos hstart, if_neg (by omega)]
  rw [key, postForkRules_slow last prev _ params hdin hfast]
  refine ⟨?_, ?_, ?_, ?_, ?_⟩
  · intro h
    rw [if_pos h]
  · intro h
    rw [if_neg (by omega), if_pos (by omega)]
  · intro h
    rw [if_neg (by omega), if_neg (by omega), if_pos (by omega)]
  · intro h
    rw [if_neg (by omega), if_neg (by omega), if_neg (by omega), if_pos (by omega)]
  · intro h
    rw [if_neg (by omega), if_neg (by omega), if_neg (by omega), if_neg (by omega)]

/-- Witness of C19: mainnet-style parameters, a node at the hard fork height 130000
carrying 0x1b00ffff and spacing 600 s; candidates 4801, 3601, 2401, 1801 and 600 s
later get the encoding of `powdinlimit`, the target times 100/35, 100/25 and 100/50,
and the fallback of the averaging retarget on a chain of one node. -/
theorem C19_slow_cascade_witness :
    GetNextWorkRequiredNew [nodeAt 130000 1700000000 0x1b00ffff]
        (some (candidateAt 1700004801)) exParamsNew = some 0x1c03fffc ∧
      GetNextWorkRequiredNew [nodeAt 130000 1700000000 0x1b00ffff]
        (some (candidateAt 1700003601)) exParamsNew = some 0x1b02db6a ∧
      GetNextWorkRequiredNew [nodeAt 130000 1700000000 0x1b00ffff]
        (some (candidateAt 1700002401)) exParamsNew = some 0x1b03fffc ∧
      GetNextWorkRequiredNew [nodeAt 130000 1700000000 0x1b00ffff]
        (some (candidateAt 1700001801)) exParamsNew = some 0x1b01fffe ∧
      GetNextWorkRequiredNew [nodeAt 130000 1700000000 0x1b00ffff]
        (some (candidateAt 1700000600)) exParamsNew = some 0x1c00ffff :=
  ⟨((C19_slow_cascade (nodeAt 130000 1700000000 0x1b00ffff) [] (candidateAt 1700004801)
      exParamsNew (by decide) (by decide) (by decide) (by decide) (by decide) (by decide)
      (by decide) (by decide) (by decide)).1 (by decide)).trans (by decide),
   ((C19_slow_cascade (nodeAt 130000 1700000000 0x1b00ffff) [] (candidateAt 1700003601)
      exParamsNew (by decide) (by decide) (by decide) (by decide) (by decide) (by decide)
      (by decide) (by decide) (by decide)).2.1 (by decide)).trans (by decide),
   ((C19_slow_cascade (nodeAt 130000 1700000000 0x1b00ffff) [] (candidateAt 1700002401)
      exParamsNew (by decide) (by decide) (by decide) (by decide) (by decide) (by decide)
      (by decide) (by decide) (by decide)).2.2.1 (by decide)).trans (by decide),
   ((C19_slow_cascade (nodeAt 130000 1700000000 0x1b00ffff) [] (candidateAt 1700001801)
      exParamsNew (by decide) (by decide) (by decide) (by decide) (by decide) (by decide)
      (by decide) (by decide) (by decide)).2.2.2.1 (by decide)).trans (by decide),
   ((C19_slow_cascade (nodeAt 130000 1700000000 0x1b00ffff) [] (candidateAt 1700000600)
      exParamsNew (by decide) (by decide) (by decide) (by decide) (by decide) (by decide)
      (by decide) (by decide) (by decide)).2.2.2.2 (by decide)).trans (by decide)⟩

/-- C19 (as stated) fails: with minimum-difficulty blocks allowed, the emergency start
at `nNewPowDiffHeight = 120000` and the hard fork at 125000, a node at height 127500 is
at or above both, and a candidate 4801 s later (more than `8*s`, so the fast-block
emergency does not return) is answered by range 1 with the encoding 0x1c0ffff0 of
`powmaxlimit`, not with the encoding 0x1c03fffc of `powdinlimit`. -/
theorem C19_range1_takes_precedence :
    (nodeAt 127500 1700000000 0x1b00ffff).nHeight ≥ nEmergencyRuleHeight exParamsEarlyFork ∧
      (nodeAt 127500 1700000000 0x1b00ffff).nHeight ≥ exParamsEarlyFork.nHardForkHeight ∧
      (candidateAt 1700004801).GetBlockTime - (nodeAt 127500 1700000000 0x1b00ffff).GetBlockTime >
        8 * exParamsEarlyFork.nPostBlossomPowTargetSpacing ∧
      ¬ ((candidateAt 1700004801).GetBlockTime -
        (nodeAt 127500 1700000000 0x1b00ffff).GetBlockTime < 120) ∧
      GetNextWorkRequiredNew [nodeAt 127500 1700000000 0x1b00ffff]
        (some (candidateAt 1700004801)) exParamsEarlyFork = some 0x1c0ffff0 ∧
      GetNextWorkRequiredNew [nodeAt 127500 1700000000 0x1b00ffff]
        (some (candidateAt 1700004801)) exParamsEarlyFork ≠
          some (GetCompact exParamsEarlyFork.powdinlimit) := by
  decide

/-- Division of a target by a positive 64-bit integer succeeds. -/
theorem divSmall_pos (a : Nat) (b : Int) (h0 : 0 < b) (h64 : b < 2 ^ 64) :
    divSmall a b = some (a / b.toNat) := by
  unfold divSmall
  have : b % 2 ^ 64 = b := Int.emod_eq_of_lt (by omega) h64
  simp only [this]
  rw [if_neg (by omega)]

/-- When the chain is no longer than the iterations left, the averaging loop walks off
its end. -/
theorem averagingLoop_short (window : Int) :
    ∀ (ch : List CBlockIndex) (i : Int) (n tot : Nat), i + n = window → ch.length ≤ n →
      (averagingLoop window i ch tot).2 = [] := by
  intro ch
  induction ch with
  | nil => intro i n tot _ _; simp [averagingLoop]
  | cons b rest ih =>
    intro i n tot hi hlen
    simp only [List.length_cons] at hlen
    have hlt : i < window := by omega
    rw [averagingLoop, if_pos hlt]
    exact ih (i + 1) (n - 1) _ (by omega) (by omega)

/-- When the chain holds at least as many nodes as iterations are left, the averaging
loop adds the targets of these nodes and stops at the node behind them. -/
theorem averagingLoop_full (window : Int) (n : Nat) :
    ∀ (ch : List CBlockIndex) (i : Int) (tot : Nat), i + n = window → n ≤ ch.length →
      tot < U256 →
      averagingLoop window i ch tot = ((tot + sumTargets (ch.take n)) % U256, ch.drop n) := by
  induction n with
  | zero =>
    intro ch i tot hi _ htot
    have hlt : ¬ (i < window) := by omega
    cases ch with
    | nil => simp [averagingLoop, sumTargets, Nat.mod_eq_of_lt htot]
    | cons b rest => simp [averagingLoop, hlt, sumTargets, Nat.mod_eq_of_lt htot]
  | succ n ih =>
    intro ch i tot hi hlen htot
    cases ch with
    | nil => simp at hlen
    | cons b rest =>
      simp only [List.length_cons] at hlen
      have hlt : i < window := by omega
      have hU : 0 < U256 := by unfold U256; exact Nat.two_pow_pos _
      rw [averagingLoop, if_pos hlt,
        ih rest (i + 1) _ (by push_cast at hi ⊢; omega) (by omega) (Nat.mod_lt _ hU)]
      simp only [List.take_succ_cons, List.drop_succ_cons, sumTargets, List.map_cons,
        List.sum_cons]
      congr 1
      rw [Nat.add_mod, Nat.mod_mod, ← Nat.add_mod, Nat.add_assoc]

/-- C20: with an averaging window of `n > 0`, the averaging retarget returns the
encoding of `pownewlimit` when `last` has fewer than `n` predecessors; when it has at
least `n`, the retarget does not take this fallback: it is
`CalculateNextWorkRequiredNew` on the average of the targets of `last` and its first
`n - 1` predecessors, with the time of the `n`-th predecessor.  The averaging retarget
is what `GetNextWorkRequiredNew` returns when no candidate is given. -/
theorem C20_averaging_window (last : CBlockIndex) (prev : List CBlockIndex) (params : Params)
    (n : Nat) (hn : params.nPowAveragingWindow = n) (hpos : 0 < n) (h63 : (n : Int) < 2 ^ 63) :
    (prev.length < n →
      averagingRetarget last prev params = some (GetCompact params.pownewlimit)) ∧
    (∀ first : CBlockIndex, prev[n - 1]? = some first →
      averagingRetarget last prev params =
        CalculateNextWorkRequiredNew (sumTargets (last :: prev.take (n - 1)) % 2 ^ 256 / n)
          first.GetBlockTime last.GetBlockTime params) ∧
    (params.fPowNoRetargeting = false → 0 < params.nPostBlossomPowTargetSpacing →
      GetNextWorkRequiredNew (last :: prev) none params = averagingRetarget last prev params) := by
  refine ⟨?_, ?_, ?_⟩
  · intro hlen
    have h2 := averagingLoop_short params.nPowAveragingWindow (last :: prev) 0 n 0
      (by omega) (by simp only [List.length_cons]; omega)
    unfold averagingRetarget
    simp only []
    generalize averagingLoop params.nPowAveragingWindow 0 (last :: prev) 0 = r at h2
    obtain ⟨tot, first⟩ := r
    simp only at h2
    subst h2
    rfl
  · intro first hfirst
    obtain ⟨hlt, hget⟩ := List.getElem?_eq_some.mp hfirst
    have hfull := averagingLoop_full params.nPowAveragingWindow n (last :: prev) 0 0
      (by omega) (by simp only [List.length_cons]; omega)
      (by unfold U256; exact Nat.two_pow_pos _)
    have hn1 : n = (n - 1) + 1 := by omega
    have htake : (last :: prev).take n = last :: prev.take (n - 1) := by
      rw [hn1, List.take_succ_cons]; simp
    have hdrop : (last :: prev).drop n = first :: prev.drop n := by
      rw [hn1, List.drop_succ_cons, List.drop_eq_getElem_cons hlt, hget]
    unfold averagingRetarget
    simp only []
    rw [hfull, htake, hdrop, Nat.zero_add]
    simp only []
    rw [hn, divSmall_pos _ _ (by omega) (by omega)]
    simp only [Int.toNat_ofNat]
    rfl
  · intro hnr hs
    have hv : ¬ (params.nPowAveragingWindow ≤ 0 ∨ params.nPostBlossomPowTargetSpacing ≤ 0) := by
      omega
    simp only [GetNextWorkRequiredNew, hnr, Bool.false_eq_true, if_false, if_neg hv]

/-- Witness of C20: a window of 17; a node with 17 predecessors spaced 600 s gets the
averaging retarget 0x1b00fffe, the same node with 16 predecessors gets the fallback
0x1c00ffff, the encoding of `pownewlimit`. -/
theorem C20_averaging_window_witness :
    averagingRetarget (nodeAt 130010 1700000000 0x1b00ffff)
        (spacedChain 600 0x1b00ffff 16 130009 1699999400) exParamsNew = some 0x1c00ffff ∧
      averagingRetarget (nodeAt 130010 1700000000 0x1b00ffff)
        (spacedChain 600 0x1b00ffff 17 130009 1699999400) exParamsNew = some 0x1b00fffe :=
  ⟨((C20_averaging_window (nodeAt 130010 1700000000 0x1b00ffff)
      (spacedChain 600 0x1b00ffff 16 130009 1699999400) exParamsNew 17 (by decide) (by decide)
      (by decide)).1 (by decide)).trans (by decide),
   ((C20_averaging_window (nodeAt 130010 1700000000 0x1b00ffff)
      (spacedChain 600 0x1b00ffff 17 130009 1699999400) exParamsNew 17 (by decide) (by decide)
      (by decide)).2.1 (nodeAt 129993 1699989800 0x1b00ffff) (by decide)).trans (by decide)⟩

/-- An ancestor is found only at a non-negative height. -/
theorem GetAncestor_nonneg (ch : List CBlockIndex) (height : Int) (first : CBlockIndex)
    (rest : List CBlockIndex) (h : GetAncestor ch height = first :: rest) : 0 ≤ height := by
  by_contra hneg
  cases ch with
  | nil => simp [GetAncestor] at h
  | cons b tl =>
    rw [GetAncestor, if_pos (Or.inr (by omega))] at h
    exact absurd h (by simp)

/-- The two clamping steps of the legacy retarget are the clamp to `[T/4, T*4]`. -/
theorem clampTimespan_eq (a T : Int) :
    (if (if a < Int.tdiv T 4 then Int.tdiv T 4 else a) > T * 4 then T * 4
      else (if a < Int.tdiv T 4 then Int.tdiv T 4 else a)) = clampTimespan a T := by
  unfold clampTimespan
  generalize Int.tdiv T 4 = q
  simp only [min_def, max_def]
  split_ifs <;> omega

/-- C12: on a legacy retarget boundary (`(H+1) mod interval = 0`, `H` below
`nNewPowDiffHeight` and outside the forced bands, retargeting on), with the ancestor at
height `H - (interval - 1)` on the chain and a positive timespan `T`, the result is the
encoding of `min(powLimit, decode(last.bits) * A / T)` where `A` is the time from the
ancestor to `last` clamped to `[T/4, T*4]`; the product is the 256-bit product by the
32-bit value of `A`, which is the exact product whenever `A < 2^32` and the product
is below `2^256`. -/
theorem C12_legacy_retarget (last : CBlockIndex) (prev : List CBlockIndex)
    (pblock : Option CBlockHeader) (params : Params) (interval : Int) (first : CBlockIndex)
    (rest : List CBlockIndex)
    (hI : params.DifficultyAdjustmentInterval = some interval)
    (hmod : smod (last.nHeight + 1) interval = some 0)
    (hnew : last.nHeight < params.nNewPowDiffHeight)
    (hb1 : ¬ (112266 ≤ last.nHeight ∧ last.nHeight ≤ 112401))
    (hb2 : ¬ (122291 ≤ last.nHeight ∧ last.nHeight ≤ 122310))
    (hnr : params.fPowNoRetargeting = false)
    (hanc : GetAncestor (last :: prev) (last.nHeight - (interval - 1)) = first :: rest)
    (hT : 0 < params.nPowTargetTimespan) (hT64 : params.nPowTargetTimespan < 2 ^ 63) :
    GetNextWorkRequired (last :: prev) pblock params =
        some (GetCompact (min params.powLimit
          ((SetCompact last.nBits).value *
              (clampTimespan (last.GetBlockTime - first.GetBlockTime)
                params.nPowTargetTimespan % 2 ^ 32).toNat % 2 ^ 256 /
            params.nPowTargetTimespan.toNat))) ∧
      (clampTimespan (last.GetBlockTime - first.GetBlockTime) params.nPowTargetTimespan < 2 ^ 32 →
        (SetCompact last.nBits).value *
          (clampTimespan (last.GetBlockTime - first.GetBlockTime)
            params.nPowTargetTimespan).toNat < 2 ^ 256 →
        GetNextWorkRequired (last :: prev) pblock params =
          some (GetCompact (min params.powLimit
            ((SetCompact last.nBits).value *
                (clampTimespan (last.GetBlockTime - first.GetBlockTime)
                  params.nPowTargetTimespan).toNat /
              params.nPowTargetTimespan.toNat)))) := by
  have hband : ¬ (last.nHeight ≥ 122291 ∧ last.nHeight ≤ 122310) := hb2
  have hh := GetAncestor_nonneg _ _ _ _ hanc
  have key : GetNextWorkRequired (last :: prev) pblock params =
      some (GetCompact (min params.powLimit
        ((SetCompact last.nBits).value *
            (clampTimespan (last.GetBlockTime - first.GetBlockTime)
              params.nPowTargetTimespan % 2 ^ 32).toNat % 2 ^ 256 /
          params.nPowTargetTimespan.toNat))) := by
    simp only [GetNextWorkRequired, if_neg hband, if_neg (not_le.mpr hnew), List.isEmpty_cons,
      Bool.false_eq_true, if_false]
    unfold legacyNextWork
    simp only []
    rw [if_neg (fun h => hb1 ⟨by omega, by omega⟩), if_neg (fun h => hb1 ⟨by omega, by omega⟩),
      hI]
    simp only [hmod, ne_eq, not_true_eq_false, if_false]
    rw [if_neg (by omega), hanc]
    simp only []
    unfold CalculateNextWorkRequired
    simp only [hnr, Bool.false_eq_true, if_false, clampTimespan_eq, mulSmall, U256]
    rw [divSmall_pos _ _ hT (by omega)]
    simp only []
    congr 2
    rw [Nat.min_def]
    split_ifs <;> omega
  refine ⟨key, ?_⟩
  intro h32 hprod
  rw [key]
  have hT4 : 0 ≤ Int.tdiv params.nPowTargetTimespan 4 := Int.tdiv_nonneg (by omega) (by omega)
  have hA0 : 0 ≤ clampTimespan (last.GetBlockTime - first.GetBlockTime)
      params.nPowTargetTimespan := by
    unfold clampTimespan
    simp only [min_def, max_def]
    split_ifs <;> omega
  rw [Int.emod_eq_of_lt hA0 h32, Nat.mod_eq_of_lt hprod]

set_option maxRecDepth 100000 in
/-- Witness of C12: interval 2016, timespan 1209600, a chain of 2016 nodes carrying
0x1d00ffff with 604800 s from the genesis node to the node at height 2015: no clamping,
and the result is the encoding of `decode(0x1d00ffff) * 604800 / 1209600`, 0x1c7fff80. -/
theorem C12_legacy_retarget_witness :
    exParamsNew.DifficultyAdjustmentInterval = some 2016 ∧
      exParamsNew.nPowTargetTimespan = 1209600 ∧
      c12Last.GetBlockTime - c12Genesis.GetBlockTime = 604800 ∧
      GetNextWorkRequired (c12Last :: c12Prev) none exParamsNew =
        some (GetCompact ((SetCompact 0x1d00ffff).value * 604800 / 1209600)) ∧
      GetNextWorkRequired (c12Last :: c12Prev) none exParamsNew = some 0x1c7fff80 :=
  have h := (C12_legacy_retarget c12Last c12Prev none exParamsNew 2016 c12Genesis []
    (by decide) (by decide) (by decide) (by decide) (by decide) (by decide) (by decide)
    (by decide) (by decide)).2 (by decide) (by decide)
  ⟨by decide, by decide, by decide, h.trans (by decide), h.trans (by decide)⟩


/-! ### Version accessors and header serialization -/

/-- The low 8 bits of the two's complement bits of `v` are `v mod 256`. -/
theorem toU32_and_255 (v : Int) : ((toU32 v &&& 0xFF : Nat) : Int) = v % 256 := by
  have h : toU32 v &&& 0xFF = toU32 v % 2 ^ 8 := Nat.and_pow_two_sub_one_eq_mod (toU32 v) 8
  rw [h]
  unfold toU32
  omega

/-- Bit `i` of a natural number, tested with a one-bit mask. -/
theorem and_two_pow_ne_zero_iff (x i : Nat) : x &&& 2 ^ i ≠ 0 ↔ x / 2 ^ i % 2 = 1 := by
  rw [Nat.and_two_pow]
  have h2 : 0 < 2 ^ i := Nat.two_pow_pos i
  rw [Nat.testBit_to_div_mod]
  by_cases h : x / 2 ^ i % 2 = 1
  · simp [h]
  · simp [h]

/-- C30 (amended): for every version value `v`, `GetBaseVersion` is the low 8 bits of `v`
(`v AND 0xFF`, on the two's complement bits) when `v` is non-negative or these bits are
zero, and the low 8 bits minus 256 when `v` is negative with non-zero low bits;
`IsAuxpow` holds exactly when bit 8 of `v` is set (`v / 2^8` rounded down is odd), and
`IsLegacy` exactly when `v = 1`. -/
theorem C30_version_accessors (h : CPureBlockHeader) :
    (0 ≤ h.nVersion ∨ toU32 h.nVersion &&& 0xFF = 0 →
      h.GetBaseVersion = ((toU32 h.nVersion &&& 0xFF : Nat) : Int)) ∧
    (h.nVersion < 0 → toU32 h.nVersion &&& 0xFF ≠ 0 →
      h.GetBaseVersion = ((toU32 h.nVersion &&& 0xFF : Nat) : Int) - 256) ∧
    (h.IsAuxpow = true ↔ h.nVersion / 2 ^ 8 % 2 = 1) ∧
    (h.IsLegacy = true ↔ h.nVersion = 1) := by
  have hlow := toU32_and_255 h.nVersion
  have hz : toU32 h.nVersion &&& 0xFF = 0 ↔ h.nVersion % 256 = 0 := by
    rw [← hlow]; omega
  have hbase : h.GetBaseVersion = Int.tmod h.nVersion 256 := rfl
  have hneg : h.nVersion < 0 → Int.tmod h.nVersion 256 = -((-h.nVersion) % 256) := by
    intro hn
    have h1 : Int.tdiv h.nVersion 256 = -(Int.tdiv (-h.nVersion) 256) := by
      rw [Int.neg_tdiv, Int.neg_neg]
    rw [Int.tmod_def, h1, Int.tdiv_eq_ediv (by omega) (by omega)]
    omega
  refine ⟨?_, ?_, ?_, ?_⟩
  · intro hc
    rw [hbase, hlow]
    by_cases h0 : 0 ≤ h.nVersion
    · exact Int.tmod_eq_emod h0 (by omega)
    · have hz' := hz.mp (hc.resolve_left h0)
      rw [hneg (by omega)]
      omega
  · intro hn hnz
    have hz' : h.nVersion % 256 ≠ 0 := fun e => hnz (hz.mpr e)
    rw [hbase, hlow, hneg hn]
    omega
  · unfold CPureBlockHeader.IsAuxpow
    rw [decide_eq_true_iff]
    have := and_two_pow_ne_zero_iff (toU32 h.nVersion) 8
    rw [show (0x100 : Nat) = 2 ^ 8 from rfl, this]
    unfold toU32
    omega
  · unfold CPureBlockHeader.IsLegacy
    rw [decide_eq_true_iff]

/-- Witness of C30: version `0x002a0101` (chain id 42, flag set, base version 1) has
base version 1; version `-255` (low 8 bits `0x01`) has base version `1 - 256`. -/
theorem C30_version_accessors_witness :
    exHeader.GetBaseVersion = 1 ∧
      ({ exHeader with nVersion := -255 } : CPureBlockHeader).GetBaseVersion = 1 - 256 :=
  ⟨((C30_version_accessors exHeader).1 (Or.inl (by decide))).trans (by decide),
   ((C30_version_accessors { exHeader with nVersion := -255 }).2.1 (by decide)
      (by decide)).trans (by decide)⟩

/-- C30 (as stated) fails: for the version `-1` (all bits set) the low 8 bits
are 255 and `GetBaseVersion` is `-1`. -/
theorem C30_negative_version :
    GetBaseVersion (-1) = -1 ∧ ((toU32 (-1) &&& 0xFF : Nat) : Int) = 255 ∧
      ({ exHeader with nVersion := -1 } : CPureBlockHeader).GetBaseVersion ≠
        ((toU32 (-1) &&& 0xFF : Nat) : Int) := by
  decide

/-- A pure header serializes to 80 bytes. -/
theorem serializeHeader_length (h : CPureBlockHeader) : (serializeHeader h).length = 80 := by
  simp [serializeHeader, le32, uint256Bytes]

/-- The serialization of a payload ends with the 80 bytes of the parent header. -/
theorem CAuxPow_Serialize_length (a : CAuxPow) : 80 ≤ a.Serialize.length := by
  unfold CAuxPow.Serialize
  rw [List.length_append, serializeHeader_length]
  omega

/-- C27: two full headers with the same pure header serialize for hashing (a type with
the `SER_GETHASH` bit) to the same bytes, the 80 bytes of the pure header, whatever
payload each carries and whatever the version is; so their block hashes are equal, and
equal to the hash of the pure header. -/
theorem C27_hash_serialization (h1 h2 : CBlockHeader) (nType : Nat)
    (hpure : h1.toCPureBlockHeader = h2.toCPureBlockHeader)
    (hType : nType &&& SER_GETHASH ≠ 0) :
    h1.Serialize nType = h2.Serialize nType ∧
      h1.Serialize nType = serializeHeader h1.toCPureBlockHeader ∧
      (h1.Serialize nType).length = 80 ∧
      h1.GetHash = h2.GetHash ∧
      h1.GetHash = sha256Fns.headerHash h1.toCPureBlockHeader := by
  have key : ∀ h : CBlockHeader, h.Serialize nType = serializeHeader h.toCPureBlockHeader := by
    intro h
    unfold CBlockHeader.Serialize
    simp only [if_pos hType]
  have keyH : ∀ h : CBlockHeader,
      h.Serialize SER_GETHASH = serializeHeader h.toCPureBlockHeader := by
    intro h
    unfold CBlockHeader.Serialize
    rw [if_pos (by decide)]
  refine ⟨?_, key h1, ?_, ?_, ?_⟩
  · rw [key h1, key h2, hpure]
  · rw [key h1, serializeHeader_length]
  · unfold CBlockHeader.GetHash
    rw [keyH h1, keyH h2, hpure]
  · unfold CBlockHeader.GetHash
    rw [keyH h1]
    rfl

/-- Witness of C27: the header `exHeader` with the payload `exAuxPow` and without any
payload. -/
theorem C27_hash_serialization_witness :
    ({ toCPureBlockHeader := exHeader, auxpow := some exAuxPow } : CBlockHeader).Serialize
        SER_GETHASH =
      ({ toCPureBlockHeader := exHeader, auxpow := none } : CBlockHeader).Serialize SER_GETHASH ∧
    ({ toCPureBlockHeader := exHeader, auxpow := some exAuxPow } : CBlockHeader).GetHash =
      ({ toCPureBlockHeader := exHeader, auxpow := none } : CBlockHeader).GetHash :=
  ⟨(C27_hash_serialization { toCPureBlockHeader := exHeader, auxpow := some exAuxPow }
    { toCPureBlockHeader := exHeader, auxpow := none } SER_GETHASH rfl (by decide)).1,
   (C27_hash_serialization { toCPureBlockHeader := exHeader, auxpow := some exAuxPow }
    { toCPureBlockHeader := exHeader, auxpow := none } SER_GETHASH rfl (by decide)).2.2.2.1⟩

/-- C28: serialized with a type without the `SER_GETHASH` bit (network or disk), a full
header is the 80 bytes of its pure header followed by the serialization of its payload
when the AuxPoW flag is set, the chain id is in `(0, 0x100)` and a payload is attached;
in every other case it is the 80 bytes of the pure header alone.  As a payload
serializes to at least 80 bytes, the two cases are told apart by the length. -/
theorem C28_network_serialization (h : CBlockHeader) (nType : Nat)
    (hType : nType &&& SER_GETHASH = 0) :
    (∀ a : CAuxPow, h.IsAuxpow = true → 0 < h.GetChainId → h.GetChainId < 0x100 →
        h.auxpow = some a →
        h.Serialize nType = serializeHeader h.toCPureBlockHeader ++ a.Serialize) ∧
      (¬ (h.IsAuxpow = true ∧ 0 < h.GetChainId ∧ h.GetChainId < 0x100 ∧
            h.auxpow.isSome = true) →
        h.Serialize nType = serializeHeader h.toCPureBlockHeader) ∧
      ((h.Serialize nType).length = 80 ↔
        ¬ (h.IsAuxpow = true ∧ 0 < h.GetChainId ∧ h.GetChainId < 0x100 ∧
            h.auxpow.isSome = true)) := by
  have hT : ¬ (nType &&& SER_GETHASH ≠ 0) := by simp [hType]
  have yes : ∀ a : CAuxPow, h.IsAuxpow = true → 0 < h.GetChainId → h.GetChainId < 0x100 →
      h.auxpow = some a →
      h.Serialize nType = serializeHeader h.toCPureBlockHeader ++ a.Serialize := by
    intro a hf h0 h1 ha
    unfold CBlockHeader.Serialize
    simp only [if_neg hT, hf, h0, h1, ha, decide_True, Bool.and_self, if_true]
  have no : ¬ (h.IsAuxpow = true ∧ 0 < h.GetChainId ∧ h.GetChainId < 0x100 ∧
        h.auxpow.isSome = true) →
      h.Serialize nType = serializeHeader h.toCPureBlockHeader := by
    intro hc
    unfold CBlockHeader.Serialize
    simp only [if_neg hT]
    split
    · rename_i he
      simp only [Bool.and_eq_true, decide_eq_true_eq] at he
      cases ha : h.auxpow with
      | none => rfl
      | some a => exact absurd ⟨he.1.1, he.1.2, he.2, by simp [ha]⟩ hc
    · rfl
  refine ⟨yes, no, ?_⟩
  constructor
  · intro hlen hc
    obtain ⟨hf, h0, h1, ha⟩ := hc
    obtain ⟨a, ha'⟩ := Option.isSome_iff_exists.mp ha
    rw [yes a hf h0 h1 ha', List.length_append, serializeHeader_length] at hlen
    have := CAuxPow_Serialize_length a
    omega
  · intro hc
    rw [no hc, serializeHeader_length]

/-- Witness of C28: `exHeader` (flag set, chain id 42) with the payload `exAuxPow`
serializes to its 80 bytes followed by the payload; without a payload, and with the
flag cleared and the payload attached, to the 80 bytes alone. -/
theorem C28_network_serialization_witness :
    ({ toCPureBlockHeader := exHeader, auxpow := some exAuxPow } : CBlockHeader).Serialize
        SER_NETWORK = serializeHeader exHeader ++ exAuxPow.Serialize ∧
    ({ toCPureBlockHeader := exHeader, auxpow := none } : CBlockHeader).Serialize SER_NETWORK =
      serializeHeader exHeader ∧
    ({ toCPureBlockHeader := { exHeader with nVersion := 42 * 65536 + 1 },
       auxpow := some exAuxPow } : CBlockHeader).Serialize SER_NETWORK =
      serializeHeader { exHeader with nVersion := 42 * 65536 + 1 } :=
  ⟨(C28_network_serialization { toCPureBlockHeader := exHeader, auxpow := some exAuxPow }
      SER_NETWORK (by decide)).1 exAuxPow (by decide) (by decide) (by decide) rfl,
   (C28_network_serialization { toCPureBlockHeader := exHeader, auxpow := none }
      SER_NETWORK (by decide)).2.1 (by decide),
   (C28_network_serialization
      { toCPureBlockHeader := { exHeader with nVersion := 42 * 65536 + 1 },
        auxpow := some exAuxPow } SER_NETWORK (by decide)).2.1 (by decide)⟩

/-- Reading `n` bytes succeeds when at least `n` bytes are left. -/
theorem readUInt_of_le (n : Nat) (s : List Nat) (h : n ≤ s.length) :
    readUInt n s = some (uint256OfBytes (s.take n), s.drop n) := by
  unfold readUInt readBytes
  rw [if_neg (by omega)]

/-- Reading a pure header succeeds on a stream of at least 80 bytes and leaves what
follows them. -/
theorem CPureBlockHeader_Unserialize_of_le (s : List Nat) (h : 80 ≤ s.length) :
    ∃ p : CPureBlockHeader, CPureBlockHeader.Unserialize s = some (p, s.drop 80) := by
  unfold CPureBlockHeader.Unserialize
  rw [readUInt_of_le 4 s (by omega)]
  simp only []
  rw [readUInt_of_le 32 (s.drop 4) (by rw [List.length_drop]; omega)]
  simp only [List.drop_drop]
  rw [readUInt_of_le 32 (s.drop 36) (by rw [List.length_drop]; omega)]
  simp only [List.drop_drop]
  rw [readUInt_of_le 4 (s.drop 68) (by rw [List.length_drop]; omega)]
  simp only [List.drop_drop]
  rw [readUInt_of_le 4 (s.drop 72) (by rw [List.length_drop]; omega)]
  simp only [List.drop_drop]
  rw [readUInt_of_le 4 (s.drop 76) (by rw [List.length_drop]; omega)]
  simp only [List.drop_drop]
  exact ⟨_, rfl⟩

/-- C29 (amended): every string of exactly 80 bytes reads as a pure header `p`; read as
a full header from the network or the disk, it fails when the version of `p` has the
AuxPoW flag set and its chain id is in `(0, 0x100)`, the payload being missing, and in
every other case, the flag set with another chain id included, it gives the header `p`
without a payload. -/
theorem C29_flag_without_payload (self : CBlockHeader) (nType : Nat) (s : List Nat)
    (hlen : s.length = 80) (hType : nType &&& SER_GETHASH = 0) :
    ∃ p : CPureBlockHeader, CPureBlockHeader.Unserialize s = some (p, []) ∧
      (p.IsAuxpow = true ∧ 0 < p.GetChainId ∧ p.GetChainId < 0x100 →
        CBlockHeader.Unserialize self nType s = none) ∧
      (¬ (p.IsAuxpow = true ∧ 0 < p.GetChainId ∧ p.GetChainId < 0x100) →
        CBlockHeader.Unserialize self nType s =
          some ({ toCPureBlockHeader := p, auxpow := none }, [])) := by
  obtain ⟨p, hp⟩ := CPureBlockHeader_Unserialize_of_le s (by omega)
  have hnil : s.drop 80 = [] := List.drop_eq_nil_of_le (by omega)
  rw [hnil] at hp
  have hT : ¬ (nType &&& SER_GETHASH ≠ 0) := by simp [hType]
  refine ⟨p, hp, ?_, ?_⟩
  · rintro ⟨hf, h0, h1⟩
    unfold CBlockHeader.Unserialize
    rw [hp]
    simp only [if_neg hT, hf, h0, h1, decide_True, Bool.and_self, if_true]
    rfl
  · intro hc
    unfold CBlockHeader.Unserialize
    rw [hp]
    simp only [if_neg hT]
    split
    · rename_i he
      simp only [Bool.and_eq_true, decide_eq_true_eq] at he
      exact absurd ⟨he.1.1, he.1.2, he.2⟩ hc
    · rfl

/-- Witness of C29: the 80 bytes of `exHeader` (flag set, chain id 42) do not read as a
full header. -/
theorem C29_flag_without_payload_witness :
    (serializeHeader exHeader).length = 80 ∧
      CBlockHeader.Unserialize { toCPureBlockHeader := exHeader, auxpow := none } SER_NETWORK
        (serializeHeader exHeader) = none :=
  ⟨by decide,
   match C29_flag_without_payload { toCPureBlockHeader := exHeader, auxpow := none } SER_NETWORK
      (serializeHeader exHeader) (by decide) (by decide) with
   | ⟨_, hp, hfail, _⟩ =>
     hfail (by
       have hq : CPureBlockHeader.Unserialize (serializeHeader exHeader) =
           some (exHeader, []) := by decide
       rw [hq] at hp
       cases hp
       decide)⟩

/-- C29 (as stated) fails: the 80 bytes of a pure header with version `0x100`,
the AuxPoW flag set and the chain id 0, read as a full header without a payload. -/
theorem C29_flag_with_chain_id_zero_read :
    ({ exHeader with nVersion := 0x100 } : CPureBlockHeader).IsAuxpow = true ∧
      (serializeHeader { exHeader with nVersion := 0x100 }).length = 80 ∧
      CBlockHeader.Unserialize { toCPureBlockHeader := exHeader, auxpow := none } SER_NETWORK
          (serializeHeader { exHeader with nVersion := 0x100 }) =
        some ({ toCPureBlockHeader := { exHeader with nVersion := 0x100 }, auxpow := none },
          []) := by
  decide


/-! ### The retarget formulas, their bounds and the transition validator -/

/-- The capping step `if t > limit then limit else t` is the minimum. -/
theorem cap_eq_min (limit t : Nat) : (if t > limit then limit else t) = min limit t := by
  rw [Nat.min_def]
  split_ifs <;> omega

/-- The product by a small integer is exact when the integer fits in 32 bits and the
product in 256 bits. -/
theorem mulSmall_exact (a : Nat) (b : Int) (h0 : 0 ≤ b) (h32 : b < 2 ^ 32)
    (hprod : a * b.toNat < 2 ^ 256) : mulSmall a b = a * b.toNat := by
  unfold mulSmall U256
  rw [Int.emod_eq_of_lt h0 h32, Nat.mod_eq_of_lt hprod]

/-- The two clamping steps of `CalculateNextWorkRequiredNew` are the clamp to
`[lo, hi]`. -/
theorem clamp_steps_eq (a lo hi : Int) :
    (if (if a < lo then lo else a) > hi then hi else (if a < lo then lo else a)) =
      min (max a lo) hi := by
  simp only [min_def, max_def]
  split_ifs <;> omega

/-- C21: with a positive averaging window and spacing, `AWT` their product and `A` the
dampened elapsed time `AWT + (last - first - AWT)/4` (division truncating toward zero)
clamped to `[MinActualTimespan, MaxActualTimespan]`, `CalculateNextWorkRequiredNew`
returns the encoding of `min(powLimit, (avg / AWT) * A)`, the division done first; the
product is the 256-bit product by the 32-bit value of `A`, which is the exact product
whenever `0 ≤ A < 2^32` and the product is below `2^256`. -/
theorem C21_calculate_new (bnAvg : Nat) (nFirstBlockTime nLastBlockTime : Int)
    (params : Params) (AWT A : Int)
    (hw : 0 < params.nPowAveragingWindow) (hs : 0 < params.nPostBlossomPowTargetSpacing)
    (hAWT : AWT = params.nPowAveragingWindow * params.nPostBlossomPowTargetSpacing)
    (h63 : AWT < 2 ^ 63)
    (hA : A = min (max (AWT + Int.tdiv (nLastBlockTime - nFirstBlockTime - AWT) 4)
        params.MinActualTimespan) params.MaxActualTimespan) :
    CalculateNextWorkRequiredNew bnAvg nFirstBlockTime nLastBlockTime params =
        some (GetCompact (min params.powLimit
          (bnAvg / AWT.toNat * (A % 2 ^ 32).toNat % 2 ^ 256))) ∧
      (0 ≤ A → A < 2 ^ 32 → bnAvg / AWT.toNat * A.toNat < 2 ^ 256 →
        CalculateNextWorkRequiredNew bnAvg nFirstBlockTime nLastBlockTime params =
          some (GetCompact (min params.powLimit (bnAvg / AWT.toNat * A.toNat)))) := by
  have hv : ¬ (params.nPowAveragingWindow ≤ 0 ∨ params.nPostBlossomPowTargetSpacing ≤ 0) := by
    omega
  have hawt : params.AveragingWindowTimespan = AWT := by
    unfold Params.AveragingWindowTimespan
    rw [if_neg hv, hAWT]
  have hpos : 0 < AWT := by rw [hAWT]; exact Int.mul_pos hw hs
  have key : CalculateNextWorkRequiredNew bnAvg nFirstBlockTime nLastBlockTime params =
      some (GetCompact (min params.powLimit
        (bnAvg / AWT.toNat * (A % 2 ^ 32).toNat % 2 ^ 256))) := by
    unfold CalculateNextWorkRequiredNew
    simp only [hawt]
    rw [if_neg (by omega), divSmall_pos _ _ hpos (by omega)]
    simp only [clamp_steps_eq, cap_eq_min, ← hA, mulSmall, U256]
  refine ⟨key, ?_⟩
  intro h0 h32 hprod
  rw [key, Int.emod_eq_of_lt h0 h32, Nat.mod_eq_of_lt hprod]

/-- Witness of C21: window 17, spacing 600, so `AWT = 10200`; an average target
`0xffff * 2^192` and 10200 s elapsed give `A = 10200` and the result 0x1b00fffe. -/
theorem C21_calculate_new_witness :
    CalculateNextWorkRequiredNew (0xffff * 2 ^ 192) 1699989800 1700000000 exParamsNew =
      some (GetCompact (min exParamsNew.powLimit (0xffff * 2 ^ 192 / 10200 * 10200))) ∧
    CalculateNextWorkRequiredNew (0xffff * 2 ^ 192) 1699989800 1700000000 exParamsNew =
      some 0x1b00fffe :=
  have h := (C21_calculate_new (0xffff * 2 ^ 192) 1699989800 1700000000 exParamsNew 10200 10200
    (by decide) (by decide) (by decide) (by decide) (by decide)).2 (by decide) (by decide)
    (by decide)
  ⟨h, h.trans (by decide)⟩

/-- Encoding and decoding a 256-bit value does not increase it. -/
theorem decode_GetCompact_le (v : Nat) (hv : v < 2 ^ 256) :
    (SetCompact (GetCompact v)).value ≤ v := by
  rw [SetCompact_GetCompact v hv]
  exact compactRound_le v

/-- Encoding and decoding a value below a 256-bit limit stays below the limit. -/
theorem decode_GetCompact_le_of_le (v limit : Nat) (hl : limit < 2 ^ 256) (h : v ≤ limit) :
    (SetCompact (GetCompact v)).value ≤ limit :=
  Nat.le_trans (decode_GetCompact_le v (by omega)) h

/-- The result of the emergency cascade decodes to at most the limit. -/
theorem emergencyCascade_le (bits : Nat) (dt s : Int) (limit : Nat) (hl : limit < 2 ^ 256) :
    (SetCompact (emergencyCascade bits dt s (GetCompact limit))).value ≤ limit := by
  rw [emergencyCascade_eq bits dt s limit hl]
  split
  · exact decode_GetCompact_le limit hl
  · exact decode_GetCompact_le_of_le _ limit hl (Nat.min_le_left _ _)

/-- The result of `CalculateNextWorkRequiredNew` decodes to at most `powLimit`. -/
theorem CalculateNextWorkRequiredNew_le (bnAvg : Nat) (t0 t1 : Int) (params : Params) (r : Nat)
    (hL : params.powLimit < 2 ^ 256) (hN : params.pownewlimit ≤ params.powLimit)
    (hr : CalculateNextWorkRequiredNew bnAvg t0 t1 params = some r) :
    (SetCompact r).value ≤ params.powLimit := by
  unfold CalculateNextWorkRequiredNew at hr
  simp only [] at hr
  split at hr
  · cases hr
    exact decode_GetCompact_le_of_le _ _ hL hN
  · split at hr
    · cases hr
    · cases hr
      rw [cap_eq_min]
      exact decode_GetCompact_le_of_le _ _ hL (Nat.min_le_left _ _)

/-- The result of the averaging retarget decodes to at most `powLimit`. -/
theorem averagingRetarget_le (last : CBlockIndex) (prev : List CBlockIndex) (params : Params)
    (r : Nat) (hL : params.powLimit < 2 ^ 256) (hN : params.pownewlimit ≤ params.powLimit)
    (hr : averagingRetarget last prev params = some r) :
    (SetCompact r).value ≤ params.powLimit := by
  unfold averagingRetarget at hr
  simp only [] at hr
  split at hr
  · cases hr
    exact decode_GetCompact_le_of_le _ _ hL hN
  · split at hr
    · cases hr
    · exact CalculateNextWorkRequiredNew_le _ _ _ params r hL hN hr

/-- The result of `CalculateNextWorkRequired` decodes to at most `powLimit` when the
target of `last` does. -/
theorem CalculateNextWorkRequired_le (last : CBlockIndex) (t0 : Int) (params : Params)
    (r : Nat) (hL : params.powLimit < 2 ^ 256)
    (hlast : (SetCompact last.nBits).value ≤ params.powLimit)
    (hr : CalculateNextWorkRequired last t0 params = some r) :
    (SetCompact r).value ≤ params.powLimit := by
  unfold CalculateNextWorkRequired at hr
  split at hr
  · cases hr
    exact hlast
  · simp only [] at hr
    split at hr
    · cases hr
    · cases hr
      rw [cap_eq_min]
      exact decode_GetCompact_le_of_le _ _ hL (Nat.min_le_left _ _)

/-- The testnet walk returns the bits of a node of the chain. -/
theorem lastNonSpecialBits_mem (interval : Int) (limit : Nat) :
    ∀ (prev : List CBlockIndex) (b : CBlockIndex),
      ∃ x ∈ b :: prev, lastNonSpecialBits interval limit b prev = x.nBits := by
  intro prev
  induction prev with
  | nil => intro b; exact ⟨b, by simp, rfl⟩
  | cons p rest ih =>
    intro b
    rw [lastNonSpecialBits]
    split
    · obtain ⟨x, hx, he⟩ := ih p
      exact ⟨x, List.mem_cons_of_mem _ hx, he⟩
    · exact ⟨b, by simp, rfl⟩

/-- The result of the legacy path decodes to at most `powLimit` on a chain whose targets
do. -/
theorem legacyNextWork_le (last : CBlockIndex) (prev : List CBlockIndex)
    (pblock : Option CBlockHeader) (params : Params) (r : Nat)
    (hL : params.powLimit < 2 ^ 256) (hN : params.pownewlimit ≤ params.powLimit)
    (hchain : ∀ b ∈ last :: prev, (SetCompact b.nBits).value ≤ params.powLimit)
    (hr : legacyNextWork last prev pblock params = some r) :
    (SetCompact r).value ≤ params.powLimit := by
  have hlast := hchain last (by simp)
  unfold legacyNextWork at hr
  simp only [] at hr
  split at hr
  · cases hr
    exact decode_GetCompact_le _ hL
  · split at hr
    · cases hr
      exact decode_GetCompact_le_of_le _ _ hL hN
    · split at hr
      · cases hr
      · split at hr
        · cases hr
        · split at hr
          · split at hr
            · split at hr
              · cases hr
              · split at hr
                · cases hr
                  exact decode_GetCompact_le _ hL
                · cases hr
                  obtain ⟨x, hx, he⟩ := lastNonSpecialBits_mem _ (GetCompact params.powLimit)
                    prev last
                  rw [he]
                  exact hchain x hx
            · cases hr
              exact hlast
          · split at hr
            · cases hr
            · split at hr
              · cases hr
              · exact CalculateNextWorkRequired_le last _ params r hL hlast hr

/-- The rules from the hard fork on: the result decodes to at most `powdinlimit` when a
slow-block rule fires and to at most `powLimit` otherwise. -/
theorem postForkRules_le (last : CBlockIndex) (prev : List CBlockIndex) (dt : Int)
    (params : Params) (r : Nat)
    (hL : params.powLimit < 2 ^ 256) (hD : params.powdinlimit < 2 ^ 256)
    (hN : params.pownewlimit ≤ params.powLimit)
    (hs : 0 < params.nPostBlossomPowTargetSpacing)
    (hlast : (SetCompact last.nBits).value ≤ params.powLimit)
    (hr : postForkRules last prev dt params = some r) :
    (SetCompact r).value ≤
      if dt < 120 ∧ (fastBlockLoop params.nPowAveragingWindow 0 (last :: prev) 0 0).2 > 0 ∧
          Int.tdiv (fastBlockLoop params.nPowAveragingWindow 0 (last :: prev) 0 0).1
            (fastBlockLoop params.nPowAveragingWindow 0 (last :: prev) 0 0).2 < 300 then
        params.powLimit
      else if dt > params.nPostBlossomPowTargetSpacing * 3 then params.powdinlimit
      else params.powLimit := by
  by_cases hfast : dt < 120 ∧
      (fastBlockLoop params.nPowAveragingWindow 0 (last :: prev) 0 0).2 > 0 ∧
      Int.tdiv (fastBlockLoop params.nPowAveragingWindow 0 (last :: prev) 0 0).1
        (fastBlockLoop params.nPowAveragingWindow 0 (last :: prev) 0 0).2 < 300
  · rw [if_pos hfast]
    unfold postForkRules at hr
    simp only [] at hr
    rw [if_pos hfast] at hr
    cases hr
    exact decode_GetCompact_le_of_le _ _ hL
      (Nat.le_trans (Nat.div_le_self _ _) hlast)
  · rw [if_neg hfast]
    rw [postForkRules_slow last prev dt params hD hfast] at hr
    split at hr
    · cases hr
      rw [if_pos (by omega)]
      exact decode_GetCompact_le _ hD
    · split at hr
      · cases hr
        rw [if_pos (by omega)]
        exact decode_GetCompact_le_of_le _ _ hD (Nat.min_le_left _ _)
      · split at hr
        · cases hr
          rw [if_pos (by omega)]
          exact decode_GetCompact_le_of_le _ _ hD (Nat.min_le_left _ _)
        · split at hr
          · cases hr
            rw [if_pos (by omega)]
            exact decode_GetCompact_le_of_le _ _ hD (Nat.min_le_left _ _)
          · rw [if_neg (by omega)]
            exact averagingRetarget_le last prev params r hL hN hr

/-- C22 (amended): on a chain whose nodes all carry bits that decode to at most
`powLimit`, with `pownewlimit` at most `powLimit` and the limits 256-bit values, the
target decoded from the output of `GetNextWorkRequired` is at most the limit of the
branch that answers: `powmaxlimit` in range 1, `powdinlimit` for the emergency rules of
range 2, `powLimit` everywhere else (`branchLimit`). -/
theorem C22_output_bound (last : CBlockIndex) (prev : List CBlockIndex)
    (pblock : Option CBlockHeader) (params : Params) (r : Nat)
    (hL : params.powLimit < 2 ^ 256) (hM : params.powmaxlimit < 2 ^ 256)
    (hD : params.powdinlimit < 2 ^ 256) (hN : params.pownewlimit ≤ params.powLimit)
    (hchain : ∀ b ∈ last :: prev, (SetCompact b.nBits).value ≤ params.powLimit)
    (hr : GetNextWorkRequired (last :: prev) pblock params = some r) :
    (SetCompact r).value ≤ branchLimit last prev pblock params := by
  have hlast := hchain last (by simp)
  have hmin : (SetCompact (GetCompact params.pownewlimit)).value ≤ params.powLimit :=
    decode_GetCompact_le_of_le _ _ hL hN
  unfold GetNextWorkRequired at hr
  simp only [List.isEmpty_cons, Bool.false_eq_true, if_false] at hr
  by_cases hband : last.nHeight ≥ 122291 ∧ last.nHeight ≤ 122310
  · rw [if_pos hband] at hr
    cases hr
    have hb : branchLimit last prev pblock params = params.powLimit := by
      unfold branchLimit
      cases pblock with
      | none => rfl
      | some blk => simp only [if_pos hband]
    rw [hb]
    exact hmin
  · rw [if_neg hband] at hr
    by_cases hnew : last.nHeight ≥ params.nNewPowDiffHeight
    · rw [if_pos hnew] at hr
      by_cases hnr : params.fPowNoRetargeting = true
      · have hb : branchLimit last prev pblock params = params.powLimit := by
          unfold branchLimit
          cases pblock with
          | none => rfl
          | some blk => simp only [if_neg hband, if_neg (not_lt.mpr hnew), hnr, if_true]
        rw [hb]
        simp only [GetNextWorkRequiredNew, hnr, if_true] at hr
        cases hr
        exact hlast
      · have hnr' : params.fPowNoRetargeting = false := by simpa using hnr
        by_cases hv : params.nPowAveragingWindow ≤ 0 ∨ params.nPostBlossomPowTargetSpacing ≤ 0
        · have hb : branchLimit last prev pblock params = params.powLimit := by
            unfold branchLimit
            cases pblock with
            | none => rfl
            | some blk =>
              simp only [if_neg hband, if_neg (not_lt.mpr hnew), hnr', Bool.false_eq_true,
                if_false, if_pos hv]
          rw [hb]
          simp only [GetNextWorkRequiredNew, hnr', Bool.false_eq_true, if_false, if_pos hv] at hr
          cases hr
          exact hmin
        · have hw : 0 < params.nPowAveragingWindow := by omega
          have hs : 0 < params.nPostBlossomPowTargetSpacing := by omega
          cases pblock with
          | none =>
            simp only [GetNextWorkRequiredNew, hnr', Bool.false_eq_true, if_false, if_neg hv]
              at hr
            exact averagingRetarget_le last prev params r hL hN hr
          | some blk =>
            rw [GetNextWorkRequiredNew_candidate last prev blk params hnr' hw hs] at hr
            unfold branchLimit
            simp only [if_neg hband, if_neg (not_lt.mpr hnew), hnr', Bool.false_eq_true,
              if_false, if_neg hv]
            by_cases hold : last.nHeight < 126800 ∧
                blk.GetBlockTime > last.GetBlockTime + params.nPostBlossomPowTargetSpacing * 6
            · rw [if_pos hold] at hr ⊢
              cases hr
              exact hmin
            · rw [if_neg hold] at hr ⊢
              unfold range1Rules at hr
              by_cases h1 : last.nHeight ≥ 127464 ∧ last.nHeight ≤ 127927
              · rw [if_pos h1] at hr ⊢
                cases hr
                exact emergencyCascade_le _ _ _ _ hM
              · rw [if_neg h1] at hr ⊢
                unfold range2Rules at hr
                by_cases h2 : last.nHeight ≥ nEmergencyRuleHeight params
                · rw [if_pos h2] at hr ⊢
                  by_cases hf : last.nHeight < params.nHardForkHeight
                  · rw [if_pos hf] at hr ⊢
                    cases hr
                    exact emergencyCascade_le _ _ _ _ hD
                  · rw [if_neg hf] at hr ⊢
                    exact postForkRules_le last prev _ params r hL hD hN hs hlast hr
                · rw [if_neg h2] at hr ⊢
                  exact averagingRetarget_le last prev params r hL hN hr
    · rw [if_neg hnew] at hr
      have hb : branchLimit last prev pblock params = params.powLimit := by
        unfold branchLimit
        cases pblock with
        | none => rfl
        | some blk => simp only [if_neg hband, if_pos (not_le.mp hnew)]
      rw [hb]
      exact legacyNextWork_le last prev pblock params r hL hN hchain hr

/-- Witness of C22: in range 1, a node at height 127500 with bits 0x1b00ffff and a
candidate 3601 s later give 0x1b02db6a, which decodes to at most `powmaxlimit`. -/
theorem C22_output_bound_witness :
    GetNextWorkRequired [nodeAt 127500 1700000000 0x1b00ffff] (some (candidateAt 1700003601))
        exParamsNew = some 0x1b02db6a ∧
      branchLimit (nodeAt 127500 1700000000 0x1b00ffff) [] (some (candidateAt 1700003601))
        exParamsNew = exParamsNew.powmaxlimit ∧
      (SetCompact 0x1b02db6a).value ≤
        branchLimit (nodeAt 127500 1700000000 0x1b00ffff) [] (some (candidateAt 1700003601))
          exParamsNew :=
  ⟨by decide, by decide,
   C22_output_bound (nodeAt 127500 1700000000 0x1b00ffff) [] (some (candidateAt 1700003601))
    exParamsNew 0x1b02db6a (by decide) (by decide) (by decide) (by decide) (by decide)
    (by decide)⟩

/-- C22 (as stated) fails: on a chain whose bits all decode to `powLimit`, past
the hard fork, the fast-spike rule of the branch starting at `emergency_start` returns
0x1c7fff80, half of `powLimit`, which is above `powdinlimit`; off the retarget boundary
the legacy path returns the bits of `last` as they are, here 0x1e00ffff, whose target
is above `powLimit`, `powmaxlimit` and `powdinlimit`; and with a `pownewlimit` above
`powLimit` the forced band returns the encoding of `pownewlimit`. -/
theorem C22_limits_exceeded :
    (GetNextWorkRequired (c22FastLast :: c22FastPrev) (some (candidateAt 1700000030))
        exParamsNew = some 0x1c7fff80 ∧
      (∀ b ∈ c22FastLast :: c22FastPrev, (SetCompact b.nBits).value ≤ exParamsNew.powLimit) ∧
      c22FastLast.nHeight ≥ nEmergencyRuleHeight exParamsNew ∧
      ¬ ((SetCompact 0x1c7fff80).value ≤ exParamsNew.powdinlimit)) ∧
    (GetNextWorkRequired [c22Last] (some (candidateAt 1700000600)) exParamsNew =
        some 0x1e00ffff ∧
      ¬ ((SetCompact 0x1e00ffff).value ≤ exParamsNew.powLimit) ∧
      ¬ ((SetCompact 0x1e00ffff).value ≤ exParamsNew.powmaxlimit) ∧
      ¬ ((SetCompact 0x1e00ffff).value ≤ exParamsNew.powdinlimit)) ∧
    (GetNextWorkRequired [c9Last] (some (candidateAt 1700000600)) exParamsWideNew =
        some 0x1e00ffff ∧
      ¬ ((SetCompact 0x1e00ffff).value ≤ exParamsWideNew.powLimit)) := by
  decide

/-- The rounded value of zero is zero. -/
theorem compactRound_zero : compactRound 0 = 0 := by decide

/-- Rounding to the compact encoding is monotone on 256-bit values. -/
theorem compactRound_mono (a b : Nat) (hab : a ≤ b) (hb : b < 2 ^ 256) :
    compactRound a ≤ compactRound b := by
  rcases Nat.eq_zero_or_pos a with ha0 | ha0
  · subst ha0
    rw [compactRound_zero]
    exact Nat.zero_le _
  have hb0 : 0 < b := by omega
  obtain ⟨alo, ahi, ae1, -⟩ := compactExp_spec a (by omega) ha0
  obtain ⟨blo, bhi, be1, -⟩ := compactExp_spec b hb hb0
  have hmono : compactExp a ≤ compactExp b := by
    by_contra hlt
    have := Nat.pow_le_pow_right (show 0 < 2 by decide)
      (show 8 * compactExp b ≤ 8 * (compactExp a - 1) by omega)
    omega
  rcases Nat.eq_or_lt_of_le hmono with heq | hlt
  · unfold compactRound
    rw [heq]
    split
    · exact hab
    · exact Nat.mul_le_mul_right _ (Nat.div_le_div_right hab)
  · have hle := compactRound_le a
    have hP : 2 ^ (8 * compactExp a) ≤ 2 ^ (8 * (compactExp b - 1)) :=
      Nat.pow_le_pow_right (by decide) (by omega)
    by_cases h3 : compactExp b ≤ 3
    · have hbR : compactRound b = b := by
        unfold compactRound
        rw [if_pos h3]
      omega
    · have hbR : compactRound b =
          b / 2 ^ (8 * (compactExp b - 3)) * 2 ^ (8 * (compactExp b - 3)) := by
        unfold compactRound
        rw [if_neg h3]
      have he : 8 * (compactExp b - 1) = (8 * (compactExp b - 3) + 15) + 1 := by omega
      have hpw : 2 ^ (8 * (compactExp b - 1)) =
          2 * (2 ^ 15 * 2 ^ (8 * (compactExp b - 3))) := by
        rw [he, Nat.pow_succ', Nat.pow_add, Nat.mul_comm (2 ^ (8 * (compactExp b - 3)))]
      have hs : 0 < 2 ^ (8 * (compactExp b - 3)) := Nat.two_pow_pos _
      have hPb : 2 ^ 15 * 2 ^ (8 * (compactExp b - 3)) ≤ b := by omega
      have hdiv : 2 ^ 15 ≤ b / 2 ^ (8 * (compactExp b - 3)) :=
        (Nat.le_div_iff_mul_le hs).mpr hPb
      have hfin : 2 ^ 15 * 2 ^ (8 * (compactExp b - 3)) ≤
          b / 2 ^ (8 * (compactExp b - 3)) * 2 ^ (8 * (compactExp b - 3)) :=
        Nat.mul_le_mul_right _ hdiv
      have haP : a < 2 ^ 15 * 2 ^ (8 * (compactExp b - 3)) := by omega
      omega

/-- The 256-bit product by a small integer is monotone in the integer as long as the
larger integer fits in 32 bits and the larger product in 256 bits. -/
theorem mulSmall_mono (v : Nat) (a b : Int) (h0 : 0 ≤ a) (hab : a ≤ b) (h32 : b < 2 ^ 32)
    (hprod : v * b.toNat < 2 ^ 256) : mulSmall v a ≤ mulSmall v b := by
  have hle : v * a.toNat ≤ v * b.toNat := Nat.mul_le_mul_left _ (by omega)
  rw [mulSmall_exact v a h0 (by omega) (by omega), mulSmall_exact v b (by omega) h32 hprod]
  exact hle

/-- The averaging retarget at its lower clamp: seventeen predecessors 60 s apart with
bits 0x1b00ffff give 0x1b00d709, just below the lower bound that the validator computes
from 0x1b00ffff, the retarget dividing before it multiplies and rounding to the compact
encoding. -/
theorem averaging_lower_clamp_rejected :
    averagingRetarget (nodeAt 130010 1700000000 0x1b00ffff)
        (spacedChain 60 0x1b00ffff 17 130009 1699999940) exParamsNew = some 0x1b00d709 ∧
      PermittedDifficultyTransition exParamsNew (130010 + 1) 0x1b00ffff 0x1b00d709 =
        some false := by
  decide

/-- C24: where minimum-difficulty blocks are allowed every transition is permitted;
where they are not, at a height from `nNewPowDiffHeight` on, the transition is permitted
exactly when `lo ≤ decode(new_bits) ≤ hi` with
`hi = min(powLimit, decode(old_bits) * (100 + nPowMaxAdjustDown) / 100)` and
`lo = decode(old_bits) * (100 - nPowMaxAdjustUp) / 100` for `nPowMaxAdjustUp < 100`,
`lo = decode(old_bits) / 100` otherwise; the products are 256-bit products by the 32-bit
value of the factor, exact for percentages in range and a product below `2^256`. -/
theorem C24_new_transition (params : Params) (height : Int) (old_nbits new_nbits : Nat) :
    (params.fPowAllowMinDifficultyBlocks = true →
      PermittedDifficultyTransition params height old_nbits new_nbits = some true) ∧
    (params.fPowAllowMinDifficultyBlocks = false → height ≥ params.nNewPowDiffHeight →
      PermittedDifficultyTransition params height old_nbits new_nbits =
        some (decide (
          (if params.nPowMaxAdjustUp < 100 then
              (SetCompact old_nbits).value * ((100 - params.nPowMaxAdjustUp) % 2 ^ 32).toNat
                % 2 ^ 256 / 100
            else (SetCompact old_nbits).value / 100) ≤ (SetCompact new_nbits).value ∧
          (SetCompact new_nbits).value ≤ min params.powLimit
            ((SetCompact old_nbits).value * ((100 + params.nPowMaxAdjustDown) % 2 ^ 32).toNat
              % 2 ^ 256 / 100)))) ∧
    (params.fPowAllowMinDifficultyBlocks = false → height ≥ params.nNewPowDiffHeight →
      0 ≤ params.nPowMaxAdjustUp → params.nPowMaxAdjustUp < 100 →
      0 ≤ params.nPowMaxAdjustDown → params.nPowMaxAdjustDown < 2 ^ 31 →
      (SetCompact old_nbits).value * (100 + params.nPowMaxAdjustDown).toNat < 2 ^ 256 →
      PermittedDifficultyTransition params height old_nbits new_nbits =
        some (decide (
          (SetCompact old_nbits).value * (100 - params.nPowMaxAdjustUp).toNat / 100 ≤
            (SetCompact new_nbits).value ∧
          (SetCompact new_nbits).value ≤ min params.powLimit
            ((SetCompact old_nbits).value * (100 + params.nPowMaxAdjustDown).toNat / 100)))) := by
  have key : params.fPowAllowMinDifficultyBlocks = false → height ≥ params.nNewPowDiffHeight →
      PermittedDifficultyTransition params height old_nbits new_nbits =
        some (decide (
          (if params.nPowMaxAdjustUp < 100 then
              (SetCompact old_nbits).value * ((100 - params.nPowMaxAdjustUp) % 2 ^ 32).toNat
                % 2 ^ 256 / 100
            else (SetCompact old_nbits).value / 100) ≤ (SetCompact new_nbits).value ∧
          (SetCompact new_nbits).value ≤ min params.powLimit
            ((SetCompact old_nbits).value * ((100 + params.nPowMaxAdjustDown) % 2 ^ 32).toNat
              % 2 ^ 256 / 100))) := by
    intro hf hh
    unfold PermittedDifficultyTransition
    simp only [hf, Bool.false_eq_true, if_false, if_pos hh, cap_eq_min, mulSmall, U256]
    have hlo : (if params.nPowMaxAdjustUp ≥ 100 then (SetCompact old_nbits).value / 100
        else (SetCompact old_nbits).value * ((100 - params.nPowMaxAdjustUp) % 2 ^ 32).toNat
          % 2 ^ 256 / 100) =
        (if params.nPowMaxAdjustUp < 100 then
          (SetCompact old_nbits).value * ((100 - params.nPowMaxAdjustUp) % 2 ^ 32).toNat
            % 2 ^ 256 / 100
        else (SetCompact old_nbits).value / 100) := by
      by_cases hup : params.nPowMaxAdjustUp < 100
      · rw [if_neg (by omega), if_pos hup]
      · rw [if_pos (by omega), if_neg hup]
    rw [hlo]
    generalize (if params.nPowMaxAdjustUp < 100 then
          (SetCompact old_nbits).value * ((100 - params.nPowMaxAdjustUp) % 2 ^ 32).toNat
            % 2 ^ 256 / 100
        else (SetCompact old_nbits).value / 100) = lo
    generalize min params.powLimit
      ((SetCompact old_nbits).value * ((100 + params.nPowMaxAdjustDown) % 2 ^ 32).toNat
        % 2 ^ 256 / 100) = hi
    generalize (SetCompact new_nbits).value = x
    by_cases hc : x > hi ∨ x < lo
    · rw [if_pos hc, decide_eq_false (by omega)]
    · rw [if_neg hc, decide_eq_true (by omega)]
  refine ⟨?_, key, ?_⟩
  · intro hf
    unfold PermittedDifficultyTransition
    simp only [hf, if_true]
  · intro hf hh hu0 hu1 hd0 hd1 hprod
    rw [key hf hh, if_pos hu1, Int.emod_eq_of_lt (by omega) (by omega),
      Int.emod_eq_of_lt (by omega) (by omega), Nat.mod_eq_of_lt hprod]
    have hle : (SetCompact old_nbits).value * (100 - params.nPowMaxAdjustUp).toNat ≤
        (SetCompact old_nbits).value * (100 + params.nPowMaxAdjustDown).toNat :=
      Nat.mul_le_mul_left _ (by omega)
    rw [Nat.mod_eq_of_lt (by omega)]

/-- Witness of C24: with 16 percent up and 32 percent down at height 130000, keeping
0x1b00ffff is permitted and 0x1b02db6a is not; with minimum-difficulty blocks allowed it
is. -/
theorem C24_new_transition_witness :
    PermittedDifficultyTransition exParamsNew 130000 0x1b00ffff 0x1b00ffff = some true ∧
      PermittedDifficultyTransition exParamsNew 130000 0x1b00ffff 0x1b02db6a = some false ∧
      PermittedDifficultyTransition exParamsTestnet 130000 0x1b00ffff 0x1b02db6a = some true :=
  ⟨((C24_new_transition exParamsNew 130000 0x1b00ffff 0x1b00ffff).2.2 (by decide) (by decide)
      (by decide) (by decide) (by decide) (by decide) (by decide)).trans (by decide),
   ((C24_new_transition exParamsNew 130000 0x1b00ffff 0x1b02db6a).2.2 (by decide) (by decide)
      (by decide) (by decide) (by decide) (by decide) (by decide)).trans (by decide),
   (C24_new_transition exParamsTestnet 130000 0x1b00ffff 0x1b02db6a).1 (by decide)⟩


/-- C25: where minimum-difficulty blocks are not allowed, at a height below
`nNewPowDiffHeight`, with the interval defined and a positive timespan `T`: off the
retarget boundary the transition is permitted exactly when the bits are equal; on the
boundary exactly when `decode(new_bits)` lies between the compact-rounded values (the
decoding of the encoding) of `min(powLimit, decode(old_bits) * (T/4) / T)` and of
`min(powLimit, decode(old_bits) * (T*4) / T)`, bounds included; the products are
256-bit products by the 32-bit value of the factor.  For a 256-bit `powLimit` the
compact-rounded value is `compactRound`. -/
theorem C25_legacy_transition (params : Params) (height interval r : Int)
    (old_nbits new_nbits : Nat)
    (hf : params.fPowAllowMinDifficultyBlocks = false)
    (hh : height < params.nNewPowDiffHeight)
    (hI : params.DifficultyAdjustmentInterval = some interval)
    (hr : smod height interval = some r)
    (hT : 0 < params.nPowTargetTimespan) (hT63 : params.nPowTargetTimespan < 2 ^ 63) :
    (r ≠ 0 → PermittedDifficultyTransition params height old_nbits new_nbits =
      some (decide (old_nbits = new_nbits))) ∧
    (r = 0 → PermittedDifficultyTransition params height old_nbits new_nbits =
      some (decide (
        (SetCompact (GetCompact (min params.powLimit
          ((SetCompact old_nbits).value *
              (Int.tdiv params.nPowTargetTimespan 4 % 2 ^ 32).toNat % 2 ^ 256 /
            params.nPowTargetTimespan.toNat)))).value ≤ (SetCompact new_nbits).value ∧
        (SetCompact new_nbits).value ≤
          (SetCompact (GetCompact (min params.powLimit
            ((SetCompact old_nbits).value *
                (params.nPowTargetTimespan * 4 % 2 ^ 32).toNat % 2 ^ 256 /
              params.nPowTargetTimespan.toNat)))).value))) ∧
    (params.powLimit < 2 ^ 256 → ∀ t : Nat,
      (SetCompact (GetCompact (min params.powLimit t))).value =
        compactRound (min params.powLimit t)) := by
  have hnh : ¬ (height ≥ params.nNewPowDiffHeight) := by omega
  refine ⟨?_, ?_, ?_⟩
  · intro hr0
    unfold PermittedDifficultyTransition
    simp only [hf, Bool.false_eq_true, if_false, if_neg hnh, hI, hr, if_neg hr0]
    by_cases he : old_nbits = new_nbits
    · simp [he]
    · simp [he]
  · intro hr0
    unfold PermittedDifficultyTransition
    simp only [hf, Bool.false_eq_true, if_false, if_neg hnh, hI, hr, if_pos hr0,
      divSmall_pos _ _ hT (show params.nPowTargetTimespan < 2 ^ 64 by omega), cap_eq_min,
      mulSmall, U256]
    generalize (SetCompact (GetCompact (min params.powLimit
          ((SetCompact old_nbits).value *
              (Int.tdiv params.nPowTargetTimespan 4 % 2 ^ 32).toNat % 2 ^ 256 /
            params.nPowTargetTimespan.toNat)))).value = lo
    generalize (SetCompact (GetCompact (min params.powLimit
            ((SetCompact old_nbits).value *
                (params.nPowTargetTimespan * 4 % 2 ^ 32).toNat % 2 ^ 256 /
              params.nPowTargetTimespan.toNat)))).value = hi
    generalize (SetCompact new_nbits).value = x
    by_cases h1 : hi < x
    · rw [if_pos h1, decide_eq_false (by omega)]
    · rw [if_neg h1]
      by_cases h2 : lo > x
      · rw [if_pos h2, decide_eq_false (by omega)]
      · rw [if_neg h2, decide_eq_true (by omega)]
  · intro hL t
    rw [SetCompact_GetCompact _ (lt_of_le_of_lt (Nat.min_le_left _ _) hL)]

/-- Witness of C25: timespan 1209600 and interval 2016; at height 2016 the transition
from 0x1d00ffff to 0x1c7fff80 is permitted and the one to 0x1b00ffff (more than four
times harder) is not; at height 100 only equal bits are permitted. -/
theorem C25_legacy_transition_witness :
    PermittedDifficultyTransition exParamsNew 2016 0x1d00ffff 0x1c7fff80 = some true ∧
      PermittedDifficultyTransition exParamsNew 2016 0x1d00ffff 0x1b00ffff = some false ∧
      PermittedDifficultyTransition exParamsNew 100 0x1d00ffff 0x1d00ffff = some true ∧
      PermittedDifficultyTransition exParamsNew 100 0x1d00ffff 0x1c7fff80 = some false :=
  ⟨((C25_legacy_transition exParamsNew 2016 2016 0 0x1d00ffff 0x1c7fff80 (by decide)
      (by decide) (by decide) (by decide) (by decide) (by decide)).2.1 rfl).trans (by decide),
   ((C25_legacy_transition exParamsNew 2016 2016 0 0x1d00ffff 0x1b00ffff (by decide)
      (by decide) (by decide) (by decide) (by decide) (by decide)).2.1 rfl).trans (by decide),
   ((C25_legacy_transition exParamsNew 100 2016 100 0x1d00ffff 0x1d00ffff (by decide)
      (by decide) (by decide) (by decide) (by decide) (by decide)).1 (by decide)).trans
      (by decide),
   ((C25_legacy_transition exParamsNew 100 2016 100 0x1d00ffff 0x1c7fff80 (by decide)
      (by decide) (by decide) (by decide) (by decide) (by decide)).1 (by decide)).trans
      (by decide)⟩

/-- On a well-formed chain the height of the first node is non-negative and every
height from 0 to it has its ancestor. -/
theorem GetAncestor_wellFormed :
    ∀ (ch : List CBlockIndex) (b : CBlockIndex) (rest : List CBlockIndex), ch = b :: rest →
      wellFormedChain ch = true →
      0 ≤ b.nHeight ∧ ∀ h : Int, 0 ≤ h → h ≤ b.nHeight → GetAncestor ch h ≠ [] := by
  intro ch
  induction ch with
  | nil => intro b rest h; cases h
  | cons a tl ih =>
    intro b rest hb hwf
    cases hb
    cases tl with
    | nil =>
      simp only [wellFormedChain, decide_eq_true_eq] at hwf
      refine ⟨by omega, ?_⟩
      intro h h0 h1
      rw [GetAncestor, if_neg (by omega), if_pos (by omega)]
      simp
    | cons c rest2 =>
      simp only [wellFormedChain, Bool.and_eq_true, decide_eq_true_eq] at hwf
      obtain ⟨hc0, hanc⟩ := ih c rest2 rfl hwf.2
      refine ⟨by omega, ?_⟩
      intro h h0 h1
      rw [GetAncestor, if_neg (by omega)]
      by_cases he : a.nHeight = h
      · rw [if_pos he]; simp
      · rw [if_neg he]
        exact hanc h h0 (by omega)

/-- With a positive window and spacing whose product fits in 64 bits, the averaging
retarget returns a value. -/
theorem averagingRetarget_isSome (last : CBlockIndex) (prev : List CBlockIndex) (params : Params)
    (hw : 0 < params.nPowAveragingWindow) (hs : 0 < params.nPostBlossomPowTargetSpacing)
    (hW63 : params.nPowAveragingWindow < 2 ^ 63)
    (hA63 : params.nPowAveragingWindow * params.nPostBlossomPowTargetSpacing < 2 ^ 63) :
    ∃ r, averagingRetarget last prev params = some r := by
  have hv : ¬ (params.nPowAveragingWindow ≤ 0 ∨ params.nPostBlossomPowTargetSpacing ≤ 0) := by
    omega
  have hawt : params.AveragingWindowTimespan =
      params.nPowAveragingWindow * params.nPostBlossomPowTargetSpacing := by
    unfold Params.AveragingWindowTimespan
    rw [if_neg hv]
  have hpos : 0 < params.nPowAveragingWindow * params.nPostBlossomPowTargetSpacing :=
    Int.mul_pos hw hs
  unfold averagingRetarget
  simp only []
  generalize averagingLoop params.nPowAveragingWindow 0 (last :: prev) 0 = res
  obtain ⟨tot, first⟩ := res
  cases first with
  | nil => exact ⟨_, rfl⟩
  | cons f rest =>
    simp only []
    rw [divSmall_pos _ _ hw (by omega)]
    simp only []
    unfold CalculateNextWorkRequiredNew
    simp only [hawt]
    rw [if_neg (by omega), divSmall_pos _ _ hpos (by omega)]
    exact ⟨_, rfl⟩

/-- The stages of the new algorithm after the old emergency rule return a value. -/
theorem range1Rules_isSome (last : CBlockIndex) (prev : List CBlockIndex) (dt : Int)
    (params : Params)
    (hw : 0 < params.nPowAveragingWindow) (hs : 0 < params.nPostBlossomPowTargetSpacing)
    (hW63 : params.nPowAveragingWindow < 2 ^ 63)
    (hA63 : params.nPowAveragingWindow * params.nPostBlossomPowTargetSpacing < 2 ^ 63) :
    ∃ r, range1Rules last prev dt params = some r := by
  have havg := averagingRetarget_isSome last prev params hw hs hW63 hA63
  unfold range1Rules
  split
  · exact ⟨_, rfl⟩
  · unfold range2Rules
    split
    · split
      · exact ⟨_, rfl⟩
      · unfold postForkRules
        simp only []
        split_ifs
        all_goals first | exact ⟨_, rfl⟩ | exact havg
    · exact havg

/-- The new algorithm returns a value. -/
theorem GetNextWorkRequiredNew_isSome (last : CBlockIndex) (prev : List CBlockIndex)
    (pblock : Option CBlockHeader) (params : Params)
    (hW63 : params.nPowAveragingWindow < 2 ^ 63)
    (hA63 : params.nPowAveragingWindow * params.nPostBlossomPowTargetSpacing < 2 ^ 63) :
    ∃ r, GetNextWorkRequiredNew (last :: prev) pblock params = some r := by
  by_cases hnr : params.fPowNoRetargeting = true
  · exact ⟨last.nBits, by simp only [GetNextWorkRequiredNew, hnr, if_true]⟩
  · have hnr' : params.fPowNoRetargeting = false := by simpa using hnr
    by_cases hv : params.nPowAveragingWindow ≤ 0 ∨ params.nPostBlossomPowTargetSpacing ≤ 0
    · exact ⟨GetCompact params.pownewlimit, by
        simp only [GetNextWorkRequiredNew, hnr', Bool.false_eq_true, if_false, if_pos hv]⟩
    · have hw : 0 < params.nPowAveragingWindow := by omega
      have hs : 0 < params.nPostBlossomPowTargetSpacing := by omega
      cases pblock with
      | none =>
        have h : GetNextWorkRequiredNew (last :: prev) none params =
            averagingRetarget last prev params := by
          simp only [GetNextWorkRequiredNew, hnr', Bool.false_eq_true, if_false, if_neg hv]
        rw [h]
        exact averagingRetarget_isSome last prev params hw hs hW63 hA63
      | some blk =>
        rw [GetNextWorkRequiredNew_candidate last prev blk params hnr' hw hs]
        split
        · exact ⟨_, rfl⟩
        · exact range1Rules_isSome last prev _ params hw hs hW63 hA63

/-- C26: for a well-formed chain (`wellFormedChain`: the predecessor of each node one
lower, down to height 0), a candidate and parameters with `nPowTargetSpacing > 0` and
`nPowTargetTimespan ≥ nPowTargetSpacing` (and the timespan, the window and the window
timespan in the 64-bit signed range), `GetNextWorkRequired` returns a value: no assertion
fails, nothing is divided by zero and no missing node is read.  The interval is defined
and positive, and on the legacy retarget boundary `H - (interval - 1)` is non-negative
and its ancestor exists. -/
theorem C26_engine_total (last : CBlockIndex) (prev : List CBlockIndex) (blk : CBlockHeader)
    (params : Params)
    (hwf : wellFormedChain (last :: prev) = true)
    (hS : 0 < params.nPowTargetSpacing)
    (hT : params.nPowTargetSpacing ≤ params.nPowTargetTimespan)
    (hT63 : params.nPowTargetTimespan < 2 ^ 63)
    (hW63 : params.nPowAveragingWindow < 2 ^ 63)
    (hA63 : params.nPowAveragingWindow * params.nPostBlossomPowTargetSpacing < 2 ^ 63) :
    (∃ r, GetNextWorkRequired (last :: prev) (some blk) params = some r) ∧
      (∃ interval, params.DifficultyAdjustmentInterval = some interval ∧ 0 < interval ∧
        (smod (last.nHeight + 1) interval = some 0 →
          0 ≤ last.nHeight - (interval - 1) ∧
          GetAncestor (last :: prev) (last.nHeight - (interval - 1)) ≠ [])) := by
  obtain ⟨hH, hanc⟩ := GetAncestor_wellFormed (last :: prev) last prev rfl hwf
  have hI : params.DifficultyAdjustmentInterval =
      some (Int.tdiv params.nPowTargetTimespan params.nPowTargetSpacing) := by
    unfold Params.DifficultyAdjustmentInterval sdiv
    rw [if_neg (by omega)]
  have hIpos : 0 < Int.tdiv params.nPowTargetTimespan params.nPowTargetSpacing := by
    rw [Int.tdiv_eq_ediv (by omega) (by omega)]
    have := Int.le_ediv_of_mul_le hS
      (show 1 * params.nPowTargetSpacing ≤ params.nPowTargetTimespan by omega)
    omega
  generalize hIdef : Int.tdiv params.nPowTargetTimespan params.nPowTargetSpacing = interval
    at hI hIpos
  have hboundary : smod (last.nHeight + 1) interval = some 0 →
      0 ≤ last.nHeight - (interval - 1) ∧
        GetAncestor (last :: prev) (last.nHeight - (interval - 1)) ≠ [] := by
    intro hm
    unfold smod at hm
    rw [if_neg (by omega)] at hm
    have hz : Int.tmod (last.nHeight + 1) interval = 0 := Option.some.inj hm
    rw [Int.tmod_eq_emod (by omega) (by omega)] at hz
    have hle : interval ≤ last.nHeight + 1 :=
      Int.le_of_dvd (by omega) (Int.dvd_of_emod_eq_zero hz)
    exact ⟨by omega, hanc _ (by omega) (by omega)⟩
  refine ⟨?_, interval, hI, hIpos, hboundary⟩
  unfold GetNextWorkRequired
  simp only [List.isEmpty_cons, Bool.false_eq_true, if_false]
  split
  · exact ⟨_, rfl⟩
  · split
    · exact GetNextWorkRequiredNew_isSome last prev (some blk) params hW63 hA63
    · unfold legacyNextWork
      simp only [hI]
      split
      · exact ⟨_, rfl⟩
      · split
        · exact ⟨_, rfl⟩
        · have hsm : smod (last.nHeight + 1) interval =
              some (Int.tmod (last.nHeight + 1) interval) := by
            unfold smod
            rw [if_neg (by omega)]
          by_cases hr : Int.tmod (last.nHeight + 1) interval = 0
          · rw [hr] at hsm
            obtain ⟨h0, hne⟩ := hboundary hsm
            simp only [hsm, ne_eq, not_true_eq_false, if_false, if_neg (not_lt.mpr h0)]
            cases hg : GetAncestor (last :: prev) (last.nHeight - (interval - 1)) with
            | nil => exact absurd hg hne
            | cons first rest =>
              simp only []
              unfold CalculateNextWorkRequired
              split
              · exact ⟨_, rfl⟩
              · simp only []
                rw [divSmall_pos _ _ (by omega) (by omega)]
                exact ⟨_, rfl⟩
          · simp only [hsm, ne_eq, hr, not_false_eq_true, if_true]
            split
            · split
              · exact ⟨_, rfl⟩
              · exact ⟨_, rfl⟩
            · exact ⟨_, rfl⟩

/-- Witness of C26: the chain of 2016 nodes from height 2015 down to the genesis node,
whose last node is on the retarget boundary. -/
theorem C26_engine_total_witness :
    (∃ r, GetNextWorkRequired (c12Last :: c12Prev) (some (candidateAt 1700000600)) exParamsNew =
      some r) ∧
      (∃ interval, exParamsNew.DifficultyAdjustmentInterval = some interval ∧ 0 < interval ∧
        (smod (c12Last.nHeight + 1) interval = some 0 →
          0 ≤ c12Last.nHeight - (interval - 1) ∧
          GetAncestor (c12Last :: c12Prev) (c12Last.nHeight - (interval - 1)) ≠ [])) :=
  C26_engine_total c12Last c12Prev (candidateAt 1700000600) exParamsNew (by decide) (by decide)
    (by decide) (by decide) (by decide) (by decide)


/-! ### The version setters -/

/-- The low `i` bits of a bitwise or. -/
theorem or_mod_two_pow (x y i : Nat) : (x ||| y) % 2 ^ i = x % 2 ^ i ||| y % 2 ^ i := by
  apply Nat.eq_of_testBit_eq
  intro j
  simp only [Nat.testBit_mod_two_pow, Nat.testBit_or]
  cases decide (j < i) <;> simp

/-- The bits of a bitwise or from bit `i` on. -/
theorem or_div_two_pow (x y i : Nat) : (x ||| y) / 2 ^ i = x / 2 ^ i ||| y / 2 ^ i := by
  apply Nat.eq_of_testBit_eq
  intro j
  simp only [← Nat.shiftRight_eq_div_pow, Nat.testBit_shiftRight, Nat.testBit_or]

/-- The low `i` bits of a bitwise and. -/
theorem and_mod_two_pow (x y i : Nat) : (x &&& y) % 2 ^ i = x % 2 ^ i &&& y % 2 ^ i := by
  apply Nat.eq_of_testBit_eq
  intro j
  simp only [Nat.testBit_mod_two_pow, Nat.testBit_and]
  cases decide (j < i) <;> simp

/-- The bits of a bitwise and from bit `i` on. -/
theorem and_div_two_pow (x y i : Nat) : (x &&& y) / 2 ^ i = x / 2 ^ i &&& y / 2 ^ i := by
  apply Nat.eq_of_testBit_eq
  intro j
  simp only [← Nat.shiftRight_eq_div_pow, Nat.testBit_shiftRight, Nat.testBit_and]

/-- Setting bit 8: the value grows by `2^8` when the bit is clear. -/
theorem or_bit8 (x : Nat) : x ||| 2 ^ 8 = if x / 2 ^ 8 % 2 = 1 then x else x + 2 ^ 8 := by
  have hlo : (x ||| 2 ^ 8) % 2 ^ 8 = x % 2 ^ 8 := by
    rw [or_mod_two_pow]; simp
  have hhi : (x ||| 2 ^ 8) / 2 ^ 8 = x / 2 ^ 8 ||| 1 := by
    rw [or_div_two_pow]; simp
  have h1 : (x / 2 ^ 8 ||| 1) % 2 = 1 := by
    rw [Nat.or_mod_two_eq_one]; right; rfl
  have h2 : (x / 2 ^ 8 ||| 1) / 2 = x / 2 ^ 8 / 2 := by
    rw [Nat.or_div_two]; simp
  split <;> omega

/-- Clearing bit 8 of a 32-bit value: the value drops by `2^8` when the bit is set. -/
theorem and_not_bit8 (x : Nat) (hx : x < 2 ^ 32) :
    x &&& (2 ^ 32 - 1 - 2 ^ 8) = if x / 2 ^ 8 % 2 = 1 then x - 2 ^ 8 else x := by
  have hlo : (x &&& (2 ^ 32 - 1 - 2 ^ 8)) % 2 ^ 8 = x % 2 ^ 8 := by
    rw [and_mod_two_pow]
    have : (2 ^ 32 - 1 - 2 ^ 8) % 2 ^ 8 = 2 ^ 8 - 1 := by decide
    rw [this, Nat.and_pow_two_sub_one_eq_mod]
    exact Nat.mod_mod _ _
  have hhi : (x &&& (2 ^ 32 - 1 - 2 ^ 8)) / 2 ^ 8 = x / 2 ^ 8 &&& (2 ^ 24 - 2) := by
    rw [and_div_two_pow]
    have : (2 ^ 32 - 1 - 2 ^ 8) / 2 ^ 8 = 2 ^ 24 - 2 := by decide
    rw [this]
  have h1 : (x / 2 ^ 8 &&& (2 ^ 24 - 2)) % 2 = 0 := by
    have := @Nat.and_mod_two_eq_one (x / 2 ^ 8) (2 ^ 24 - 2)
    have h0 : ¬ ((2 ^ 24 - 2) % 2 = 1) := by decide
    omega
  have h2 : (x / 2 ^ 8 &&& (2 ^ 24 - 2)) / 2 = x / 2 ^ 8 / 2 := by
    rw [Nat.and_div_two]
    have : (2 ^ 24 - 2) / 2 = 2 ^ 23 - 1 := by decide
    rw [this, Nat.and_pow_two_sub_one_eq_mod]
    exact Nat.mod_eq_of_lt (by omega)
  split <;> omega

/-- All sixteen bits set absorb a 16-bit value. -/
theorem ones16_or (c : Nat) (hc : c < 2 ^ 16) : (2 ^ 16 - 1) ||| c = 2 ^ 16 - 1 := by
  apply Nat.eq_of_testBit_eq
  intro j
  rw [Nat.testBit_or, Nat.testBit_two_pow_sub_one]
  by_cases hj : j < 16
  · simp [hj]
  · have : c < 2 ^ j := lt_of_lt_of_le hc (Nat.pow_le_pow_right (by decide) (by omega))
    simp [hj, Nat.testBit_lt_two_pow this]

/-- The remainder of the truncating division by a positive number, by the sign of the
dividend. -/
theorem tmod_by_sign (v d : Int) (hd : 0 < d) :
    Int.tmod v d = if 0 ≤ v then v % d else -((-v) % d) := by
  split
  · rename_i h0
    exact Int.tmod_eq_emod h0 (by omega)
  · have h1 : Int.tdiv v d = -(Int.tdiv (-v) d) := by
      rw [Int.neg_tdiv, Int.neg_neg]
    rw [Int.tmod_def, h1, Int.tdiv_eq_ediv (by omega) (by omega), Int.emod_def]
    rw [Int.mul_neg]
    omega

/-- The truncating division by a positive number, by the sign of the dividend. -/
theorem tdiv_by_sign (v d : Int) (hd : 0 < d) :
    Int.tdiv v d = if 0 ≤ v then v / d else -((-v) / d) := by
  split
  · rename_i h0
    exact Int.tdiv_eq_ediv h0 (by omega)
  · have h1 : Int.tdiv v d = -(Int.tdiv (-v) d) := by
      rw [Int.neg_tdiv, Int.neg_neg]
    rw [h1, Int.tdiv_eq_ediv (by omega) (by omega)]

/-- The two's complement bits of a 32-bit signed value. -/
theorem toU32_of_range (v : Int) (hv : -2 ^ 31 ≤ v ∧ v < 2 ^ 31) :
    (toU32 v : Int) = if 0 ≤ v then v else v + 2 ^ 32 := by
  unfold toU32
  split <;> omega

/-- The 32-bit signed value of 32 bits. -/
theorem toI32_of_lt (x : Nat) (hx : x < 2 ^ 32) :
    toI32 x = if x < 2 ^ 31 then (x : Int) else (x : Int) - 2 ^ 32 := by
  unfold toI32
  rw [Nat.mod_eq_of_lt hx]

/-- C31 (amended): for a 32-bit signed `nVersion` and a chain id `c` with
`0 ≤ c < 0x8000`, `SetChainId(c)` leaves the low 16 bits of `nVersion` unchanged, and
with them the base version and the AuxPoW flag; `GetChainId` then returns `c` when
`nVersion` was non-negative or had its low 16 bits zero, and 0 when `nVersion` was
negative with non-zero low 16 bits, the signed remainder keeping the high bits set. -/
theorem C31_SetChainId (h : CPureBlockHeader) (c : Int)
    (hv : -2 ^ 31 ≤ h.nVersion ∧ h.nVersion < 2 ^ 31) (hc : 0 ≤ c ∧ c < 0x8000) :
    toU32 (h.SetChainId c).nVersion % 2 ^ 16 = toU32 h.nVersion % 2 ^ 16 ∧
    (h.SetChainId c).GetBaseVersion = h.GetBaseVersion ∧
    (h.SetChainId c).IsAuxpow = h.IsAuxpow ∧
    (0 ≤ h.nVersion ∨ toU32 h.nVersion % 2 ^ 16 = 0 → (h.SetChainId c).GetChainId = c) ∧
    (h.nVersion < 0 → toU32 h.nVersion % 2 ^ 16 ≠ 0 → (h.SetChainId c).GetChainId = 0) := by
  have hx := toU32_of_range h.nVersion hv
  -- the bits after `nVersion %= VERSION_CHAIN_START`
  have hv1 := tmod_by_sign h.nVersion 65536 (by decide)
  generalize hx1 : toU32 (Int.tmod h.nVersion 65536) = x1
  have hx1lo : x1 % 2 ^ 16 = toU32 h.nVersion % 2 ^ 16 := by
    rw [← hx1]
    unfold toU32
    rw [hv1]
    split <;> omega
  have hx1hi : x1 / 2 ^ 16 =
      if 0 ≤ h.nVersion ∨ toU32 h.nVersion % 2 ^ 16 = 0 then 0 else 2 ^ 16 - 1 := by
    rw [← hx1]
    unfold toU32
    rw [hv1]
    split <;> split <;> omega
  -- the bits of `chainId * VERSION_CHAIN_START`
  have hxc : toU32 (c * VERSION_CHAIN_START) = c.toNat * 2 ^ 16 := by
    unfold toU32 VERSION_CHAIN_START
    omega
  -- the new bits, in arithmetic
  obtain ⟨y, hy32, hnew, hylo, hyhi⟩ : ∃ y : Nat, y < 2 ^ 32 ∧
      (h.SetChainId c).nVersion = toI32 y ∧ y % 2 ^ 16 = toU32 h.nVersion % 2 ^ 16 ∧
      y / 2 ^ 16 = (if 0 ≤ h.nVersion ∨ toU32 h.nVersion % 2 ^ 16 = 0 then c.toNat
        else 2 ^ 16 - 1) := by
    refine ⟨x1 ||| c.toNat * 2 ^ 16, ?_, ?_, ?_, ?_⟩
    · refine Nat.or_lt_two_pow ?_ (by omega)
      have := Nat.div_add_mod x1 (2 ^ 16)
      have := Nat.mod_lt x1 (show 0 < 2 ^ 16 by decide)
      split at hx1hi <;> omega
    · unfold CPureBlockHeader.SetChainId
      simp only [hxc]
      rw [show VERSION_CHAIN_START = 65536 from rfl, hx1]
    · rw [or_mod_two_pow, Nat.mul_mod_left, Nat.or_zero, hx1lo]
    · rw [or_div_two_pow, Nat.mul_div_cancel _ (by decide), hx1hi]
      split
      · exact Nat.zero_or _
      · exact ones16_or _ (by omega)
  have hnv := toI32_of_lt y hy32
  have hback : toU32 (toI32 y) = y := by
    have := toU32_of_range (toI32 y) (by rw [hnv]; split <;> omega)
    have h2 : (toU32 (toI32 y) : Int) = y := by rw [this, hnv]; split <;> split <;> omega
    exact_mod_cast h2
  have hdm := Nat.div_add_mod y (2 ^ 16)
  have hdmx := Nat.div_add_mod (toU32 h.nVersion) (2 ^ 16)
  refine ⟨?_, ?_, ?_, ?_, ?_⟩
  · rw [hnew, hback, hylo]
  · unfold CPureBlockHeader.GetBaseVersion Classic2.GetBaseVersion VERSION_AUXPOW
    rw [hnew, hnv, tmod_by_sign _ _ (by decide), tmod_by_sign _ _ (by decide)]
    split at hyhi <;> split <;> split <;> split <;> omega
  · unfold CPureBlockHeader.IsAuxpow
    rw [hnew, hback, show (0x100 : Nat) = 2 ^ 8 from rfl]
    refine decide_eq_decide.mpr ?_
    rw [and_two_pow_ne_zero_iff, and_two_pow_ne_zero_iff]
    omega
  · intro hcase
    unfold CPureBlockHeader.GetChainId VERSION_CHAIN_START
    rw [hnew, hnv, tdiv_by_sign _ _ (by decide)]
    rw [if_pos hcase] at hyhi
    split <;> split <;> omega
  · intro hneg hlow
    unfold CPureBlockHeader.GetChainId VERSION_CHAIN_START
    rw [hnew, hnv, tdiv_by_sign _ _ (by decide)]
    rw [if_neg (by omega)] at hyhi
    split <;> split <;> omega

/-- Witness of C31: `exHeader` (version `0x002a0101`) gets the chain id 7 and keeps its
flag and its base version. -/
theorem C31_SetChainId_witness :
    (exHeader.SetChainId 7).GetChainId = 7 ∧ (exHeader.SetChainId 7).nVersion = 0x00070101 ∧
      (exHeader.SetChainId 7).IsAuxpow = exHeader.IsAuxpow ∧
      (exHeader.SetChainId 7).GetBaseVersion = exHeader.GetBaseVersion :=
  ⟨(C31_SetChainId exHeader 7 (by decide) (by decide)).2.2.2.1 (Or.inl (by decide)),
   by decide,
   (C31_SetChainId exHeader 7 (by decide) (by decide)).2.2.1,
   (C31_SetChainId exHeader 7 (by decide) (by decide)).2.1⟩

/-- C31 (as stated) fails: on the version `-1` (all bits set) `SetChainId(5)` leaves the
version at `-1`, and `GetChainId` returns 0, not 5. -/
theorem C31_negative_version_chain_id :
    (({ exHeader with nVersion := -1 } : CPureBlockHeader).SetChainId 5).nVersion = -1 ∧
      (({ exHeader with nVersion := -1 } : CPureBlockHeader).SetChainId 5).GetChainId = 0 ∧
      (({ exHeader with nVersion := -1 } : CPureBlockHeader).SetChainId 5).GetChainId ≠ 5 := by
  decide

/-- C32 (amended): for a 32-bit signed `nVersion` and a boolean `b`, after
`SetAuxpowVersion(b)` the flag is `b`, the base version is the one before, the five
other fields are unchanged, and the chain id is the one before when `nVersion` is
non-negative, or its low 16 bits apart from bit 8 are not all zero, or the flag was `b`
already. -/
theorem C32_SetAuxpowVersion (h : CPureBlockHeader) (b : Bool)
    (hv : -2 ^ 31 ≤ h.nVersion ∧ h.nVersion < 2 ^ 31) :
    (h.SetAuxpowVersion b).IsAuxpow = b ∧
    (h.SetAuxpowVersion b).GetBaseVersion = h.GetBaseVersion ∧
    (0 ≤ h.nVersion ∨ (toU32 h.nVersion % 2 ^ 16 ≠ 0 ∧ toU32 h.nVersion % 2 ^ 16 ≠ 2 ^ 8) ∨
        h.IsAuxpow = b →
      (h.SetAuxpowVersion b).GetChainId = h.GetChainId) ∧
    (h.SetAuxpowVersion b).hashPrevBlock = h.hashPrevBlock ∧
    (h.SetAuxpowVersion b).hashMerkleRoot = h.hashMerkleRoot ∧
    (h.SetAuxpowVersion b).nTime = h.nTime ∧
    (h.SetAuxpowVersion b).nBits = h.nBits ∧
    (h.SetAuxpowVersion b).nNonce = h.nNonce := by
  have hx := toU32_of_range h.nVersion hv
  have hx32 : toU32 h.nVersion < 2 ^ 32 := by
    have : (toU32 h.nVersion : Int) < 2 ^ 32 := by rw [hx]; split <;> omega
    exact_mod_cast this
  have hflag : h.IsAuxpow = decide (toU32 h.nVersion / 2 ^ 8 % 2 = 1) := by
    unfold CPureBlockHeader.IsAuxpow
    rw [show (0x100 : Nat) = 2 ^ 8 from rfl]
    exact decide_eq_decide.mpr (and_two_pow_ne_zero_iff _ 8)
  -- the new bits, in arithmetic
  obtain ⟨y, hy32, hnew, hy⟩ : ∃ y : Nat, y < 2 ^ 32 ∧ (h.SetAuxpowVersion b).nVersion = toI32 y ∧
      y = (if b then (if toU32 h.nVersion / 2 ^ 8 % 2 = 1 then toU32 h.nVersion
              else toU32 h.nVersion + 2 ^ 8)
            else (if toU32 h.nVersion / 2 ^ 8 % 2 = 1 then toU32 h.nVersion - 2 ^ 8
              else toU32 h.nVersion)) := by
    cases b with
    | true =>
      have e1 : toU32 VERSION_AUXPOW = 2 ^ 8 := by decide
      refine ⟨toU32 h.nVersion ||| 2 ^ 8, Nat.or_lt_two_pow hx32 (by decide), ?_, ?_⟩
      · unfold CPureBlockHeader.SetAuxpowVersion
        simp only [if_true, e1]
      · rw [or_bit8]; rfl
    | false =>
      have e2 : toU32 (-VERSION_AUXPOW - 1) = 2 ^ 32 - 1 - 2 ^ 8 := by decide
      refine ⟨toU32 h.nVersion &&& (2 ^ 32 - 1 - 2 ^ 8), Nat.and_lt_two_pow _ (by decide),
        ?_, ?_⟩
      · unfold CPureBlockHeader.SetAuxpowVersion
        simp only [Bool.false_eq_true, if_false, e2]
      · rw [and_not_bit8 _ hx32]; rfl
  have hfields : ∀ b' : Bool, (h.SetAuxpowVersion b').hashPrevBlock = h.hashPrevBlock ∧
      (h.SetAuxpowVersion b').hashMerkleRoot = h.hashMerkleRoot ∧
      (h.SetAuxpowVersion b').nTime = h.nTime ∧ (h.SetAuxpowVersion b').nBits = h.nBits ∧
      (h.SetAuxpowVersion b').nNonce = h.nNonce := by
    intro b'
    cases b' <;> exact ⟨rfl, rfl, rfl, rfl, rfl⟩
  have hnv := toI32_of_lt y hy32
  have hback : toU32 (toI32 y) = y := by
    have := toU32_of_range (toI32 y) (by rw [hnv]; split <;> omega)
    have h2 : (toU32 (toI32 y) : Int) = y := by rw [this, hnv]; split <;> split <;> omega
    exact_mod_cast h2
  refine ⟨?_, ?_, ?_, hfields b⟩
  · unfold CPureBlockHeader.IsAuxpow
    rw [hnew, hback, show (0x100 : Nat) = 2 ^ 8 from rfl]
    have hiff := and_two_pow_ne_zero_iff y 8
    cases b with
    | true =>
      rw [decide_eq_true_iff, hiff]
      simp only [if_true] at hy
      split at hy <;> omega
    | false =>
      rw [decide_eq_false_iff_not, hiff]
      simp only [Bool.false_eq_true, if_false] at hy
      split at hy <;> omega
  · unfold CPureBlockHeader.GetBaseVersion Classic2.GetBaseVersion VERSION_AUXPOW
    rw [hnew, hnv, tmod_by_sign _ _ (by decide), tmod_by_sign _ _ (by decide)]
    cases b with
    | true =>
      simp only [if_true] at hy
      split at hy <;> split <;> split <;> split <;> omega
    | false =>
      simp only [Bool.false_eq_true, if_false] at hy
      split at hy <;> split <;> split <;> split <;> omega
  · intro hc
    unfold CPureBlockHeader.GetChainId VERSION_CHAIN_START
    rw [hnew, hnv, tdiv_by_sign _ _ (by decide), tdiv_by_sign _ _ (by decide)]
    rw [hflag] at hc
    cases b with
    | true =>
      simp only [if_true, decide_eq_true_eq] at hy hc
      split at hy <;> split <;> split <;> split <;> omega
    | false =>
      simp only [Bool.false_eq_true, if_false, decide_eq_false_iff_not] at hy hc
      split at hy <;> split <;> split <;> split <;> omega

/-- Witness of C32: clearing the flag of `exHeader` (version `0x002a0101`) gives the
version `0x002a0001` with the chain id 42 and the base version 1 as before. -/
theorem C32_SetAuxpowVersion_witness :
    (exHeader.SetAuxpowVersion false).IsAuxpow = false ∧
      (exHeader.SetAuxpowVersion false).GetChainId = exHeader.GetChainId ∧
      (exHeader.SetAuxpowVersion false).GetBaseVersion = exHeader.GetBaseVersion ∧
      (exHeader.SetAuxpowVersion false).nVersion = 0x002a0001 :=
  ⟨(C32_SetAuxpowVersion exHeader false (by decide)).1,
   (C32_SetAuxpowVersion exHeader false (by decide)).2.2.1 (Or.inl (by decide)),
   (C32_SetAuxpowVersion exHeader false (by decide)).2.1,
   by decide⟩

/-- C32 (as stated) fails: the version `-65536` (`0xffff0000`) has the chain id `-1`;
setting the flag gives `-65280` (`0xffff0100`), whose chain id is 0. -/
theorem C32_negative_version_chain_id :
    ({ exHeader with nVersion := -65536 } : CPureBlockHeader).GetChainId = -1 ∧
      (({ exHeader with nVersion := -65536 } : CPureBlockHeader).SetAuxpowVersion true).nVersion =
        -65280 ∧
      (({ exHeader with nVersion := -65536 } : CPureBlockHeader).SetAuxpowVersion true).GetChainId =
        0 := by
  decide


/-! ### Merkle branches and the chain index -/

/-- C33: with the index `-1`, `CheckMerkleBranch` returns the all-zero hash, the
`uint256` whose 32 bytes are zero, whatever the leaf and the branch. -/
theorem C33_sentinel_index (Hash : Nat → Nat → Nat) (leaf : Nat) (branch : List Nat) :
    CheckMerkleBranch Hash leaf branch (-1) = 0 ∧
      uint256Bytes (CheckMerkleBranch Hash leaf branch (-1)) = List.replicate 32 0 := by
  have h : CheckMerkleBranch Hash leaf branch (-1) = 0 := by
    unfold CheckMerkleBranch
    rw [if_pos rfl]
  rw [h]
  exact ⟨rfl, by decide⟩

/-- C34 (amended): with an index other than `-1`, folding an empty branch returns the
leaf unchanged; with the index `-1` the result is the all-zero hash. -/
theorem C34_empty_branch (Hash : Nat → Nat → Nat) (leaf : Nat) (index : Int) :
    (index ≠ -1 → CheckMerkleBranch Hash leaf [] index = leaf) ∧
      (index = -1 → CheckMerkleBranch Hash leaf [] index = 0) := by
  constructor
  · intro h
    unfold CheckMerkleBranch
    rw [if_neg h]
    rfl
  · intro h
    unfold CheckMerkleBranch
    rw [if_pos h]

/-- Witness of C34: the leaf 1 folded along the empty branch with the indices 0 and 5. -/
theorem C34_empty_branch_witness :
    CheckMerkleBranch sha256Fns.Hash 1 [] 0 = 1 ∧ CheckMerkleBranch sha256Fns.Hash 1 [] 5 = 1 :=
  ⟨(C34_empty_branch sha256Fns.Hash 1 0).1 (by decide),
   (C34_empty_branch sha256Fns.Hash 1 5).1 (by decide)⟩

/-- C34 (as stated) fails: with the index `-1` the empty branch folds the leaf 1 to the
all-zero hash, not to the leaf. -/
theorem C34_sentinel_not_leaf :
    CheckMerkleBranch sha256Fns.Hash 1 [] (-1) = 0 ∧
      CheckMerkleBranch sha256Fns.Hash 1 [] (-1) ≠ 1 := by
  constructor
  · rfl
  · decide

/-- The expected index is a number from 0 to `2^h - 1`. -/
theorem getExpectedIndex_range (nNonce : Nat) (nChainId : Int) (h : Nat) :
    0 ≤ getExpectedIndex nNonce nChainId h ∧ getExpectedIndex nNonce nChainId h < 2 ^ h := by
  unfold getExpectedIndex
  simp only [Nat.one_shiftLeft]
  refine ⟨Int.ofNat_nonneg _, ?_⟩
  have hpos : 0 < 2 ^ h := Nat.two_pow_pos h
  have := Nat.mod_lt ((((nNonce % 2 ^ 32 * 1103515245 + 12345) % 2 ^ 32 + toU32 nChainId) %
    2 ^ 32 * 1103515245 + 12345) % 2 ^ 32) hpos
  exact_mod_cast this

/-- C36: when `check` succeeds, the chain index is the expected index, so it is at least
0 and below `2^len(vChainMerkleBranch)`, the branch having at most 30 entries; hence
`check` never succeeds with a negative chain index, the sentinel `-1` included, for
which the chain root is the all-zero hash. -/
theorem C36_chain_index_range (F : HashFns) (a : CAuxPow) (hashAuxBlock : Nat) (nChainId : Int)
    (params : Params) :
    (a.check F hashAuxBlock nChainId params = .ok →
      0 ≤ a.nChainIndex ∧ a.nChainIndex < 2 ^ a.vChainMerkleBranch.length ∧
        a.vChainMerkleBranch.length ≤ 30) ∧
    (a.nChainIndex < 0 → a.check F hashAuxBlock nChainId params ≠ .ok) ∧
    (a.nChainIndex = -1 → a.vchRootHash F hashAuxBlock = List.replicate 32 0) := by
  have key : a.check F hashAuxBlock nChainId params = .ok →
      0 ≤ a.nChainIndex ∧ a.nChainIndex < 2 ^ a.vChainMerkleBranch.length ∧
        a.vChainMerkleBranch.length ≤ 30 := by
    intro hok
    obtain ⟨-, hlen, -, vin0, rest, -, hscript⟩ := (check_ok_iff F a hashAuxBlock nChainId params).mp hok
    obtain ⟨-, -, -, -, -, -, hidx⟩ := (checkScript_ok_iff _ _ _ _ _).mp hscript
    have hr := getExpectedIndex_range
      (DecodeLE32 (vin0.scriptSig.drop
        (search vin0.scriptSig (a.vchRootHash F hashAuxBlock) +
          (a.vchRootHash F hashAuxBlock).length + 4))) nChainId a.vChainMerkleBranch.length
    rw [← hidx] at hr
    exact ⟨hr.1, hr.2, hlen⟩
  refine ⟨key, ?_, ?_⟩
  · intro hneg hok
    have := (key hok).1
    omega
  · intro hm1
    unfold CAuxPow.vchRootHash CheckMerkleBranch
    rw [hm1, if_pos rfl]
    decide

set_option maxRecDepth 100000 in
/-- Witness of C36: the AuxPoW `exAuxPow` passes the check for `exHeader`; its chain
index 0 is in the range of a branch of length 0. -/
theorem C36_chain_index_range_witness :
    exAuxPow.check sha256Fns (sha256Fns.headerHash exHeader) 42 exParams = .ok ∧
      0 ≤ exAuxPow.nChainIndex ∧
      exAuxPow.nChainIndex < 2 ^ exAuxPow.vChainMerkleBranch.length :=
  have hok : exAuxPow.check sha256Fns (sha256Fns.headerHash exHeader) 42 exParams = .ok := by
    decide
  have h := (C36_chain_index_range sha256Fns exAuxPow (sha256Fns.headerHash exHeader) 42
    exParams).1 hok
  ⟨hok, h.1, h.2.1⟩

/-- Shifting right by `j` and then by one is shifting right by `j + 1`. -/
theorem half_ediv_two_pow (i : Int) (j : Nat) : i / 2 ^ j / 2 = i / 2 ^ (j + 1) := by
  have hP : (0 : Int) < 2 ^ j := by positivity
  have h1 := Int.emod_add_ediv i (2 ^ j)
  have h2 := Int.emod_add_ediv (i / 2 ^ j) 2
  have hm0 := Int.emod_nonneg i (ne_of_gt hP)
  have hm1 := Int.emod_lt_of_pos i hP
  have he0 := Int.emod_nonneg (i / 2 ^ j) (show (2 : Int) ≠ 0 by decide)
  have he1 := Int.emod_lt_of_pos (i / 2 ^ j) (show (0 : Int) < 2 by decide)
  have hpow : (2 : Int) ^ (j + 1) = 2 ^ j * 2 := pow_succ 2 j
  symm
  rw [hpow]
  refine ((Int.ediv_emod_unique (show (0 : Int) < 2 ^ j * 2 by omega)).mpr
    (⟨?_, ?_, ?_⟩ : (i % 2 ^ j + 2 ^ j * (i / 2 ^ j % 2)) + 2 ^ j * 2 * (i / 2 ^ j / 2) = i ∧
      0 ≤ i % 2 ^ j + 2 ^ j * (i / 2 ^ j % 2) ∧
      i % 2 ^ j + 2 ^ j * (i / 2 ^ j % 2) < 2 ^ j * 2)).1
  · linear_combination h1 + 2 ^ j * h2
  · have : 0 ≤ 2 ^ j * (i / 2 ^ j % 2) := Int.mul_nonneg (by omega) he0
    omega
  · have : 2 ^ j * (i / 2 ^ j % 2) ≤ 2 ^ j * 1 := Int.mul_le_mul_of_nonneg_left (by omega) (by omega)
    omega

/-- The loop of `CheckMerkleBranch` started at level `j` with the index shifted right by
`j` is the fold that reads bit `j`, `j + 1`, ... of the index. -/
theorem merkleFold_eq_bits (Hash : Nat → Nat → Nat) (i : Int) :
    ∀ (branch : List Nat) (hash j : Nat),
      merkleFold Hash hash branch (i / 2 ^ j) = merkleFoldBits Hash i hash j branch := by
  intro branch
  induction branch with
  | nil => intro hash j; rfl
  | cons item rest ih =>
    intro hash j
    rw [merkleFold, merkleFoldBits]
    have hdiv : i / 2 ^ j / 2 = i / 2 ^ (j + 1) := half_ediv_two_pow i j
    rw [hdiv]
    exact ih _ (j + 1)

/-- Bit `m` of `i mod 2^k` is bit `m` of `i` for `m < k`. -/
theorem bit_emod_two_pow (i : Int) (k m : Nat) (hm : m < k) :
    i % 2 ^ k / 2 ^ m % 2 = i / 2 ^ m % 2 := by
  have hk : (2 : Int) ^ k = 2 ^ m * (2 * 2 ^ (k - m - 1)) := by
    rw [← pow_succ', ← pow_add]
    congr 1
    omega
  have hpos : (0 : Int) < 2 ^ m := by positivity
  have h1 : i % 2 ^ k = i + 2 ^ m * (2 * (-(2 ^ (k - m - 1) * (i / 2 ^ k)))) := by
    rw [Int.emod_def, hk]
    ring
  rw [h1, Int.add_mul_ediv_left _ _ (ne_of_gt hpos), Int.add_mul_emod_self_left]

/-- The fold by bits from level `j` on, along a branch that ends at level `k` at most,
reads only the low `k` bits of the index. -/
theorem merkleFoldBits_emod (Hash : Nat → Nat → Nat) (i : Int) (k : Nat) :
    ∀ (branch : List Nat) (hash j : Nat), j + branch.length ≤ k →
      merkleFoldBits Hash (i % 2 ^ k) hash j branch = merkleFoldBits Hash i hash j branch := by
  intro branch
  induction branch with
  | nil => intro hash j _; rfl
  | cons item rest ih =>
    intro hash j hlen
    simp only [List.length_cons] at hlen
    rw [merkleFoldBits, merkleFoldBits, bit_emod_two_pow i k j (by omega)]
    exact ih _ (j + 1) (by omega)

/-- C37: for an index `i` other than `-1` and a branch of length `k`,
`CheckMerkleBranch` is the fold that hashes the sibling of level `j` on the left exactly
when bit `j` of `i` is 1 (`merkleFoldBits`), and it depends only on the low `k` bits of
`i`: it gives the same result for `i mod 2^k`. -/
theorem C37_low_bits (Hash : Nat → Nat → Nat) (leaf : Nat) (branch : List Nat) (i : Int)
    (hi : i ≠ -1) :
    CheckMerkleBranch Hash leaf branch i = merkleFoldBits Hash i leaf 0 branch ∧
      CheckMerkleBranch Hash leaf branch i =
        CheckMerkleBranch Hash leaf branch (i % 2 ^ branch.length) := by
  have hnn : (0 : Int) ≤ i % 2 ^ branch.length := Int.emod_nonneg _ (by positivity)
  have hne : i % 2 ^ branch.length ≠ -1 := by omega
  have h1 : ∀ x : Int, x ≠ -1 →
      CheckMerkleBranch Hash leaf branch x = merkleFoldBits Hash x leaf 0 branch := by
    intro x hx
    unfold CheckMerkleBranch
    rw [if_neg hx]
    have := merkleFold_eq_bits Hash x branch leaf 0
    simpa using this
  refine ⟨h1 i hi, ?_⟩
  rw [h1 i hi, h1 _ hne]
  exact (merkleFoldBits_emod Hash i branch.length branch leaf 0 (by omega)).symm

/-- Witness of C37: along a branch of length 2 the indices 6 and `-2` fold like their low
two bits, 2. -/
theorem C37_low_bits_witness :
    CheckMerkleBranch sha256Fns.Hash 1 [2, 3] 6 = CheckMerkleBranch sha256Fns.Hash 1 [2, 3] 2 ∧
      CheckMerkleBranch sha256Fns.Hash 1 [2, 3] (-2) =
        CheckMerkleBranch sha256Fns.Hash 1 [2, 3] 2 :=
  ⟨(C37_low_bits sha256Fns.Hash 1 [2, 3] 6 (by decide)).2,
   (C37_low_bits sha256Fns.Hash 1 [2, 3] (-2) (by decide)).2⟩


/-! ### The monotonicity of the averaging retarget -/

/-- The closed form of `CalculateNextWorkRequiredNew` for a positive window and
spacing. -/
theorem CalculateNextWorkRequiredNew_eq (bnAvg : Nat) (nFirstBlockTime nLastBlockTime : Int)
    (params : Params) (hw : 0 < params.nPowAveragingWindow)
    (hs : 0 < params.nPostBlossomPowTargetSpacing)
    (h63 : params.nPowAveragingWindow * params.nPostBlossomPowTargetSpacing < 2 ^ 63) :
    CalculateNextWorkRequiredNew bnAvg nFirstBlockTime nLastBlockTime params =
      some (GetCompact (min params.powLimit
        (mulSmall (bnAvg /
            (params.nPowAveragingWindow * params.nPostBlossomPowTargetSpacing).toNat)
          (min (max (params.nPowAveragingWindow * params.nPostBlossomPowTargetSpacing +
              Int.tdiv (nLastBlockTime - nFirstBlockTime -
                params.nPowAveragingWindow * params.nPostBlossomPowTargetSpacing) 4)
            params.MinActualTimespan) params.MaxActualTimespan)))) := by
  have hv : ¬ (params.nPowAveragingWindow ≤ 0 ∨ params.nPostBlossomPowTargetSpacing ≤ 0) := by
    omega
  have hawt : params.AveragingWindowTimespan =
      params.nPowAveragingWindow * params.nPostBlossomPowTargetSpacing := by
    unfold Params.AveragingWindowTimespan
    rw [if_neg hv]
  have hpos : 0 < params.nPowAveragingWindow * params.nPostBlossomPowTargetSpacing :=
    Int.mul_pos hw hs
  unfold CalculateNextWorkRequiredNew
  simp only [hawt]
  rw [if_neg (by omega), divSmall_pos _ _ hpos (by omega)]
  simp only [clamp_steps_eq, cap_eq_min]

/-- With non-negative percentages the clamp bounds lie on both sides of the window
timespan: `0 ≤ MinActualTimespan ≤ AveragingWindowTimespan ≤ MaxActualTimespan`. -/
theorem actualTimespan_bounds (params : Params)
    (hawt : 0 < params.AveragingWindowTimespan)
    (hup : 0 ≤ params.nPowMaxAdjustUp) (hdown : 0 ≤ params.nPowMaxAdjustDown) :
    0 ≤ params.MinActualTimespan ∧ params.MinActualTimespan ≤ params.AveragingWindowTimespan ∧
      params.AveragingWindowTimespan ≤ params.MaxActualTimespan := by
  unfold Params.MinActualTimespan Params.MaxActualTimespan
  simp only []
  generalize params.AveragingWindowTimespan = T at hawt ⊢
  have hmax0 : T * 100 ≤ T * (100 + params.nPowMaxAdjustDown) :=
    Int.mul_le_mul_of_nonneg_left (by omega) (by omega)
  have hmaxdiv : Int.tdiv (T * (100 + params.nPowMaxAdjustDown)) 100 =
      T * (100 + params.nPowMaxAdjustDown) / 100 := Int.tdiv_eq_ediv (by omega) (by omega)
  rw [hmaxdiv]
  split
  · rw [Int.tdiv_eq_ediv (by omega) (by omega)]
    omega
  · rename_i hlt
    have h1 : 0 ≤ T * (100 - params.nPowMaxAdjustUp) := Int.mul_nonneg (by omega) (by omega)
    have h2 : T * (100 - params.nPowMaxAdjustUp) ≤ T * 100 :=
      Int.mul_le_mul_of_nonneg_left (by omega) (by omega)
    rw [Int.tdiv_eq_ediv h1 (by omega)]
    omega

/-- The truncating division by 4 is monotone. -/
theorem tdiv_four_mono (a b : Int) (hab : a ≤ b) : Int.tdiv a 4 ≤ Int.tdiv b 4 := by
  rw [tdiv_by_sign a 4 (by decide), tdiv_by_sign b 4 (by decide)]
  split <;> split <;> omega

/-- C38: for a fixed average target, a positive window and spacing and non-negative
percentages, the target decoded from `CalculateNextWorkRequiredNew` does not decrease
when the elapsed time `nLastBlockTime - nFirstBlockTime` grows, provided that the
multiplication for the longer time does not overflow: its factor `A2`, the dampened and
clamped time, fits in 32 bits and the product in 256 bits.  The clamp bounds satisfy
`MinActualTimespan ≤ AWT ≤ MaxActualTimespan`. -/
theorem C38_monotone_in_elapsed (bnAvg : Nat) (first1 last1 first2 last2 AWT A2 : Int)
    (params : Params)
    (hw : 0 < params.nPowAveragingWindow) (hs : 0 < params.nPostBlossomPowTargetSpacing)
    (hAWT : AWT = params.nPowAveragingWindow * params.nPostBlossomPowTargetSpacing)
    (h63 : AWT < 2 ^ 63)
    (hup : 0 ≤ params.nPowMaxAdjustUp) (hdown : 0 ≤ params.nPowMaxAdjustDown)
    (hL : params.powLimit < 2 ^ 256)
    (hle : last1 - first1 ≤ last2 - first2)
    (hA2 : A2 = min (max (AWT + Int.tdiv (last2 - first2 - AWT) 4)
        params.MinActualTimespan) params.MaxActualTimespan)
    (h32 : A2 < 2 ^ 32) (hprod : bnAvg / AWT.toNat * A2.toNat < 2 ^ 256) :
    (∃ r1 r2 : Nat, CalculateNextWorkRequiredNew bnAvg first1 last1 params = some r1 ∧
      CalculateNextWorkRequiredNew bnAvg first2 last2 params = some r2 ∧
      (SetCompact r1).value ≤ (SetCompact r2).value) ∧
    (params.MinActualTimespan ≤ AWT ∧ AWT ≤ params.MaxActualTimespan) := by
  have hv : ¬ (params.nPowAveragingWindow ≤ 0 ∨ params.nPostBlossomPowTargetSpacing ≤ 0) := by
    omega
  have hawt : params.AveragingWindowTimespan = AWT := by
    unfold Params.AveragingWindowTimespan
    rw [if_neg hv, hAWT]
  have hpos : 0 < AWT := by rw [hAWT]; exact Int.mul_pos hw hs
  obtain ⟨hmin0, hminle, hmaxle⟩ := actualTimespan_bounds params (by omega) hup hdown
  rw [hawt] at hminle hmaxle
  refine ⟨?_, hminle, hmaxle⟩
  have e1 := CalculateNextWorkRequiredNew_eq bnAvg first1 last1 params hw hs (by omega)
  have e2 := CalculateNextWorkRequiredNew_eq bnAvg first2 last2 params hw hs (by omega)
  rw [← hAWT] at e1 e2
  rw [← hA2] at e2
  refine ⟨_, _, e1, e2, ?_⟩
  have hd := tdiv_four_mono (last1 - first1 - AWT) (last2 - first2 - AWT) (by omega)
  have hA1le : min (max (AWT + Int.tdiv (last1 - first1 - AWT) 4)
      params.MinActualTimespan) params.MaxActualTimespan ≤ A2 := by
    rw [hA2]
    exact min_le_min (max_le_max (by omega) (le_refl _)) (le_refl _)
  have hA10 : 0 ≤ min (max (AWT + Int.tdiv (last1 - first1 - AWT) 4)
      params.MinActualTimespan) params.MaxActualTimespan :=
    le_min (le_trans hmin0 (le_max_right _ _)) (by omega)
  have hmul := mulSmall_mono (bnAvg / AWT.toNat) _ A2 hA10 hA1le h32 hprod
  have hcap : min params.powLimit (mulSmall (bnAvg / AWT.toNat)
      (min (max (AWT + Int.tdiv (last1 - first1 - AWT) 4)
        params.MinActualTimespan) params.MaxActualTimespan)) ≤
      min params.powLimit (mulSmall (bnAvg / AWT.toNat) A2) :=
    min_le_min (le_refl _) hmul
  have hlt : min params.powLimit (mulSmall (bnAvg / AWT.toNat) A2) < 2 ^ 256 :=
    lt_of_le_of_lt (Nat.min_le_left _ _) hL
  rw [SetCompact_GetCompact _ (by omega), SetCompact_GetCompact _ hlt]
  exact compactRound_mono _ _ hcap hlt

/-- Witness of C38: window 17, spacing 600; with the average target `0xffff * 2^192`, an
elapsed time of 10200 s gives 0x1b00fffe and one of 20400 s the larger 0x1b013ffe. -/
theorem C38_monotone_in_elapsed_witness :
    CalculateNextWorkRequiredNew (0xffff * 2 ^ 192) 1699989800 1700000000 exParamsNew =
        some 0x1b00fffe ∧
      CalculateNextWorkRequiredNew (0xffff * 2 ^ 192) 1699979600 1700000000 exParamsNew =
        some 0x1b013ffe ∧
      ∃ r1 r2 : Nat,
        CalculateNextWorkRequiredNew (0xffff * 2 ^ 192) 1699989800 1700000000 exParamsNew =
          some r1 ∧
        CalculateNextWorkRequiredNew (0xffff * 2 ^ 192) 1699979600 1700000000 exParamsNew =
          some r2 ∧
        (SetCompact r1).value ≤ (SetCompact r2).value :=
  ⟨by decide, by decide,
   (C38_monotone_in_elapsed (0xffff * 2 ^ 192) 1699989800 1700000000 1699979600 1700000000
    10200 12750 exParamsNew (by decide) (by decide) (by decide) (by decide) (by decide)
    (by decide) (by decide) (by decide) (by decide) (by decide) (by decide)).1⟩


/-! ### The round trip of the engine through the validator -/

end Classic2
